import Mathlib

/-!
Authentication subsystem of wide-dhcpv6 (`auth.c`).

A shallow embedding of the MD5 digest engine, the HMAC-MD5 construction and the
message-MAC protocol of `auth.c`, together with the properties stated for them.

Conventions of the embedding.

* A byte is a `Nat` below 256, a `u_int32_t` is a `Nat` below `2 ^ 32`; every C
  operation that can leave the range is followed by an explicit reduction (`u32`).
* A pointer/length pair `(buf, len)` of the digest and HMAC layers is a `List Nat`
  holding the `len` bytes; `len` is `unsigned int` there, so the list is shorter
  than `2 ^ 32`.
* The array `u_int32_t in[16]` of `md5_t` is accessed by the code both as bytes and
  as words, so it is held as its 64 bytes of storage. Words are stored and loaded in
  host byte order, selected by the parameter `be` (`true` for a big-endian host).
* The data model is LP64: `size_t` and `ssize_t` have 64 bits, `unsigned int` 32.
* A local variable that the code leaves uninitialised (a `md5_t` or `hmacmd5_t` on the
  stack) starts from zeroed memory; `md5_init` and `hmacmd5_init` are modelled on an
  arbitrary incoming context, and the digests are proved not to depend on it.
* The functions of the protocol layer take the buffer as the list of the bytes that may
  be accessed, with the length and the offset as separate arguments as in C; the result
  is `none` when the code accesses memory outside the buffer.
-/

namespace Auth

/-! ## Machine words -/

/-- Reduction to the range of `u_int32_t`. -/
def u32 (x : Nat) : Nat := x % 4294967296

/-- Bitwise complement of a `u_int32_t` (the C operator `~`). -/
def not32 (x : Nat) : Nat := 4294967295 ^^^ x

/-- The four bytes of a word in host byte order. -/
def storeWord (be : Bool) (w : Nat) : List Nat :=
  if be then [w / 16777216 % 256, w / 65536 % 256, w / 256 % 256, w % 256]
  else [w % 256, w / 256 % 256, w / 65536 % 256, w / 16777216 % 256]

/-- The word that four bytes of storage hold in host byte order. -/
def loadWord (be : Bool) (p0 p1 p2 p3 : Nat) : Nat :=
  if be then p0 * 16777216 + p1 * 65536 + p2 * 256 + p3
  else p0 + p1 * 256 + p2 * 65536 + p3 * 16777216

/-- An array of words as its bytes of storage. -/
def storeWords (be : Bool) : List Nat → List Nat
  | [] => []
  | w :: ws => storeWord be w ++ storeWords be ws

/-- The words held by a region of storage (whole words only). -/
def loadWords (be : Bool) : List Nat → List Nat
  | p0 :: p1 :: p2 :: p3 :: rest => loadWord be p0 p1 p2 p3 :: loadWords be rest
  | _ => []

/-- The C library `memcpy(dst + off, src, src.length)` on a region `dst`. -/
def memcpy (dst : List Nat) (off : Nat) (src : List Nat) : List Nat :=
  dst.take off ++ src ++ dst.drop (off + src.length)

/-- The C library `memset(dst + off, c, n)` on a region `dst`. -/
def memset (dst : List Nat) (off : Nat) (c : Nat) (n : Nat) : List Nat :=
  memcpy dst off (List.replicate n c)

/-- The C library `memcmp` on the first `n` bytes: zero when they agree, otherwise the
difference of the first pair of bytes that differ (only its sign is fixed by C). -/
def memcmp : List Nat → List Nat → Nat → Int
  | a :: as, b :: bs, n + 1 => if a = b then memcmp as bs n else (a : Int) - (b : Int)
  | _, _, _ => 0

/-! ## MD5 -/

/-- State of the digest engine: `buf[4]`, `bytes[2]` and the storage of `in[16]`. -/
structure md5_t where
  buf : List Nat
  bytes0 : Nat
  bytes1 : Nat
  inp : List Nat
deriving DecidableEq, Repr

/-- The loop of `byteSwap(buf, words)`: each of the first `words` words of the region is
replaced by the word whose little-endian bytes it holds. The `do ... while (--words)`
loop runs `words` times for `words ≥ 1`; the code calls it with 16, 14 and 4. -/
def byteSwap (be : Bool) : Nat → List Nat → List Nat
  | 0, mem => mem
  | n + 1, p0 :: p1 :: p2 :: p3 :: rest =>
      storeWord be (u32 (u32 (p3 <<< 8 ||| p2) <<< 16) ||| (p1 <<< 8 ||| p0))
        ++ byteSwap be n rest
  | _ + 1, mem => mem

/-- Start of an MD5 accumulation; `in` keeps whatever the memory held. -/
def md5_init (ctx : md5_t) : md5_t :=
  { ctx with buf := [0x67452301, 0xefcdab89, 0x98badcfe, 0x10325476], bytes0 := 0, bytes1 := 0 }

/-- The state after `memset(ctx, 0, sizeof(md5_t))`. -/
def md5_zero : md5_t :=
  { buf := [0, 0, 0, 0], bytes0 := 0, bytes1 := 0, inp := List.replicate 64 0 }

/-- Wipes the digest state. -/
def md5_invalidate (_ctx : md5_t) : md5_t := md5_zero

/-- Round function `F1(x, y, z) = z ^ (x & (y ^ z))`. -/
def F1 (x y z : Nat) : Nat := z ^^^ (x &&& (y ^^^ z))

/-- Round function `F2(x, y, z) = F1(z, x, y)`. -/
def F2 (x y z : Nat) : Nat := F1 z x y

/-- Round function `F3(x, y, z) = x ^ y ^ z`. -/
def F3 (x y z : Nat) : Nat := x ^^^ y ^^^ z

/-- Round function `F4(x, y, z) = y ^ (x | ~z)`. -/
def F4 (x y z : Nat) : Nat := y ^^^ (x ||| not32 z)

/-- The central step `w += f(x,y,z) + in, w = (w<<s | w>>(32-s)) + x`; the new `w`. -/
def MD5STEP (f : Nat → Nat → Nat → Nat) (w x y z inw s : Nat) : Nat :=
  let w := u32 (w + u32 (f x y z + inw))
  u32 ((u32 (w <<< s) ||| w >>> (32 - s)) + x)

/-- The core of MD5: alters the hash `buf[4]` to reflect 16 more words `in[16]`. -/
def transform (buf : List Nat) (inw : List Nat) : List Nat :=
  let w := fun (i : Nat) (k : Nat) => u32 (inw.getD i 0 + k)
  let a := buf.getD 0 0
  let b := buf.getD 1 0
  let c := buf.getD 2 0
  let d := buf.getD 3 0
  let a := MD5STEP F1 a b c d (w 0 0xd76aa478) 7
  let d := MD5STEP F1 d a b c (w 1 0xe8c7b756) 12
  let c := MD5STEP F1 c d a b (w 2 0x242070db) 17
  let b := MD5STEP F1 b c d a (w 3 0xc1bdceee) 22
  let a := MD5STEP F1 a b c d (w 4 0xf57c0faf) 7
  let d := MD5STEP F1 d a b c (w 5 0x4787c62a) 12
  let c := MD5STEP F1 c d a b (w 6 0xa8304613) 17
  let b := MD5STEP F1 b c d a (w 7 0xfd469501) 22
  let a := MD5STEP F1 a b c d (w 8 0x698098d8) 7
  let d := MD5STEP F1 d a b c (w 9 0x8b44f7af) 12
  let c := MD5STEP F1 c d a b (w 10 0xffff5bb1) 17
  let b := MD5STEP F1 b c d a (w 11 0x895cd7be) 22
  let a := MD5STEP F1 a b c d (w 12 0x6b901122) 7
  let d := MD5STEP F1 d a b c (w 13 0xfd987193) 12
  let c := MD5STEP F1 c d a b (w 14 0xa679438e) 17
  let b := MD5STEP F1 b c d a (w 15 0x49b40821) 22
  let a := MD5STEP F2 a b c d (w 1 0xf61e2562) 5
  let d := MD5STEP F2 d a b c (w 6 0xc040b340) 9
  let c := MD5STEP F2 c d a b (w 11 0x265e5a51) 14
  let b := MD5STEP F2 b c d a (w 0 0xe9b6c7aa) 20
  let a := MD5STEP F2 a b c d (w 5 0xd62f105d) 5
  let d := MD5STEP F2 d a b c (w 10 0x02441453) 9
  let c := MD5STEP F2 c d a b (w 15 0xd8a1e681) 14
  let b := MD5STEP F2 b c d a (w 4 0xe7d3fbc8) 20
  let a := MD5STEP F2 a b c d (w 9 0x21e1cde6) 5
  let d := MD5STEP F2 d a b c (w 14 0xc33707d6) 9
  let c := MD5STEP F2 c d a b (w 3 0xf4d50d87) 14
  let b := MD5STEP F2 b c d a (w 8 0x455a14ed) 20
  let a := MD5STEP F2 a b c d (w 13 0xa9e3e905) 5
  let d := MD5STEP F2 d a b c (w 2 0xfcefa3f8) 9
  let c := MD5STEP F2 c d a b (w 7 0x676f02d9) 14
  let b := MD5STEP F2 b c d a (w 12 0x8d2a4c8a) 20
  let a := MD5STEP F3 a b c d (w 5 0xfffa3942) 4
  let d := MD5STEP F3 d a b c (w 8 0x8771f681) 11
  let c := MD5STEP F3 c d a b (w 11 0x6d9d6122) 16
  let b := MD5STEP F3 b c d a (w 14 0xfde5380c) 23
  let a := MD5STEP F3 a b c d (w 1 0xa4beea44) 4
  let d := MD5STEP F3 d a b c (w 4 0x4bdecfa9) 11
  let c := MD5STEP F3 c d a b (w 7 0xf6bb4b60) 16
  let b := MD5STEP F3 b c d a (w 10 0xbebfbc70) 23
  let a := MD5STEP F3 a b c d (w 13 0x289b7ec6) 4
  let d := MD5STEP F3 d a b c (w 0 0xeaa127fa) 11
  let c := MD5STEP F3 c d a b (w 3 0xd4ef3085) 16
  let b := MD5STEP F3 b c d a (w 6 0x04881d05) 23
  let a := MD5STEP F3 a b c d (w 9 0xd9d4d039) 4
  let d := MD5STEP F3 d a b c (w 12 0xe6db99e5) 11
  let c := MD5STEP F3 c d a b (w 15 0x1fa27cf8) 16
  let b := MD5STEP F3 b c d a (w 2 0xc4ac5665) 23
  let a := MD5STEP F4 a b c d (w 0 0xf4292244) 6
  let d := MD5STEP F4 d a b c (w 7 0x432aff97) 10
  let c := MD5STEP F4 c d a b (w 14 0xab9423a7) 15
  let b := MD5STEP F4 b c d a (w 5 0xfc93a039) 21
  let a := MD5STEP F4 a b c d (w 12 0x655b59c3) 6
  let d := MD5STEP F4 d a b c (w 3 0x8f0ccc92) 10
  let c := MD5STEP F4 c d a b (w 10 0xffeff47d) 15
  let b := MD5STEP F4 b c d a (w 1 0x85845dd1) 21
  let a := MD5STEP F4 a b c d (w 8 0x6fa87e4f) 6
  let d := MD5STEP F4 d a b c (w 15 0xfe2ce6e0) 10
  let c := MD5STEP F4 c d a b (w 6 0xa3014314) 15
  let b := MD5STEP F4 b c d a (w 13 0x4e0811a1) 21
  let a := MD5STEP F4 a b c d (w 4 0xf7537e82) 6
  let d := MD5STEP F4 d a b c (w 11 0xbd3af235) 10
  let c := MD5STEP F4 c d a b (w 2 0x2ad7d2bb) 15
  let b := MD5STEP F4 b c d a (w 9 0xeb86d391) 21
  [u32 (buf.getD 0 0 + a), u32 (buf.getD 1 0 + b), u32 (buf.getD 2 0 + c),
    u32 (buf.getD 3 0 + d)]

/-- The loop `while (len >= 64)` of `md5_update` on the state `(ctx->buf, ctx->in, buf)`;
`buf.length` bounds the number of iterations. -/
def md5_update_loop (be : Bool) : Nat → List Nat × List Nat × List Nat →
    List Nat × List Nat × List Nat
  | 0, s => s
  | fuel + 1, (hbuf, inp, buf) =>
      if 64 ≤ buf.length then
        let inp := memcpy inp 0 (buf.take 64)
        let inp := byteSwap be 16 inp
        let hbuf := transform hbuf (loadWords be inp)
        md5_update_loop be fuel (hbuf, inp, buf.drop 64)
      else (hbuf, inp, buf)

/-- Updates the context to reflect the concatenation of another buffer of bytes. -/
def md5_update (be : Bool) (ctx : md5_t) (buf : List Nat) : md5_t :=
  let len := buf.length
  let t := ctx.bytes0
  let bytes0 := u32 (t + len)
  let bytes1 := if bytes0 < t then u32 (ctx.bytes1 + 1) else ctx.bytes1
  let t := 64 - (t &&& 0x3f)
  if t > len then
    { buf := ctx.buf, bytes0 := bytes0, bytes1 := bytes1, inp := memcpy ctx.inp (64 - t) buf }
  else
    let inp := memcpy ctx.inp (64 - t) (buf.take t)
    let inp := byteSwap be 16 inp
    let hbuf := transform ctx.buf (loadWords be inp)
    let buf := buf.drop t
    let s := md5_update_loop be buf.length (hbuf, inp, buf)
    { buf := s.1, bytes0 := bytes0, bytes1 := bytes1, inp := memcpy s.2.1 0 s.2.2 }

/-- Final wrapup: pads, appends the bit count, and returns the 16 digest bytes together
with the wiped context. -/
def md5_final (be : Bool) (ctx : md5_t) : List Nat × md5_t :=
  let count : Int := ((ctx.bytes0 &&& 0x3f : Nat) : Int)
  let p := (ctx.bytes0 &&& 0x3f) + 1
  let inp := memcpy ctx.inp (ctx.bytes0 &&& 0x3f) [0x80]
  let count := 56 - 1 - count
  let s : List Nat × List Nat × Nat × Int :=
    if count < 0 then
      let inp := memset inp p 0 (count + 8).toNat
      let inp := byteSwap be 16 inp
      (transform ctx.buf (loadWords be inp), inp, 0, 56)
    else (ctx.buf, inp, p, count)
  let inp := memset s.2.1 s.2.2.1 0 s.2.2.2.toNat
  let inp := byteSwap be 14 inp
  let inp := memcpy inp 56 (storeWord be (u32 (ctx.bytes0 <<< 3)))
  let inp := memcpy inp 60 (storeWord be (u32 (ctx.bytes1 <<< 3) ||| ctx.bytes0 >>> 29))
  let hbuf := transform s.1 (loadWords be inp)
  let hmem := byteSwap be 4 (storeWords be hbuf)
  (hmem.take 16, md5_zero)

/-- The digest of a list of chunks: `md5_init`, one `md5_update` per chunk, `md5_final`.
The context starts from the arbitrary memory `ctx`. -/
def md5_chunks (be : Bool) (ctx : md5_t) (chunks : List (List Nat)) : List Nat :=
  (md5_final be (chunks.foldl (md5_update be) (md5_init ctx))).1

/-- Bytes of an ASCII string. -/
def ascii (s : String) : List Nat := s.toList.map Char.toNat

/-! ## HMAC-MD5 -/

/-- State of the HMAC construction: the digest state and the 64-byte key block. -/
structure hmacmd5_t where
  md5ctx : md5_t
  key : List Nat
deriving DecidableEq, Repr

/-- The state after a complete wipe; also stands for a local `hmacmd5_t` before its
initialisation (whose contents no result depends on). -/
def hmacmd5_zero : hmacmd5_t := { md5ctx := md5_zero, key := List.replicate 64 0 }

/-- Starts the HMAC-MD5 process: derives the key block and digests `key ^ ipad`.
The local `md5ctx` of the long-key branch starts from zeroed memory. -/
def hmacmd5_init (be : Bool) (ctx : hmacmd5_t) (key : List Nat) : hmacmd5_t :=
  let len := key.length
  let k := memset ctx.key 0 0 64
  let k :=
    if len > 64 then
      let md5ctx := md5_init md5_zero
      let md5ctx := md5_update be md5ctx key
      memcpy k 0 (md5_final be md5ctx).1
    else memcpy k 0 key
  let md5ctx := md5_init ctx.md5ctx
  let ipad := List.replicate 64 0x36
  let ipad := List.zipWith (fun p q => p ^^^ q) ipad k
  { md5ctx := md5_update be md5ctx ipad, key := k }

/-- Wipes the HMAC state: `md5_invalidate`, `memset(ctx->key, 0, sizeof(ctx->key))` and
`memset(ctx, 0, sizeof(ctx))`, the last clearing the first `sizeof(hmacmd5_t *) = 8` bytes
of the structure, that is `buf[0]` and `buf[1]`. -/
def hmacmd5_invalidate (ctx : hmacmd5_t) : hmacmd5_t :=
  let m := md5_invalidate ctx.md5ctx
  let k := memset ctx.key 0 0 64
  { md5ctx := { m with buf := [0, 0] ++ m.buf.drop 2 }, key := k }

/-- Updates the context to reflect the concatenation of another buffer of bytes. -/
def hmacmd5_update (be : Bool) (ctx : hmacmd5_t) (buf : List Nat) : hmacmd5_t :=
  { ctx with md5ctx := md5_update be ctx.md5ctx buf }

/-- Computes the signature: finalises the inner digest and reapplies MD5 with
`key ^ opad`. Returns the 16 bytes and the wiped state. -/
def hmacmd5_sign (be : Bool) (ctx : hmacmd5_t) : List Nat × hmacmd5_t :=
  let r := md5_final be ctx.md5ctx
  let digest := r.1
  let opad := List.replicate 64 0x5C
  let opad := List.zipWith (fun p q => p ^^^ q) opad ctx.key
  let m := md5_init r.2
  let m := md5_update be m opad
  let m := md5_update be m (digest.take 16)
  let r := md5_final be m
  (r.1, hmacmd5_invalidate { md5ctx := r.2, key := ctx.key })

/-- Verifies a signature: computes it and compares with the supplied digest. -/
def hmacmd5_verify (be : Bool) (ctx : hmacmd5_t) (digest : List Nat) : Int × hmacmd5_t :=
  let r := hmacmd5_sign be ctx
  (memcmp digest r.1 16, r.2)

/-- The MAC of a message under a key: `hmacmd5_init`, one `hmacmd5_update`,
`hmacmd5_sign`, from an arbitrary initial context. -/
def hmacmd5 (be : Bool) (ctx : hmacmd5_t) (key msg : List Nat) : List Nat :=
  (hmacmd5_sign be (hmacmd5_update be (hmacmd5_init be ctx key) msg)).1

/-! ## Message-MAC protocol -/

/-- Modelled from the spec: `struct keyinfo` is declared in `config.h`; of the
SymmetricKey it holds the secret byte sequence (`secret`, whose length is `secretlen`)
and the expiration time in epoch seconds (`expire`, 0 for never). -/
structure keyinfo where
  secret : List Nat
  expire : Int
deriving DecidableEq, Repr

/-- Length of a digest, `MD5_DIGESTLENGTH`. -/
def MD5_DIGESTLENGTH : Nat := 16

/-- Reduction to the range of `size_t`. -/
def usize (x : Nat) : Nat := x % 18446744073709551616

/-- Conversion of a `size_t` to `ssize_t`. -/
def to_ssize (x : Nat) : Int :=
  if x < 9223372036854775808 then (x : Int) else (x : Int) - 18446744073709551616

/-- Conversion of a `size_t` or `ssize_t` length to the `unsigned int` length parameter
of the HMAC layer. -/
def to_uint (x : Int) : Nat := (x % 4294967296).toNat

/-- Computes the MAC of `buf[0, len)` and writes it at `buf + off`. The result is the
return value and the buffer afterwards, or `none` when the code accesses memory outside
`buf` (undefined behaviour). The parameter `hmacmd5_alg` is the value of the identifier
`DHCP6_AUTHALG_HMACMD5`, which `dhcp6.h` defines. -/
def dhcp6_calc_mac (be : Bool) (hmacmd5_alg : Int) (buf : List Nat) (len : Nat)
    (_proto alg : Int) (off : Nat) (key : keyinfo) : Option (Int × List Nat) :=
  if alg ≠ hmacmd5_alg then some (-1, buf)
  else if usize (off + MD5_DIGESTLENGTH) > len then some (-1, buf)
  else
    let ctx := hmacmd5_init be hmacmd5_zero (key.secret.take (to_uint key.secret.length))
    if buf.length < to_uint len then none
    else
      let ctx := hmacmd5_update be ctx (buf.take (to_uint len))
      let digest := (hmacmd5_sign be ctx).1
      if buf.length < off + MD5_DIGESTLENGTH then none
      else some (0, memcpy buf off (digest.take MD5_DIGESTLENGTH))

/-- Verifies the MAC stored at `buf + off` over `buf[0, len)` with that field cleared.
The result is the return value and the buffer afterwards, or `none` when the code
overflows a signed addition or accesses memory outside `buf` (undefined behaviour). -/
def dhcp6_verify_mac (be : Bool) (hmacmd5_alg : Int) (buf : List Nat) (len : Int)
    (_proto alg : Int) (off : Nat) (key : keyinfo) : Option (Int × List Nat) :=
  if alg ≠ hmacmd5_alg then some (-1, buf)
  else if to_ssize off + MD5_DIGESTLENGTH > 9223372036854775807 then none
  else if to_ssize off + MD5_DIGESTLENGTH > len then some (-1, buf)
  else if buf.length < off + MD5_DIGESTLENGTH then none
  else
    let digest := (buf.drop off).take MD5_DIGESTLENGTH
    let buf := memset buf off 0 MD5_DIGESTLENGTH
    let ctx := hmacmd5_init be hmacmd5_zero (key.secret.take (to_uint key.secret.length))
    if buf.length < to_uint len then none
    else
      let ctx := hmacmd5_update be ctx (buf.take (to_uint len))
      let result := (hmacmd5_verify be ctx digest).1
      some (result, memcpy buf off digest)

/-! ## Reference definition of MD5 (RFC 1321) -/

/-- The four bytes of a word, low-order byte first. -/
def le32 (w : Nat) : List Nat := [w % 256, w / 256 % 256, w / 65536 % 256, w / 16777216 % 256]

/-- The words of a byte sequence, each from four bytes, low-order byte first. -/
def leWords : List Nat → List Nat
  | p0 :: p1 :: p2 :: p3 :: rest => (p0 + p1 * 256 + p2 * 65536 + p3 * 16777216) :: leWords rest
  | _ => []

/-- Folds the first `n` 64-byte blocks of `msg` into the hash `h` with `transform`. -/
def absorb : Nat → List Nat → List Nat → List Nat
  | 0, h, _ => h
  | n + 1, h, msg => absorb n (transform h (leWords (msg.take 64))) (msg.drop 64)

/-- The initial hash words. -/
def md5_iv : List Nat := [0x67452301, 0xefcdab89, 0x98badcfe, 0x10325476]

/-- The digest state after the bytes `m` have been fed: `m` is whole blocks, folded into
`buf`, followed by fewer than 64 pending bytes held at the start of `in`; `bytes` counts
the length of `m` modulo `2 ^ 64`. -/
def md5_inv (ctx : md5_t) (m : List Nat) : Prop :=
  ∃ (q : Nat) (blocks pending : List Nat),
    m = blocks ++ pending ∧ blocks.length = 64 * q ∧ pending.length < 64 ∧
    ctx.buf = absorb q md5_iv blocks ∧ ctx.inp.length = 64 ∧
    ctx.inp.take pending.length = pending ∧
    ctx.bytes0 = m.length % 4294967296 ∧ ctx.bytes1 = m.length / 4294967296 % 4294967296

/-- The padded message of RFC 1321: one byte 0x80, zero bytes up to length 56 modulo 64,
then the length of the message in bits as 64 bits, low-order word first. -/
def rfc1321_pad (M : List Nat) : List Nat :=
  M ++ [0x80] ++ List.replicate ((120 - (M.length + 1) % 64) % 64) 0
    ++ le32 (8 * M.length % 4294967296) ++ le32 (8 * M.length / 4294967296 % 4294967296)

/-- The digest of the padded message when `transform` is the compression function:
the blocks are folded from the initial words, the result emitted little-endian. -/
def md5_spec (M : List Nat) : List Nat :=
  (absorb ((rfc1321_pad M).length / 64) md5_iv (rfc1321_pad M)).flatMap le32


/-! ## The compression function of RFC 1321 -/

/-- The table `T[1 .. 64]` of RFC 1321, `T[i] = floor(2^32 * abs(sin(i)))`. -/
def rfc1321_T : List Nat :=
  [0xd76aa478, 0xe8c7b756, 0x242070db, 0xc1bdceee, 0xf57c0faf, 0x4787c62a, 0xa8304613, 0xfd469501,
   0x698098d8, 0x8b44f7af, 0xffff5bb1, 0x895cd7be, 0x6b901122, 0xfd987193, 0xa679438e, 0x49b40821,
   0xf61e2562, 0xc040b340, 0x265e5a51, 0xe9b6c7aa, 0xd62f105d, 0x02441453, 0xd8a1e681, 0xe7d3fbc8,
   0x21e1cde6, 0xc33707d6, 0xf4d50d87, 0x455a14ed, 0xa9e3e905, 0xfcefa3f8, 0x676f02d9, 0x8d2a4c8a,
   0xfffa3942, 0x8771f681, 0x6d9d6122, 0xfde5380c, 0xa4beea44, 0x4bdecfa9, 0xf6bb4b60, 0xbebfbc70,
   0x289b7ec6, 0xeaa127fa, 0xd4ef3085, 0x04881d05, 0xd9d4d039, 0xe6db99e5, 0x1fa27cf8, 0xc4ac5665,
   0xf4292244, 0x432aff97, 0xab9423a7, 0xfc93a039, 0x655b59c3, 0x8f0ccc92, 0xffeff47d, 0x85845dd1,
   0x6fa87e4f, 0xfe2ce6e0, 0xa3014314, 0x4e0811a1, 0xf7537e82, 0xbd3af235, 0x2ad7d2bb, 0xeb86d391]

/-- The rotation amounts of the 64 operations of RFC 1321. -/
def rfc1321_s : List Nat :=
  [7, 12, 17, 22, 7, 12, 17, 22, 7, 12, 17, 22, 7, 12, 17, 22,
   5, 9, 14, 20, 5, 9, 14, 20, 5, 9, 14, 20, 5, 9, 14, 20,
   4, 11, 16, 23, 4, 11, 16, 23, 4, 11, 16, 23, 4, 11, 16, 23,
   6, 10, 15, 21, 6, 10, 15, 21, 6, 10, 15, 21, 6, 10, 15, 21]

/-- The index of the message word used by operation `i` (0-based) of RFC 1321. -/
def rfc1321_k (i : Nat) : Nat :=
  if i < 16 then i else if i < 32 then (1 + 5 * i) % 16 else if i < 48 then (5 + 3 * i) % 16
  else (7 * i) % 16

/-- The auxiliary function `F(X,Y,Z) = XY v not(X) Z`. -/
def rfc1321_F (x y z : Nat) : Nat := (x &&& y) ||| (not32 x &&& z)

/-- The auxiliary function `G(X,Y,Z) = XZ v Y not(Z)`. -/
def rfc1321_G (x y z : Nat) : Nat := (x &&& z) ||| (y &&& not32 z)

/-- The auxiliary function `H(X,Y,Z) = X xor Y xor Z`. -/
def rfc1321_H (x y z : Nat) : Nat := x ^^^ y ^^^ z

/-- The auxiliary function `I(X,Y,Z) = Y xor (X v not(Z))`. -/
def rfc1321_I (x y z : Nat) : Nat := y ^^^ (x ||| not32 z)

/-- Rotation of a 32-bit word to the left by `s` bits. -/
def rotl32 (x s : Nat) : Nat := u32 (x <<< s) ||| x >>> (32 - s)

/-- Operation `i` of RFC 1321 on the registers: `a = b + ((a + f(b,c,d) + X[k] + T[i]) <<< s)`
with `f` the auxiliary function of the round, after which the registers rotate. -/
def rfc1321_op (X : List Nat) (st : Nat × Nat × Nat × Nat) (i : Nat) : Nat × Nat × Nat × Nat :=
  let f := if i < 16 then rfc1321_F else if i < 32 then rfc1321_G else if i < 48 then rfc1321_H
    else rfc1321_I
  let t := u32 (st.1 + f st.2.1 st.2.2.1 st.2.2.2 + X.getD (rfc1321_k i) 0 + rfc1321_T.getD i 0)
  (st.2.2.2, u32 (st.2.1 + rotl32 t (rfc1321_s.getD i 0)), st.2.1, st.2.2.1)

/-- The compression function of RFC 1321: the 64 operations on a copy of the hash
words, whose results are added to the hash words. -/
def rfc1321_compress (h X : List Nat) : List Nat :=
  let r := (List.range 64).foldl (rfc1321_op X) (h.getD 0 0, h.getD 1 0, h.getD 2 0, h.getD 3 0)
  [u32 (h.getD 0 0 + r.1), u32 (h.getD 1 0 + r.2.1), u32 (h.getD 2 0 + r.2.2.1),
    u32 (h.getD 3 0 + r.2.2.2)]

/-- The round function the code uses in step `i`. -/
def md5_round_f (i : Nat) : Nat → Nat → Nat → Nat :=
  if i < 16 then F1 else if i < 32 then F2 else if i < 48 then F3 else F4

/-- Step `i` of `transform` on the registers, rotated as in `rfc1321_op`. -/
def md5_step (X : List Nat) (st : Nat × Nat × Nat × Nat) (i : Nat) : Nat × Nat × Nat × Nat :=
  (st.2.2.2, MD5STEP (md5_round_f i) st.1 st.2.1 st.2.2.1 st.2.2.2
    (u32 (X.getD (rfc1321_k i) 0 + rfc1321_T.getD i 0)) (rfc1321_s.getD i 0), st.2.1, st.2.2.1)

/-- The 64 steps of `transform` as a fold. -/
def md5_steps (h X : List Nat) : List Nat :=
  let r := (List.range 64).foldl (md5_step X) (h.getD 0 0, h.getD 1 0, h.getD 2 0, h.getD 3 0)
  [u32 (h.getD 0 0 + r.1), u32 (h.getD 1 0 + r.2.1), u32 (h.getD 2 0 + r.2.2.1),
    u32 (h.getD 3 0 + r.2.2.2)]


/-- Folds the first `n` 64-byte blocks of the padded message into the hash words with
the compression function of RFC 1321. -/
def rfc1321_fold : Nat → List Nat → List Nat → List Nat
  | 0, h, _ => h
  | n + 1, h, P => rfc1321_fold n (rfc1321_compress h (leWords (P.take 64))) (P.drop 64)

/-- The MD5 digest as RFC 1321 defines it: the message is padded, the padded message is
folded 64 bytes at a time through the compression function starting from the initial
words, and the four result words are emitted little-endian. -/
def rfc1321_md5 (M : List Nat) : List Nat :=
  (rfc1321_fold ((rfc1321_pad M).length / 64) md5_iv (rfc1321_pad M)).flatMap le32


/-- The registers stay 32-bit words. -/
def regs32 (st : Nat × Nat × Nat × Nat) : Prop :=
  st.1 < 4294967296 ∧ st.2.1 < 4294967296 ∧ st.2.2.1 < 4294967296 ∧ st.2.2.2 < 4294967296

/-! ## Reference definition of HMAC-MD5 (RFC 2104) -/

/-- The 64-byte key block `K'`: the key padded with zero bytes when it has at most 64
bytes, its MD5 digest padded with zero bytes when it is longer. -/
def rfc2104_key (K : List Nat) : List Nat :=
  if K.length ≤ 64 then K ++ List.replicate (64 - K.length) 0
  else rfc1321_md5 K ++ List.replicate (64 - 16) 0

/-- HMAC-MD5: `MD5((K' xor opad) || MD5((K' xor ipad) || M))` with `ipad` the byte 0x36
and `opad` the byte 0x5C, each repeated 64 times. -/
def rfc2104_hmac_md5 (K M : List Nat) : List Nat :=
  rfc1321_md5 ((rfc2104_key K).map (fun b => b ^^^ 0x5C)
    ++ rfc1321_md5 ((rfc2104_key K).map (fun b => b ^^^ 0x36) ++ M))


/-- The MAC the protocol layer computes over `buf[0, len)` under `key`: both lengths
reach the HMAC layer through its `unsigned int` parameters. -/
def dhcp6_mac (be : Bool) (key : keyinfo) (buf : List Nat) (len : Nat) : List Nat :=
  hmacmd5 be hmacmd5_zero (key.secret.take (to_uint key.secret.length)) (buf.take (to_uint len))


/-! ## Peers and the timestamp check -/

/-- A `struct timeval`: seconds (`time_t`) and microseconds (`suseconds_t`), both signed
64-bit. -/
structure timeval where
  tv_sec : Int
  tv_usec : Int
deriving DecidableEq, Repr

/-- Modelled from the spec: `struct auth_peer` is declared outside `auth.c`. An AuthPeer holds
the identity of the peer (the bytes of its DUID), a copy of its public key, the local time
of the last accepted message (`ts_last`) and the timestamp carried by that message
(`ts_rcv_last`). The two timestamps are `struct timeval` values: the code assigns `now`
and `*rcv_ts` to them and passes their addresses to `tv2usec`. Whether such a value
stands for "undefined" is told by the macro `dhcp6_timestamp_undef`, which, like
`dhcp6_timestamp_set_undef`, is declared outside `auth.c`; both are parameters of the
functions that use them. -/
structure auth_peer where
  id : List Nat
  pubkey : List Nat
  ts_last : timeval
  ts_rcv_last : timeval
deriving DecidableEq, Repr

/-- Reduction to the range of `uint64_t`. -/
def u64 (x : Nat) : Nat := x % 18446744073709551616

/-- Conversion of a signed 64-bit value to `uint64_t`. -/
def to_u64 (x : Int) : Nat := (x % 18446744073709551616).toNat

/-- Subtraction of `uint64_t` values. -/
def sub64 (a b : Nat) : Nat := (u64 a + (18446744073709551616 - u64 b)) % 18446744073709551616

/-- The constant `ts_delta`: 5 seconds in microseconds. -/
def ts_delta : Nat := 5000000

/-- The constant `ts_fuzz`: 1 second in microseconds. -/
def ts_fuzz : Nat := 1000000

/-- The constant `ts_drift`, in percent. -/
def ts_drift : Nat := 1

/-- A `timeval` in microseconds:
`(uint64_t)tv->tv_sec * 1000000ULL + (uint64_t)tv->tv_usec`. -/
def tv2usec (tv : timeval) : Nat := u64 (u64 (to_u64 tv.tv_sec * 1000000) + to_u64 tv.tv_usec)

/-- The Secure DHCPv6 timestamp check of a message carrying the timestamp `rcv_ts`, with
`now` the time that `gettimeofday` reads and `dhcp6_timestamp_undef` the macro that tells
whether a stored timestamp stands for "undefined". The result is the return value (1 for
accepted, 0 for rejected) and the peer record afterwards. -/
def dhcp6_check_timestamp (dhcp6_timestamp_undef : timeval → Bool) (peer : auth_peer)
    (rcv_ts : timeval) (now : timeval) : Int × auth_peer :=
  let now_us := tv2usec now
  let rcv_ts_us := tv2usec rcv_ts
  if dhcp6_timestamp_undef peer.ts_last then
    if (now_us > rcv_ts_us ∧ sub64 now_us rcv_ts_us < ts_delta) ∨
        (now_us ≤ rcv_ts_us ∧ sub64 rcv_ts_us now_us < ts_delta) then
      (1, { peer with ts_last := now, ts_rcv_last := rcv_ts })
    else (0, peer)
  else
    let last_ts_us := tv2usec peer.ts_last
    let last_rcv_ts_us := tv2usec peer.ts_rcv_last
    if rcv_ts_us < last_rcv_ts_us then (0, peer)
    else if u64 (now_us + ts_fuzz) >
        sub64 (u64 (last_ts_us + u64 (sub64 rcv_ts_us last_rcv_ts_us * (100 - ts_drift)) / 100))
          ts_fuzz then
      if now_us > last_ts_us then
        (1, { peer with ts_last := now, ts_rcv_last := rcv_ts })
      else (1, peer)
    else (0, peer)

/-! ## Key freshness -/

/-- Validates the expiration of a key; `time_ret` is what `time(&now)` returns, the current
time in seconds or -1 when the clock cannot be read. The result is 0 for a valid key and
-1 for an expired one. -/
def dhcp6_validate_key (key : keyinfo) (time_ret : Int) : Int :=
  if key.expire = 0 then 0
  else if time_ret = -1 then -1
  else if time_ret > key.expire then -1
  else 0

/-! ## Signature verification -/

/-- Modelled from the spec: the asymmetric crypto provider (OpenSSL in the code), of which
only the contract is in scope: decoding of a DER public key (`none` for a blob that does
not decode), the SHA-256 digest, `verify(digest, signature, pubkey) -> bool`,
`modulus_size(key) -> byte_count` and `sign(digest, private_key) -> signature | error`. -/
structure crypto_provider (RSA : Type) where
  d2i_RSA_PUBKEY : List Nat → Option RSA
  SHA256 : List Nat → List Nat
  RSA_verify : List Nat → List Nat → Nat → RSA → Bool
  RSA_size : RSA → Nat
  RSA_sign : List Nat → RSA → Option (List Nat)

/-- Verifies the signature stored in `buf[offset, offset + sig_len)` over `buf[0, len)`
with that span cleared, in a build with the crypto library. `sigalg_rsa` and
`hashalg_sha256` are the values of `DHCP6_SIGALG_RSASSA_PKCS1_V1_5` and
`DHCP6_HASHALG_SHA256`, which `dhcp6.h` defines; `malloc_ok` tells whether
`malloc(sig_len)` succeeds. The result is the return value and the buffer afterwards, or
`none` when the code accesses memory outside `buf` (undefined behaviour). -/
def dhcp6_verify_msg {RSA : Type} (P : crypto_provider RSA) (sigalg_rsa hashalg_sha256 : Int)
    (malloc_ok : Bool) (buf : List Nat) (len offset sig_len : Nat) (hash_alg sig_alg : Int)
    (pubkey : List Nat) : Option (Int × List Nat) :=
  if len < usize (offset + sig_len) then some (-1, buf)
  else if sig_alg ≠ sigalg_rsa then some (-1, buf)
  else if hash_alg ≠ hashalg_sha256 then some (-1, buf)
  else
    match P.d2i_RSA_PUBKEY pubkey with
    | none => some (-1, buf)
    | some rsa =>
      if malloc_ok = false then some (-1, buf)
      else if buf.length < offset + sig_len then none
      else
        let sig_copy := (buf.drop offset).take sig_len
        let buf1 := memset buf offset 0 sig_len
        if buf1.length < len then none
        else
          let digest := P.SHA256 (buf1.take len)
          let ret : Int := if P.RSA_verify digest sig_copy (to_uint sig_len) rsa then 0 else -1
          some (ret, memcpy buf1 offset sig_copy)


/-! ## Signing -/

/-- Modelled from the spec: `struct authparam` is declared outside `auth.c`. Of the
authentication parameters, signing reads the protocol (`authproto`), the two algorithm
identifiers and the private key of the Secure DHCPv6 part. -/
structure authparam (RSA : Type) where
  authproto : Int
  sig_algorithm : Int
  hash_algorithm : Int
  private_key : RSA

/-- Signs `buf[0, len)` and stores the signature at `buf + off`, in a build with the crypto
library. `authproto_sedhcpv6`, `sigalg_rsa` and `hashalg_sha256` are the values of
`DHCP6_AUTHPROTO_SEDHCPV6`, `DHCP6_SIGALG_RSASSA_PKCS1_V1_5` and `DHCP6_HASHALG_SHA256`,
which `dhcp6.h` defines. `RSA_sign` writes the signature it returns at `sig = buf + off`
and its length to `siglen`; when it reports an error the buffer is taken as left alone.
The result is the return value and the buffer afterwards, or `none` when memory outside
`buf` is accessed (undefined behaviour). -/
def dhcp6_sign_msg {RSA : Type} (P : crypto_provider RSA)
    (authproto_sedhcpv6 sigalg_rsa hashalg_sha256 : Int) (buf : List Nat) (len off : Nat)
    (ap : authparam RSA) : Option (Int × List Nat) :=
  if ap.authproto ≠ authproto_sedhcpv6 then some (-1, buf)
  else if ap.sig_algorithm ≠ sigalg_rsa then some (-1, buf)
  else if ap.hash_algorithm ≠ hashalg_sha256 then some (-1, buf)
  else
    let rsa := ap.private_key
    if usize (off + P.RSA_size rsa) > len then some (-1, buf)
    else if buf.length < len then none
    else
      let digest := P.SHA256 (buf.take len)
      match P.RSA_sign digest rsa with
      | none => some (-1, buf)
      | some sig =>
        if buf.length < off + sig.length then none
        else
          let buf1 := memcpy buf off sig
          if to_uint (sig.length : Int) ≠ to_uint (P.RSA_size rsa : Int) then some (-1, buf1)
          else some (0, buf1)

/-! ## The peer registry -/

/-- Looks a peer up by its DUID: the `TAILQ` is walked from its first entry, the list
being in queue order; `duidcmp`, defined outside `auth.c`, is the comparison of two DUIDs.
`none` is the `NULL` return. -/
def dhcp6_find_authpeer (duidcmp : List Nat → List Nat → Int) :
    List auth_peer → List Nat → Option auth_peer
  | [], _ => none
  | peer :: rest, peer_id =>
      if duidcmp peer.id peer_id = 0 then some peer
      else dhcp6_find_authpeer duidcmp rest peer_id

/-- The peer record after a sequence of timestamp checks, each given by the timestamp
received and the local clock at the time of the check. -/
def check_timestamps (dhcp6_timestamp_undef : timeval → Bool) (peer : auth_peer)
    (msgs : List (timeval × timeval)) : auth_peer :=
  msgs.foldl (fun p m => (dhcp6_check_timestamp dhcp6_timestamp_undef p m.1 m.2).2) peer

/-- Whether the two timestamp fields of a peer are both undefined or both set, as the
macro `dhcp6_timestamp_undef` tells. -/
def timestamps_paired (dhcp6_timestamp_undef : timeval → Bool) (peer : auth_peer) : Prop :=
  (dhcp6_timestamp_undef peer.ts_last = true ∧ dhcp6_timestamp_undef peer.ts_rcv_last = true) ∨
  (dhcp6_timestamp_undef peer.ts_last = false ∧ dhcp6_timestamp_undef peer.ts_rcv_last = false)

instance (undef : timeval → Bool) (peer : auth_peer) : Decidable (timestamps_paired undef peer) := by
  unfold timestamps_paired; infer_instance

/-- An encoding of the undefined timestamp for worked examples: the value `(-1, -1)`. -/
def example_undef (tv : timeval) : Bool := tv.tv_sec == -1 && tv.tv_usec == -1

/-- The macro that stores the undefined timestamp of `example_undef`. -/
def example_set_undef (_tv : timeval) : timeval := ⟨-1, -1⟩

/-- A provider for worked examples, with `Unit` keys and a modulus of two bytes: the
digest of a message is its byte sum and its length (both modulo 256), the signature of a
digest is made in the same way from the digest, and a signature verifies when it has two
bytes and is the one signing gives. -/
def example_provider : crypto_provider Unit where
  d2i_RSA_PUBKEY := fun _ => some ()
  SHA256 := fun m => [m.sum % 256, m.length % 256]
  RSA_verify := fun d sig n _ => decide (sig = [d.sum % 256, d.length % 256] ∧ n = 2)
  RSA_size := fun _ => 2
  RSA_sign := fun d _ => some [d.sum % 256, d.length % 256]

/-- The code of `dhcp6_calc_mac` with the memory around the buffer in view: `mem` is a
region of memory and `buf` points `pre` bytes into it. On an LP64 machine the pointer
`buf + off` is computed modulo `2 ^ 64`, so it addresses the byte `(pre + off) % 2 ^ 64`
of the region: an `off` close to `2 ^ 64` reaches bytes in front of the buffer. The
result is the return value and the region afterwards, or `none` when an access falls
outside the region. -/
def dhcp6_calc_mac_mem (be : Bool) (hmacmd5_alg : Int) (mem : List Nat) (pre len : Nat)
    (_proto alg : Int) (off : Nat) (key : keyinfo) : Option (Int × List Nat) :=
  if alg ≠ hmacmd5_alg then some (-1, mem)
  else if usize (off + MD5_DIGESTLENGTH) > len then some (-1, mem)
  else
    let ctx := hmacmd5_init be hmacmd5_zero (key.secret.take (to_uint key.secret.length))
    if mem.length < pre + to_uint len then none
    else
      let ctx := hmacmd5_update be ctx ((mem.drop pre).take (to_uint len))
      let digest := (hmacmd5_sign be ctx).1
      if mem.length < usize (pre + off) + MD5_DIGESTLENGTH then none
      else some (0, memcpy mem (usize (pre + off)) (digest.take MD5_DIGESTLENGTH))


/-! ## Words and storage -/

theorem u32_lt (x : Nat) : u32 x < 4294967296 := Nat.mod_lt _ (by decide)

theorem u32_of_lt {x : Nat} (h : x < 4294967296) : u32 x = x := Nat.mod_eq_of_lt h

theorem or_shift8 {a b : Nat} (hb : b < 256) : a <<< 8 ||| b = a * 256 + b := by
  have h := Nat.mul_add_lt_is_or (i := 8) (b := b) (by simpa using hb) a
  rw [Nat.shiftLeft_eq]
  simp only [Nat.reducePow] at h ⊢
  rw [Nat.mul_comm a 256]
  exact h.symm

theorem byteSwap_word {p0 p1 p2 p3 : Nat} (h0 : p0 < 256) (h1 : p1 < 256) (h2 : p2 < 256)
    (h3 : p3 < 256) :
    u32 (u32 (p3 <<< 8 ||| p2) <<< 16) ||| (p1 <<< 8 ||| p0)
      = p0 + p1 * 256 + p2 * 65536 + p3 * 16777216 := by
  rw [or_shift8 h2, or_shift8 h0, u32_of_lt (x := p3 * 256 + p2) (by omega), Nat.shiftLeft_eq]
  have e : u32 ((p3 * 256 + p2) * 2 ^ 16) = (p3 * 256 + p2) * 65536 := by
    rw [u32_of_lt] <;> omega
  rw [e]
  have h := Nat.mul_add_lt_is_or (i := 16) (b := p1 * 256 + p0) (by simp; omega) (p3 * 256 + p2)
  simp only [Nat.reducePow] at h
  rw [Nat.mul_comm (p3 * 256 + p2) 65536, ← h]
  omega

theorem loadWord_storeWord (be : Bool) {w : Nat} (h : w < 4294967296) (rest : List Nat) :
    loadWords be (storeWord be w ++ rest) = w :: loadWords be rest := by
  cases be
  · simp only [storeWord, loadWords, loadWord, List.cons_append, List.nil_append,
      Bool.false_eq_true, if_false, List.cons.injEq]
    exact ⟨by omega, rfl⟩
  · simp only [storeWord, loadWords, loadWord, List.cons_append, List.nil_append,
      if_true, List.cons.injEq]
    exact ⟨by omega, rfl⟩

theorem storeWord_length (be : Bool) (w : Nat) : (storeWord be w).length = 4 := by
  cases be <;> simp [storeWord]

theorem byteSwap_length (be : Bool) : ∀ (n : Nat) (mem : List Nat),
    (byteSwap be n mem).length = mem.length
  | 0, mem => by simp [byteSwap]
  | n + 1, [] => by simp [byteSwap]
  | n + 1, [_] => by simp [byteSwap]
  | n + 1, [_, _] => by simp [byteSwap]
  | n + 1, [_, _, _] => by simp [byteSwap]
  | n + 1, p0 :: p1 :: p2 :: p3 :: rest => by
      simp only [byteSwap, List.length_append, storeWord_length, byteSwap_length be n rest,
        List.length_cons]
      omega

theorem leWord_lt {p0 p1 p2 p3 : Nat} (h0 : p0 < 256) (h1 : p1 < 256) (h2 : p2 < 256)
    (h3 : p3 < 256) : p0 + p1 * 256 + p2 * 65536 + p3 * 16777216 < 4294967296 := by omega

theorem leWords_lt : ∀ l : List Nat, (∀ b ∈ l, b < 256) → ∀ w ∈ leWords l, w < 4294967296
  | [], _ => by simp [leWords]
  | [_], _ => by simp [leWords]
  | [_, _], _ => by simp [leWords]
  | [_, _, _], _ => by simp [leWords]
  | p0 :: p1 :: p2 :: p3 :: rest, hb => by
      intro w hw
      simp only [leWords, List.mem_cons] at hw
      rcases hw with rfl | hw
      · exact leWord_lt (hb p0 (by simp)) (hb p1 (by simp)) (hb p2 (by simp)) (hb p3 (by simp))
      · exact leWords_lt rest (fun b hb' => hb b (by simp [hb'])) w hw

theorem storeWords_length (be : Bool) : ∀ ws : List Nat, (storeWords be ws).length = 4 * ws.length
  | [] => by simp [storeWords]
  | w :: ws => by
      simp only [storeWords, List.length_append, storeWord_length, storeWords_length be ws,
        List.length_cons]
      omega

theorem storeWords_append (be : Bool) : ∀ a b : List Nat,
    storeWords be (a ++ b) = storeWords be a ++ storeWords be b
  | [], b => by simp [storeWords]
  | w :: a, b => by simp [storeWords, storeWords_append be a b]

theorem loadWords_storeWords (be : Bool) : ∀ (ws : List Nat), (∀ w ∈ ws, w < 4294967296) →
    ∀ rest, loadWords be (storeWords be ws ++ rest) = ws ++ loadWords be rest
  | [], _, rest => by simp [storeWords]
  | w :: ws, h, rest => by
      simp only [storeWords, List.append_assoc, List.cons_append]
      rw [loadWord_storeWord be (h w (by simp)),
        loadWords_storeWords be ws (fun x hx => h x (by simp [hx])) rest]

theorem leWords_length : ∀ (n : Nat) (l : List Nat), l.length = 4 * n → (leWords l).length = n
  | 0, l, h => by
      have : l = [] := List.length_eq_zero.mp (by omega)
      simp [this, leWords]
  | n + 1, [], h => by simp at h
  | n + 1, [_], h => by simp at h; omega
  | n + 1, [_, _], h => by simp at h; omega
  | n + 1, [_, _, _], h => by simp at h; omega
  | n + 1, p0 :: p1 :: p2 :: p3 :: rest, h => by
      simp only [leWords, List.length_cons, leWords_length n rest (by simp at h; omega)]

theorem leWords_append : ∀ (n : Nat) (a b : List Nat), a.length = 4 * n →
    leWords (a ++ b) = leWords a ++ leWords b
  | 0, a, b, h => by
      have : a = [] := List.length_eq_zero.mp (by omega)
      simp [this, leWords]
  | n + 1, [], b, h => by simp at h
  | n + 1, [_], b, h => by simp at h; omega
  | n + 1, [_, _], b, h => by simp at h; omega
  | n + 1, [_, _, _], b, h => by simp at h; omega
  | n + 1, p0 :: p1 :: p2 :: p3 :: rest, b, h => by
      have ih := leWords_append n rest b (by simp at h; omega)
      show leWords (p0 :: p1 :: p2 :: p3 :: (rest ++ b)) = _
      simp only [leWords, List.cons_append, ih]

theorem leWords_le32 {w : Nat} (h : w < 4294967296) : leWords (le32 w) = [w] := by
  simp only [le32, leWords, List.cons.injEq, and_true]
  omega

theorem le32_lt (w : Nat) : ∀ b ∈ le32 w, b < 256 := by
  intro b hb
  simp only [le32, List.mem_cons, List.mem_singleton, List.not_mem_nil, or_false] at hb
  rcases hb with rfl | rfl | rfl | rfl <;> omega

/-- The region after `byteSwap`: its first `n` words hold, in host order, the
little-endian words of the bytes that were there; the rest is untouched. -/
theorem byteSwap_eq (be : Bool) : ∀ (n : Nat) (mem : List Nat),
    4 * n ≤ mem.length → (∀ b ∈ mem.take (4 * n), b < 256) →
    byteSwap be n mem = storeWords be (leWords (mem.take (4 * n))) ++ mem.drop (4 * n)
  | 0, mem, _, _ => by simp [byteSwap, leWords, storeWords]
  | n + 1, [], h, _ => by simp at h
  | n + 1, [_], h, _ => by simp at h; omega
  | n + 1, [_, _], h, _ => by simp at h; omega
  | n + 1, [_, _, _], h, _ => by simp at h; omega
  | n + 1, p0 :: p1 :: p2 :: p3 :: rest, h, hb => by
      have e : 4 * (n + 1) = (4 * n) + 1 + 1 + 1 + 1 := by omega
      rw [e] at hb ⊢
      simp only [List.take_succ_cons, List.drop_succ_cons, List.mem_cons] at hb ⊢
      have h0 := hb p0 (by simp)
      have h1 := hb p1 (by simp)
      have h2 := hb p2 (by simp)
      have h3 := hb p3 (by simp)
      simp only [byteSwap, leWords, storeWords, List.append_assoc]
      rw [byteSwap_word h0 h1 h2 h3]
      rw [byteSwap_eq be n rest (by simp at h; omega) (fun b hb' => hb b (by simp [hb']))]

/-- The words `transform` reads after `byteSwap(in, 16)` of a 64-byte region. -/
theorem loadWords_byteSwap16 (be : Bool) (mem : List Nat) (hl : mem.length = 64)
    (hb : ∀ b ∈ mem, b < 256) : loadWords be (byteSwap be 16 mem) = leWords mem := by
  have ht : mem.take (4 * 16) = mem := List.take_of_length_le (by omega)
  have hd : mem.drop (4 * 16) = [] := List.drop_of_length_le (by omega)
  rw [byteSwap_eq be 16 mem (by omega) (by rw [ht]; exact hb), ht, hd,
    loadWords_storeWords be _ (leWords_lt mem hb)]
  simp [loadWords]

/-! ## Copies -/

theorem memcpy_length (dst : List Nat) (off : Nat) (src : List Nat)
    (h : off + src.length ≤ dst.length) : (memcpy dst off src).length = dst.length := by
  simp only [memcpy, List.length_append, List.length_take, List.length_drop]
  omega

theorem memcpy_zero_full (dst src : List Nat) (h : dst.length ≤ src.length) :
    memcpy dst 0 src = src := by
  simp [memcpy, List.drop_of_length_le h]

/-! ## Folding blocks -/

theorem transform_length (h w : List Nat) : (transform h w).length = 4 := rfl

theorem absorb_zero (h m : List Nat) : absorb 0 h m = h := rfl

theorem absorb_succ (n : Nat) (h m : List Nat) :
    absorb (n + 1) h m = absorb n (transform h (leWords (m.take 64))) (m.drop 64) := rfl

theorem absorb_append_exact : ∀ (n k : Nat) (h x y : List Nat), x.length = 64 * n →
    absorb (n + k) h (x ++ y) = absorb k (absorb n h x) y
  | 0, k, h, x, y, hx => by
      have : x = [] := List.length_eq_zero.mp (by omega)
      simp only [this, absorb_zero, List.nil_append, Nat.zero_add]
  | n + 1, k, h, x, y, hx => by
      have e : n + 1 + k = (n + k) + 1 := by omega
      rw [e]
      simp only [absorb_succ]
      have h1 : (x ++ y).take 64 = x.take 64 := by
        rw [List.take_append_of_le_length (by omega)]
      have h2 : (x ++ y).drop 64 = x.drop 64 ++ y := by
        rw [List.drop_append_of_le_length (by omega)]
      rw [h1, h2, absorb_append_exact n k _ (x.drop 64) y (by simp; omega)]

theorem absorb_length : ∀ (n : Nat) (h x : List Nat), h.length = 4 → (absorb n h x).length = 4
  | 0, h, x, hh => by simpa only [absorb_zero] using hh
  | n + 1, h, x, hh => by
      simp only [absorb_succ]
      exact absorb_length n _ _ (transform_length _ _)

/-- The loop of `md5_update` folds every whole block of the data and leaves the rest. -/
theorem md5_update_loop_eq (be : Bool) : ∀ (fuel : Nat) (hbuf inp buf : List Nat),
    buf.length ≤ fuel → inp.length = 64 → (∀ b ∈ buf, b < 256) →
    ∃ inp1, inp1.length = 64 ∧
      md5_update_loop be fuel (hbuf, inp, buf)
        = (absorb (buf.length / 64) hbuf (buf.take (64 * (buf.length / 64))), inp1,
            buf.drop (64 * (buf.length / 64)))
  | 0, hbuf, inp, buf, hf, hi, _ => by
      have : buf = [] := List.length_eq_zero.mp (by omega)
      exact ⟨inp, hi, by simp [this, md5_update_loop, absorb_zero]⟩
  | fuel + 1, hbuf, inp, buf, hf, hi, hb => by
      by_cases hlen : 64 ≤ buf.length
      · simp only [md5_update_loop, hlen, if_true]
        have hcp : memcpy inp 0 (buf.take 64) = buf.take 64 :=
          memcpy_zero_full _ _ (by simp; omega)
        have hb64 : ∀ b ∈ buf.take 64, b < 256 := fun b h => hb b (List.mem_of_mem_take h)
        have hl64 : (buf.take 64).length = 64 := by simp; omega
        rw [hcp, loadWords_byteSwap16 be _ hl64 hb64]
        obtain ⟨inp1, hi1, e⟩ := md5_update_loop_eq be fuel
          (transform hbuf (leWords (buf.take 64))) (byteSwap be 16 (buf.take 64)) (buf.drop 64)
          (by simp; omega) (by rw [byteSwap_length]; exact hl64)
          (fun b h => hb b (List.mem_of_mem_drop h))
        refine ⟨inp1, hi1, ?_⟩
        rw [e]
        have hq : buf.length / 64 = (buf.length - 64) / 64 + 1 := by omega
        have hd : (buf.drop 64).length = buf.length - 64 := by simp
        rw [hd, hq]
        simp only [absorb_succ]
        have e1 : 64 * ((buf.length - 64) / 64 + 1) = 64 + 64 * ((buf.length - 64) / 64) := by
          omega
        rw [e1, ← List.drop_drop, List.take_add]
        have e2 : (buf.take 64 ++ (buf.drop 64).take (64 * ((buf.length - 64) / 64))).take 64
            = buf.take 64 := by
          rw [List.take_append_of_le_length (by omega), List.take_take]; simp
        have e3 : (buf.take 64 ++ (buf.drop 64).take (64 * ((buf.length - 64) / 64))).drop 64
            = (buf.drop 64).take (64 * ((buf.length - 64) / 64)) := by
          rw [List.drop_append_of_le_length (by omega)]
          simp [hl64]
        rw [e2, e3]
      · simp only [md5_update_loop, hlen, if_false]
        have hq : buf.length / 64 = 0 := by omega
        exact ⟨inp, hi, by simp [hq, absorb_zero]⟩

/-! ## The streaming invariant -/

theorem and_0x3f (x : Nat) : x &&& 0x3f = x % 64 :=
  Nat.and_pow_two_sub_one_eq_mod x 6

theorem md5_init_inv (ctx : md5_t) (h : ctx.inp.length = 64) : md5_inv (md5_init ctx) [] :=
  ⟨0, [], [], rfl, rfl, by simp, rfl, h, by simp, rfl, rfl⟩

theorem md5_update_inv (be : Bool) (ctx : md5_t) (m c : List Nat) (hinv : md5_inv ctx m)
    (hc : c.length < 4294967296) (hbm : ∀ b ∈ m, b < 256) (hbc : ∀ b ∈ c, b < 256) :
    md5_inv (md5_update be ctx c) (m ++ c) := by
  obtain ⟨q, blocks, pending, hm, hbl, hp, hbuf, hil, hit, hb0, hb1⟩ := hinv
  have hml : m.length = 64 * q + pending.length := by rw [hm]; simp [hbl]
  have hand : ctx.bytes0 &&& 0x3f = pending.length := by
    rw [and_0x3f, hb0]; omega
  have hB0 : u32 (ctx.bytes0 + c.length) = (m ++ c).length % 4294967296 := by
    simp only [u32, hb0, List.length_append]; omega
  have hB1 : (if u32 (ctx.bytes0 + c.length) < ctx.bytes0 then u32 (ctx.bytes1 + 1)
      else ctx.bytes1) = (m ++ c).length / 4294967296 % 4294967296 := by
    simp only [u32, hb0, hb1, List.length_append]
    split <;> omega
  have hbp : ∀ b ∈ pending, b < 256 := fun b h => hbm b (by rw [hm]; simp [h])
  simp only [md5_update, hand]
  split
  · rename_i hlt
    refine ⟨q, blocks, pending ++ c, by rw [hm]; simp, hbl, by simp; omega, hbuf, ?_, ?_,
      hB0, hB1⟩
    · rw [memcpy_length]; exact hil; omega
    · have e : 64 - (64 - pending.length) = pending.length := by omega
      simp only [e, memcpy]
      rw [hit]
      exact List.take_left' rfl
  · rename_i hge
    have ht : 64 - pending.length ≤ c.length := by omega
    have e : 64 - (64 - pending.length) = pending.length := by omega
    have htl : (c.take (64 - pending.length)).length = 64 - pending.length := by
      simp; omega
    have hcp : memcpy ctx.inp (64 - (64 - pending.length)) (c.take (64 - pending.length))
        = pending ++ c.take (64 - pending.length) := by
      simp only [e, memcpy, hit, htl]
      rw [List.drop_of_length_le (by omega)]
      simp
    have hB0l : (pending ++ c.take (64 - pending.length)).length = 64 := by
      rw [List.length_append, htl]; omega
    have hB0b : ∀ b ∈ pending ++ c.take (64 - pending.length), b < 256 := by
      intro b hb
      rcases List.mem_append.mp hb with h | h
      · exact hbp b h
      · exact hbc b (List.mem_of_mem_take h)
    obtain ⟨inp1, hi1, el⟩ := md5_update_loop_eq be (c.drop (64 - pending.length)).length
      (transform ctx.buf (leWords (pending ++ c.take (64 - pending.length))))
      (byteSwap be 16 (pending ++ c.take (64 - pending.length)))
      (c.drop (64 - pending.length)) (Nat.le_refl _)
      (by rw [byteSwap_length]; exact hB0l) (fun b h => hbc b (List.mem_of_mem_drop h))
    rw [hcp, loadWords_byteSwap16 be _ hB0l hB0b, el]
    simp only []
    have hdl : (c.drop (64 - pending.length)).length = c.length - (64 - pending.length) := by
      simp
    refine ⟨q + 1 + (c.drop (64 - pending.length)).length / 64,
      (blocks ++ (pending ++ c.take (64 - pending.length))) ++
        (c.drop (64 - pending.length)).take (64 * ((c.drop (64 - pending.length)).length / 64)),
      (c.drop (64 - pending.length)).drop (64 * ((c.drop (64 - pending.length)).length / 64)),
      ?_, ?_, ?_, ?_, ?_, ?_, hB0, hB1⟩
    · rw [hm]
      simp only [List.append_assoc, List.take_append_drop]
    · have h2 : ((c.drop (64 - pending.length)).take
          (64 * ((c.drop (64 - pending.length)).length / 64))).length
          = 64 * ((c.drop (64 - pending.length)).length / 64) := by
        rw [List.length_take]; omega
      rw [List.length_append, List.length_append, hbl, hB0l, h2]
      omega
    · simp only [List.length_drop]
      omega
    · have h3 : absorb (q + 1) md5_iv (blocks ++ (pending ++ c.take (64 - pending.length)))
          = transform ctx.buf (leWords (pending ++ c.take (64 - pending.length))) := by
        rw [absorb_append_exact q 1 _ _ _ hbl, absorb_succ, absorb_zero, ← hbuf,
          List.take_of_length_le (Nat.le_of_eq hB0l)]
      rw [absorb_append_exact (q + 1) _ _ _ _ (by rw [List.length_append, hbl, hB0l]; omega),
        h3]
    · rw [memcpy_length]
      · exact hi1
      · simp only [List.length_drop]; omega
    · simp [memcpy]

theorem transform_lt (h x : List Nat) : ∀ w ∈ transform h x, w < 4294967296 := by
  have e : ∃ a b c d, transform h x = [u32 a, u32 b, u32 c, u32 d] := ⟨_, _, _, _, rfl⟩
  obtain ⟨a, b, c, d, e⟩ := e
  rw [e]
  intro w hw
  simp only [List.mem_cons, List.mem_singleton, List.not_mem_nil, or_false] at hw
  rcases hw with rfl | rfl | rfl | rfl <;> exact Nat.mod_lt _ (by decide)

theorem length_bits_high (L : Nat) :
    u32 ((L / 4294967296 % 4294967296) <<< 3) ||| (L % 4294967296) >>> 29
      = 8 * L / 4294967296 % 4294967296 := by
  rw [Nat.shiftLeft_eq, Nat.shiftRight_eq_div_pow]
  have h := Nat.mul_add_lt_is_or (i := 3) (b := L % 4294967296 / 2 ^ 29)
    (by simp only [Nat.reducePow]; omega) (u32 (L / 4294967296 % 4294967296 * 2 ^ 3) / 8)
  simp only [Nat.reducePow, u32] at h ⊢
  have e : 8 * (L / 4294967296 % 4294967296 * 8 % 4294967296 / 8)
      = L / 4294967296 % 4294967296 * 8 % 4294967296 := by omega
  rw [e] at h
  rw [← h]
  omega

/-- The words `transform` reads in `md5_final`: 56 padded bytes through `byteSwap(in, 14)`
and the two length words stored in host order. -/
theorem final_block_words (be : Bool) (X T : List Nat) (w14 w15 : Nat) (hX : X.length = 56)
    (hT : T.length = 8) (hb : ∀ b ∈ X, b < 256) (h14 : w14 < 4294967296)
    (h15 : w15 < 4294967296) :
    loadWords be (memcpy (memcpy (byteSwap be 14 (X ++ T)) 56 (storeWord be w14)) 60
        (storeWord be w15))
      = leWords (X ++ le32 w14 ++ le32 w15) := by
  have ht : (X ++ T).take (4 * 14) = X := List.take_left' hX
  have hd : (X ++ T).drop (4 * 14) = T := List.drop_left' hX
  have hsl : (storeWords be (leWords X)).length = 56 := by
    rw [storeWords_length, leWords_length 14 X hX]
  rw [byteSwap_eq be 14 (X ++ T) (by simp; omega) (by rw [ht]; exact hb), ht, hd]
  have e1 : memcpy (storeWords be (leWords X) ++ T) 56 (storeWord be w14)
      = storeWords be (leWords X) ++ storeWord be w14 ++ T.drop 4 := by
    have hdd : (storeWords be (leWords X) ++ T).drop (56 + 4) = T.drop 4 := by
      rw [← List.drop_drop, List.drop_left' hsl]
    simp only [memcpy, storeWord_length]
    rw [List.take_left' hsl, hdd]
  have e2 : memcpy (storeWords be (leWords X) ++ storeWord be w14 ++ T.drop 4) 60
      (storeWord be w15) = storeWords be (leWords X) ++ storeWord be w14 ++ storeWord be w15 := by
    have hl : (storeWords be (leWords X) ++ storeWord be w14).length = 60 := by
      rw [List.length_append, hsl, storeWord_length]
    have hdd : (storeWords be (leWords X) ++ storeWord be w14 ++ T.drop 4).drop (60 + 4) = [] := by
      apply List.drop_of_length_le
      rw [List.length_append, hl, List.length_drop, hT]
    simp only [memcpy, storeWord_length]
    rw [List.take_left' hl, hdd, List.append_nil]
  rw [e1, e2]
  have e3 : storeWords be (leWords X) ++ storeWord be w14 ++ storeWord be w15
      = storeWords be (leWords X ++ [w14, w15]) ++ [] := by
    simp [storeWords_append, storeWords]
  have hw : ∀ w ∈ leWords X ++ [w14, w15], w < 4294967296 := by
    intro w hw
    rcases List.mem_append.mp hw with h | h
    · exact leWords_lt X hb w h
    · simp only [List.mem_cons, List.mem_singleton, List.not_mem_nil, or_false] at h
      rcases h with rfl | rfl <;> assumption
  have er : leWords (X ++ le32 w14 ++ le32 w15) = leWords X ++ [w14, w15] := by
    rw [List.append_assoc X, leWords_append 14 X _ hX,
      leWords_append 1 (le32 w14) _ (by simp [le32]), leWords_le32 h14, leWords_le32 h15]
    rfl
  rw [e3, loadWords_storeWords be _ hw, er]
  simp [loadWords]

theorem byteSwap_storeWord (be : Bool) (n : Nat) (w : Nat) (hw : w < 4294967296)
    (rest : List Nat) :
    byteSwap be (n + 1) (storeWord be w ++ rest) = le32 w ++ byteSwap be n rest := by
  have h0 : w % 256 < 256 := Nat.mod_lt _ (by decide)
  have h1 : w / 256 % 256 < 256 := Nat.mod_lt _ (by decide)
  have h2 : w / 65536 % 256 < 256 := Nat.mod_lt _ (by decide)
  have h3 : w / 16777216 % 256 < 256 := Nat.mod_lt _ (by decide)
  have hw' : w = w % 256 + w / 256 % 256 * 256 + w / 65536 % 256 * 65536
      + w / 16777216 % 256 * 16777216 := by omega
  cases be
  · simp only [storeWord, le32, Bool.false_eq_true, if_false, List.cons_append, List.nil_append,
      byteSwap]
    rw [byteSwap_word h0 h1 h2 h3, ← hw']
    rfl
  · simp only [storeWord, le32, if_true, List.cons_append, List.nil_append, byteSwap]
    rw [byteSwap_word h3 h2 h1 h0]
    generalize w % 256 = b0 at h0 hw' ⊢
    generalize w / 256 % 256 = b1 at h1 hw' ⊢
    generalize w / 65536 % 256 = b2 at h2 hw' ⊢
    generalize w / 16777216 % 256 = b3 at h3 hw' ⊢
    clear hw' hw
    have e0 : (b3 + b2 * 256 + b1 * 65536 + b0 * 16777216) / 16777216 % 256 = b0 := by
      have : (b3 + b2 * 256 + b1 * 65536 + b0 * 16777216) / 16777216 = b0 := by omega
      omega
    have e1 : (b3 + b2 * 256 + b1 * 65536 + b0 * 16777216) / 65536 % 256 = b1 := by
      have : (b3 + b2 * 256 + b1 * 65536 + b0 * 16777216) / 65536 = b1 + b0 * 256 := by omega
      omega
    have e2 : (b3 + b2 * 256 + b1 * 65536 + b0 * 16777216) / 256 % 256 = b2 := by
      have : (b3 + b2 * 256 + b1 * 65536 + b0 * 16777216) / 256
          = b2 + b1 * 256 + b0 * 65536 := by omega
      omega
    have e3 : (b3 + b2 * 256 + b1 * 65536 + b0 * 16777216) % 256 = b3 := by omega
    rw [e0, e1, e2, e3]
    rfl

/-- The digest bytes: `byteSwap(buf, 4)` leaves the four hash words in little-endian
byte order whatever the host byte order. -/
theorem digest_bytes (be : Bool) (a b c d : Nat) (ha : a < 4294967296) (hb : b < 4294967296)
    (hc : c < 4294967296) (hd : d < 4294967296) :
    (byteSwap be 4 (storeWords be [a, b, c, d])).take 16 = [a, b, c, d].flatMap le32 := by
  simp only [storeWords]
  rw [byteSwap_storeWord be 3 a ha, byteSwap_storeWord be 2 b hb, byteSwap_storeWord be 1 c hc,
    byteSwap_storeWord be 0 d hd]
  simp [byteSwap, le32, List.flatMap]

theorem transform_words (h x : List Nat) : ∃ a b c d, transform h x = [a, b, c, d] ∧
    a < 4294967296 ∧ b < 4294967296 ∧ c < 4294967296 ∧ d < 4294967296 := by
  have hl := transform_lt h x
  have e : ∃ a b c d, transform h x = [u32 a, u32 b, u32 c, u32 d] := ⟨_, _, _, _, rfl⟩
  obtain ⟨a, b, c, d, e⟩ := e
  exact ⟨_, _, _, _, e, u32_lt a, u32_lt b, u32_lt c, u32_lt d⟩

theorem absorb_one (q : Nat) (h blocks T : List Nat) (hbl : blocks.length = 64 * q)
    (hT : T.length = 64) :
    absorb (q + 1) h (blocks ++ T) = transform (absorb q h blocks) (leWords T) := by
  rw [absorb_append_exact q 1 _ _ _ hbl, absorb_succ, absorb_zero,
    List.take_of_length_le (Nat.le_of_eq hT)]

theorem absorb_two (q : Nat) (h blocks T U : List Nat) (hbl : blocks.length = 64 * q)
    (hT : T.length = 64) (hU : U.length = 64) :
    absorb (q + 2) h (blocks ++ (T ++ U))
      = transform (transform (absorb q h blocks) (leWords T)) (leWords U) := by
  rw [← List.append_assoc, absorb_one (q + 1) h (blocks ++ T) U
    (by rw [List.length_append, hbl, hT]; omega) hU, absorb_one q h blocks T hbl hT]

/-- The tail of `md5_final` from the 56 padded bytes of the last block on. -/
theorem md5_final_tail (be : Bool) (hbuf X T : List Nat) (w14 w15 : Nat) (hX : X.length = 56)
    (hT : T.length = 8) (hb : ∀ b ∈ X, b < 256) (h14 : w14 < 4294967296)
    (h15 : w15 < 4294967296) :
    (byteSwap be 4 (storeWords be (transform hbuf (loadWords be
      (memcpy (memcpy (byteSwap be 14 (X ++ T)) 56 (storeWord be w14)) 60
        (storeWord be w15)))))).take 16
      = (transform hbuf (leWords (X ++ le32 w14 ++ le32 w15))).flatMap le32 := by
  rw [final_block_words be X T w14 w15 hX hT hb h14 h15]
  obtain ⟨a, b, c, d, e, ha, hb, hc, hd⟩ := transform_words hbuf (leWords (X ++ le32 w14 ++ le32 w15))
  rw [e]
  exact digest_bytes be a b c d ha hb hc hd

theorem md5_final_eq (be : Bool) (ctx : md5_t) (m : List Nat) (hinv : md5_inv ctx m)
    (hbm : ∀ b ∈ m, b < 256) : (md5_final be ctx).1 = md5_spec m := by
  obtain ⟨q, blocks, pending, hm, hbl, hp, hbuf, hil, hit, hb0, hb1⟩ := hinv
  have hml : m.length = 64 * q + pending.length := by rw [hm]; simp [hbl]
  have hand : ctx.bytes0 &&& 0x3f = pending.length := by
    rw [and_0x3f, hb0]; omega
  have hbp : ∀ b ∈ pending, b < 256 := fun b h => hbm b (by rw [hm]; simp [h])
  have hinp1 : memcpy ctx.inp pending.length [0x80]
      = pending ++ [0x80] ++ ctx.inp.drop (pending.length + 1) := by
    simp [memcpy, hit]
  have h14 : u32 (ctx.bytes0 <<< 3) = 8 * m.length % 4294967296 := by
    rw [hb0, Nat.shiftLeft_eq]; simp only [u32, Nat.reducePow]; omega
  have h15 : u32 (ctx.bytes1 <<< 3) ||| ctx.bytes0 >>> 29
      = 8 * m.length / 4294967296 % 4294967296 := by
    rw [hb0, hb1]; exact length_bits_high _
  have hl14 : 8 * m.length % 4294967296 < 4294967296 := Nat.mod_lt _ (by decide)
  have hl15 : 8 * m.length / 4294967296 % 4294967296 < 4294967296 := Nat.mod_lt _ (by decide)
  simp only [md5_final, hand, hinp1, h14, h15, md5_spec, rfc1321_pad]
  by_cases hr : pending.length ≤ 55
  · have hcount : ¬ ((56 : Int) - 1 - (pending.length : Int) < 0) := by omega
    have htn : ((56 : Int) - 1 - (pending.length : Int)).toNat = 55 - pending.length := by omega
    simp only [hcount, if_false, htn]
    have hPl : (pending ++ [128]).length = pending.length + 1 := by simp
    have hms : memset (pending ++ [128] ++ ctx.inp.drop (pending.length + 1))
        (pending.length + 1) 0 (55 - pending.length)
        = (pending ++ [128] ++ List.replicate (55 - pending.length) 0) ++ ctx.inp.drop 56 := by
      simp only [memset, memcpy, List.length_replicate]
      rw [List.take_left' hPl, ← List.drop_drop, List.drop_left' hPl, List.drop_drop]
      have : pending.length + 1 + (55 - pending.length) = 56 := by omega
      rw [this]
    have hX : (pending ++ [128] ++ List.replicate (55 - pending.length) 0).length = 56 := by
      simp; omega
    have hXb : ∀ b ∈ pending ++ [128] ++ List.replicate (55 - pending.length) 0, b < 256 := by
      intro b hb
      simp only [List.mem_append, List.mem_singleton, List.mem_replicate] at hb
      rcases hb with (h | h) | h
      · exact hbp b h
      · omega
      · omega
    rw [hms, md5_final_tail be ctx.buf _ (ctx.inp.drop 56) _ _ hX (by simp; omega) hXb hl14 hl15]
    have hkz : (120 - (m.length + 1) % 64) % 64 = 55 - pending.length := by omega
    have hpad : m ++ [128] ++ List.replicate (55 - pending.length) 0
        ++ le32 (8 * m.length % 4294967296) ++ le32 (8 * m.length / 4294967296 % 4294967296)
        = blocks ++ (pending ++ [128] ++ List.replicate (55 - pending.length) 0
          ++ le32 (8 * m.length % 4294967296)
          ++ le32 (8 * m.length / 4294967296 % 4294967296)) := by
      rw [hm]; simp only [List.append_assoc]
    have hTl : (pending ++ [128] ++ List.replicate (55 - pending.length) 0
          ++ le32 (8 * m.length % 4294967296)
          ++ le32 (8 * m.length / 4294967296 % 4294967296)).length = 64 := by
      rw [List.length_append, List.length_append, hX]; simp [le32]
    have hq : (blocks ++ (pending ++ [128] ++ List.replicate (55 - pending.length) 0
          ++ le32 (8 * m.length % 4294967296)
          ++ le32 (8 * m.length / 4294967296 % 4294967296))).length / 64 = q + 1 := by
      rw [List.length_append, hbl, hTl]; omega
    rw [hkz, hpad, hq, absorb_one q _ _ _ hbl hTl, ← hbuf]
  · have hcount : ((56 : Int) - 1 - (pending.length : Int) < 0) := by omega
    have htn : ((56 : Int) - 1 - (pending.length : Int) + 8).toNat = 63 - pending.length := by
      omega
    simp only [hcount, if_true, htn]
    have hPl : (pending ++ [128]).length = pending.length + 1 := by simp
    have hms : memset (pending ++ [128] ++ ctx.inp.drop (pending.length + 1))
        (pending.length + 1) 0 (63 - pending.length)
        = pending ++ [128] ++ List.replicate (63 - pending.length) 0 := by
      simp only [memset, memcpy, List.length_replicate]
      rw [List.take_left' hPl, ← List.drop_drop, List.drop_left' hPl, List.drop_drop,
        List.drop_of_length_le (by omega), List.append_nil]
    have hB : (pending ++ [128] ++ List.replicate (63 - pending.length) 0).length = 64 := by
      simp; omega
    have hBb : ∀ b ∈ pending ++ [128] ++ List.replicate (63 - pending.length) 0, b < 256 := by
      intro b hb
      simp only [List.mem_append, List.mem_singleton, List.mem_replicate] at hb
      rcases hb with (h | h) | h
      · exact hbp b h
      · omega
      · omega
    rw [hms, loadWords_byteSwap16 be _ hB hBb]
    have h56 : Int.toNat 56 = 56 := rfl
    have hms2 : memset (byteSwap be 16 (pending ++ [128]
          ++ List.replicate (63 - pending.length) 0)) 0 0 56
        = List.replicate 56 0 ++ (byteSwap be 16 (pending ++ [128]
          ++ List.replicate (63 - pending.length) 0)).drop 56 := by
      simp [memset, memcpy]
    have hXb : ∀ b ∈ List.replicate 56 0, b < 256 := by
      intro b hb
      simp only [List.mem_replicate] at hb
      omega
    rw [h56, hms2, md5_final_tail be _ _ _ _ _ (by simp)
      (by rw [List.length_drop, byteSwap_length, hB]) hXb hl14 hl15]
    have hkz : (120 - (m.length + 1) % 64) % 64 = (63 - pending.length) + 56 := by omega
    have hpad : m ++ [128] ++ List.replicate ((63 - pending.length) + 56) 0
        ++ le32 (8 * m.length % 4294967296) ++ le32 (8 * m.length / 4294967296 % 4294967296)
        = blocks ++ ((pending ++ [128] ++ List.replicate (63 - pending.length) 0)
          ++ (List.replicate 56 0 ++ le32 (8 * m.length % 4294967296)
          ++ le32 (8 * m.length / 4294967296 % 4294967296))) := by
      rw [hm, List.replicate_add]; simp only [List.append_assoc]
    have hUl : (List.replicate 56 0 ++ le32 (8 * m.length % 4294967296)
          ++ le32 (8 * m.length / 4294967296 % 4294967296)).length = 64 := by
      simp [le32]
    have hq : (blocks ++ ((pending ++ [128] ++ List.replicate (63 - pending.length) 0)
          ++ (List.replicate 56 0 ++ le32 (8 * m.length % 4294967296)
          ++ le32 (8 * m.length / 4294967296 % 4294967296)))).length / 64 = q + 2 := by
      rw [List.length_append, List.length_append, hbl, hB, hUl]; omega
    rw [hkz, hpad, hq, absorb_two q _ _ _ _ hbl hB hUl, ← hbuf]

theorem range_64 : List.range 64 = [0, 1, 2, 3, 4, 5, 6, 7, 8, 9, 10, 11, 12, 13, 14, 15, 16, 17, 18, 19, 20, 21, 22, 23, 24, 25, 26, 27, 28, 29, 30, 31, 32, 33, 34, 35, 36, 37, 38, 39, 40, 41, 42, 43, 44, 45, 46, 47, 48, 49, 50, 51, 52, 53, 54, 55, 56, 57, 58, 59, 60, 61, 62, 63] := by decide

theorem transform_eq_steps (h X : List Nat) : transform h X = md5_steps h X := by
  unfold transform
  lift_lets
  intro w a0 b0 c0 d0 a1 d1 c1 b1 a2 d2 c2 b2 a3 d3 c3 b3 a4 d4 c4 b4 a5 d5 c5 b5 a6 d6 c6 b6 a7 d7 c7 b7 a8 d8 c8 b8 a9 d9 c9 b9 a10 d10 c10 b10 a11 d11 c11 b11 a12 d12 c12 b12 a13 d13 c13 b13 a14 d14 c14 b14 a15 d15 c15 b15 a16 d16 c16 b16
  unfold md5_steps
  rw [range_64]
  simp only [List.foldl_cons, List.foldl_nil]
  show [u32 (a0 + a16), u32 (b0 + b16), u32 (c0 + c16), u32 (d0 + d16)] = _
  have s0 : md5_step X (a0, b0, c0, d0) 0 = (d0, a1, b0, c0) := rfl
  rw [s0]
  have s1 : md5_step X (d0, a1, b0, c0) 1 = (c0, d1, a1, b0) := rfl
  rw [s1]
  have s2 : md5_step X (c0, d1, a1, b0) 2 = (b0, c1, d1, a1) := rfl
  rw [s2]
  have s3 : md5_step X (b0, c1, d1, a1) 3 = (a1, b1, c1, d1) := rfl
  rw [s3]
  have s4 : md5_step X (a1, b1, c1, d1) 4 = (d1, a2, b1, c1) := rfl
  rw [s4]
  have s5 : md5_step X (d1, a2, b1, c1) 5 = (c1, d2, a2, b1) := rfl
  rw [s5]
  have s6 : md5_step X (c1, d2, a2, b1) 6 = (b1, c2, d2, a2) := rfl
  rw [s6]
  have s7 : md5_step X (b1, c2, d2, a2) 7 = (a2, b2, c2, d2) := rfl
  rw [s7]
  have s8 : md5_step X (a2, b2, c2, d2) 8 = (d2, a3, b2, c2) := rfl
  rw [s8]
  have s9 : md5_step X (d2, a3, b2, c2) 9 = (c2, d3, a3, b2) := rfl
  rw [s9]
  have s10 : md5_step X (c2, d3, a3, b2) 10 = (b2, c3, d3, a3) := rfl
  rw [s10]
  have s11 : md5_step X (b2, c3, d3, a3) 11 = (a3, b3, c3, d3) := rfl
  rw [s11]
  have s12 : md5_step X (a3, b3, c3, d3) 12 = (d3, a4, b3, c3) := rfl
  rw [s12]
  have s13 : md5_step X (d3, a4, b3, c3) 13 = (c3, d4, a4, b3) := rfl
  rw [s13]
  have s14 : md5_step X (c3, d4, a4, b3) 14 = (b3, c4, d4, a4) := rfl
  rw [s14]
  have s15 : md5_step X (b3, c4, d4, a4) 15 = (a4, b4, c4, d4) := rfl
  rw [s15]
  have s16 : md5_step X (a4, b4, c4, d4) 16 = (d4, a5, b4, c4) := rfl
  rw [s16]
  have s17 : md5_step X (d4, a5, b4, c4) 17 = (c4, d5, a5, b4) := rfl
  rw [s17]
  have s18 : md5_step X (c4, d5, a5, b4) 18 = (b4, c5, d5, a5) := rfl
  rw [s18]
  have s19 : md5_step X (b4, c5, d5, a5) 19 = (a5, b5, c5, d5) := rfl
  rw [s19]
  have s20 : md5_step X (a5, b5, c5, d5) 20 = (d5, a6, b5, c5) := rfl
  rw [s20]
  have s21 : md5_step X (d5, a6, b5, c5) 21 = (c5, d6, a6, b5) := rfl
  rw [s21]
  have s22 : md5_step X (c5, d6, a6, b5) 22 = (b5, c6, d6, a6) := rfl
  rw [s22]
  have s23 : md5_step X (b5, c6, d6, a6) 23 = (a6, b6, c6, d6) := rfl
  rw [s23]
  have s24 : md5_step X (a6, b6, c6, d6) 24 = (d6, a7, b6, c6) := rfl
  rw [s24]
  have s25 : md5_step X (d6, a7, b6, c6) 25 = (c6, d7, a7, b6) := rfl
  rw [s25]
  have s26 : md5_step X (c6, d7, a7, b6) 26 = (b6, c7, d7, a7) := rfl
  rw [s26]
  have s27 : md5_step X (b6, c7, d7, a7) 27 = (a7, b7, c7, d7) := rfl
  rw [s27]
  have s28 : md5_step X (a7, b7, c7, d7) 28 = (d7, a8, b7, c7) := rfl
  rw [s28]
  have s29 : md5_step X (d7, a8, b7, c7) 29 = (c7, d8, a8, b7) := rfl
  rw [s29]
  have s30 : md5_step X (c7, d8, a8, b7) 30 = (b7, c8, d8, a8) := rfl
  rw [s30]
  have s31 : md5_step X (b7, c8, d8, a8) 31 = (a8, b8, c8, d8) := rfl
  rw [s31]
  have s32 : md5_step X (a8, b8, c8, d8) 32 = (d8, a9, b8, c8) := rfl
  rw [s32]
  have s33 : md5_step X (d8, a9, b8, c8) 33 = (c8, d9, a9, b8) := rfl
  rw [s33]
  have s34 : md5_step X (c8, d9, a9, b8) 34 = (b8, c9, d9, a9) := rfl
  rw [s34]
  have s35 : md5_step X (b8, c9, d9, a9) 35 = (a9, b9, c9, d9) := rfl
  rw [s35]
  have s36 : md5_step X (a9, b9, c9, d9) 36 = (d9, a10, b9, c9) := rfl
  rw [s36]
  have s37 : md5_step X (d9, a10, b9, c9) 37 = (c9, d10, a10, b9) := rfl
  rw [s37]
  have s38 : md5_step X (c9, d10, a10, b9) 38 = (b9, c10, d10, a10) := rfl
  rw [s38]
  have s39 : md5_step X (b9, c10, d10, a10) 39 = (a10, b10, c10, d10) := rfl
  rw [s39]
  have s40 : md5_step X (a10, b10, c10, d10) 40 = (d10, a11, b10, c10) := rfl
  rw [s40]
  have s41 : md5_step X (d10, a11, b10, c10) 41 = (c10, d11, a11, b10) := rfl
  rw [s41]
  have s42 : md5_step X (c10, d11, a11, b10) 42 = (b10, c11, d11, a11) := rfl
  rw [s42]
  have s43 : md5_step X (b10, c11, d11, a11) 43 = (a11, b11, c11, d11) := rfl
  rw [s43]
  have s44 : md5_step X (a11, b11, c11, d11) 44 = (d11, a12, b11, c11) := rfl
  rw [s44]
  have s45 : md5_step X (d11, a12, b11, c11) 45 = (c11, d12, a12, b11) := rfl
  rw [s45]
  have s46 : md5_step X (c11, d12, a12, b11) 46 = (b11, c12, d12, a12) := rfl
  rw [s46]
  have s47 : md5_step X (b11, c12, d12, a12) 47 = (a12, b12, c12, d12) := rfl
  rw [s47]
  have s48 : md5_step X (a12, b12, c12, d12) 48 = (d12, a13, b12, c12) := rfl
  rw [s48]
  have s49 : md5_step X (d12, a13, b12, c12) 49 = (c12, d13, a13, b12) := rfl
  rw [s49]
  have s50 : md5_step X (c12, d13, a13, b12) 50 = (b12, c13, d13, a13) := rfl
  rw [s50]
  have s51 : md5_step X (b12, c13, d13, a13) 51 = (a13, b13, c13, d13) := rfl
  rw [s51]
  have s52 : md5_step X (a13, b13, c13, d13) 52 = (d13, a14, b13, c13) := rfl
  rw [s52]
  have s53 : md5_step X (d13, a14, b13, c13) 53 = (c13, d14, a14, b13) := rfl
  rw [s53]
  have s54 : md5_step X (c13, d14, a14, b13) 54 = (b13, c14, d14, a14) := rfl
  rw [s54]
  have s55 : md5_step X (b13, c14, d14, a14) 55 = (a14, b14, c14, d14) := rfl
  rw [s55]
  have s56 : md5_step X (a14, b14, c14, d14) 56 = (d14, a15, b14, c14) := rfl
  rw [s56]
  have s57 : md5_step X (d14, a15, b14, c14) 57 = (c14, d15, a15, b14) := rfl
  rw [s57]
  have s58 : md5_step X (c14, d15, a15, b14) 58 = (b14, c15, d15, a15) := rfl
  rw [s58]
  have s59 : md5_step X (b14, c15, d15, a15) 59 = (a15, b15, c15, d15) := rfl
  rw [s59]
  have s60 : md5_step X (a15, b15, c15, d15) 60 = (d15, a16, b15, c15) := rfl
  rw [s60]
  have s61 : md5_step X (d15, a16, b15, c15) 61 = (c15, d16, a16, b15) := rfl
  rw [s61]
  have s62 : md5_step X (c15, d16, a16, b15) 62 = (b15, c16, d16, a16) := rfl
  rw [s62]
  have s63 : md5_step X (b15, c16, d16, a16) 63 = (a16, b16, c16, d16) := rfl
  rw [s63]

/-! ## `transform` is the compression function of RFC 1321 -/

theorem testBit_ones32 (i : Nat) : Nat.testBit 4294967295 i = decide (i < 32) :=
  Nat.testBit_two_pow_sub_one 32 i

theorem testBit_high {x i : Nat} (hx : x < 4294967296) (hi : 32 ≤ i) : x.testBit i = false := by
  apply Nat.testBit_lt_two_pow
  calc x < 2 ^ 32 := hx
    _ ≤ 2 ^ i := Nat.pow_le_pow_right (by decide) hi

theorem F1_eq_F {x y z : Nat} (hx : x < 4294967296) (hz : z < 4294967296) :
    F1 x y z = rfc1321_F x y z := by
  apply Nat.eq_of_testBit_eq
  intro i
  simp only [F1, rfc1321_F, not32, Nat.testBit_xor, Nat.testBit_and, Nat.testBit_or,
    testBit_ones32]
  by_cases hi : i < 32
  · simp only [hi, decide_True]
    cases x.testBit i <;> cases y.testBit i <;> cases z.testBit i <;> rfl
  · simp only [hi, decide_False, testBit_high hx (Nat.le_of_not_lt hi),
      testBit_high hz (Nat.le_of_not_lt hi)]
    cases y.testBit i <;> rfl

theorem F2_eq_G {x y z : Nat} (hy : y < 4294967296) (hz : z < 4294967296) :
    F2 x y z = rfc1321_G x y z := by
  apply Nat.eq_of_testBit_eq
  intro i
  simp only [F2, F1, rfc1321_G, not32, Nat.testBit_xor, Nat.testBit_and, Nat.testBit_or,
    testBit_ones32]
  by_cases hi : i < 32
  · simp only [hi, decide_True]
    cases x.testBit i <;> cases y.testBit i <;> cases z.testBit i <;> rfl
  · simp only [hi, decide_False, testBit_high hy (Nat.le_of_not_lt hi),
      testBit_high hz (Nat.le_of_not_lt hi)]
    cases x.testBit i <;> rfl

theorem md5_round_f_eq (i : Nat) {x y z : Nat} (hx : x < 4294967296) (hy : y < 4294967296)
    (hz : z < 4294967296) :
    md5_round_f i x y z = (if i < 16 then rfc1321_F else if i < 32 then rfc1321_G
      else if i < 48 then rfc1321_H else rfc1321_I) x y z := by
  unfold md5_round_f
  split
  · exact F1_eq_F hx hz
  · split
    · exact F2_eq_G hy hz
    · split <;> rfl

theorem MD5STEP_eq (f g : Nat → Nat → Nat → Nat) (w x y z k t s : Nat)
    (hfg : f x y z = g x y z) :
    MD5STEP f w x y z (u32 (k + t)) s = u32 (x + rotl32 (u32 (w + g x y z + k + t)) s) := by
  have e : u32 (w + u32 (f x y z + u32 (k + t))) = u32 (w + g x y z + k + t) := by
    rw [hfg]; simp only [u32]; omega
  simp only [MD5STEP, rotl32, e]
  rw [Nat.add_comm]

theorem md5_step_eq (X : List Nat) (st : Nat × Nat × Nat × Nat) (i : Nat)
    (h2 : st.2.1 < 4294967296) (h3 : st.2.2.1 < 4294967296) (h4 : st.2.2.2 < 4294967296) :
    md5_step X st i = rfc1321_op X st i := by
  simp only [md5_step, rfc1321_op]
  rw [MD5STEP_eq _ _ _ _ _ _ _ _ _ (md5_round_f_eq i h2 h3 h4)]

theorem md5_fold_eq (X : List Nat) : ∀ (l : List Nat) (st : Nat × Nat × Nat × Nat), regs32 st →
    l.foldl (md5_step X) st = l.foldl (rfc1321_op X) st
  | [], _, _ => rfl
  | i :: l, st, h => by
      simp only [List.foldl_cons]
      rw [md5_step_eq X st i h.2.1 h.2.2.1 h.2.2.2]
      exact md5_fold_eq X l _ ⟨h.2.2.2, u32_lt _, h.2.1, h.2.2.1⟩

theorem getD_lt : ∀ (h : List Nat), (∀ w ∈ h, w < 4294967296) → ∀ i : Nat,
    h.getD i 0 < 4294967296
  | [], _, i => by simp
  | w :: h, hh, 0 => by simpa using hh w (by simp)
  | w :: h, hh, i + 1 => by
      simpa using getD_lt h (fun x hx => hh x (by simp [hx])) i

/-- On 32-bit hash words `transform` computes the compression function of RFC 1321. -/
theorem transform_eq_rfc1321 (h X : List Nat) (hh : ∀ w ∈ h, w < 4294967296) :
    transform h X = rfc1321_compress h X := by
  rw [transform_eq_steps]
  simp only [md5_steps, rfc1321_compress]
  rw [md5_fold_eq X _ _ ⟨getD_lt h hh 0, getD_lt h hh 1, getD_lt h hh 2, getD_lt h hh 3⟩]

theorem absorb_eq_rfc1321 : ∀ (n : Nat) (h P : List Nat), (∀ w ∈ h, w < 4294967296) →
    absorb n h P = rfc1321_fold n h P
  | 0, _, _, _ => rfl
  | n + 1, h, P, hh => by
      rw [absorb_succ, rfc1321_fold, ← transform_eq_rfc1321 h _ hh]
      exact absorb_eq_rfc1321 n _ _ (transform_lt _ _)

theorem md5_iv_lt : ∀ w ∈ md5_iv, w < 4294967296 := by decide

theorem md5_spec_eq_rfc1321 (M : List Nat) : md5_spec M = rfc1321_md5 M := by
  simp only [md5_spec, rfc1321_md5, absorb_eq_rfc1321 _ _ _ md5_iv_lt]

/-! ## The digest of a chunked message -/

theorem md5_fold_inv (be : Bool) : ∀ (chunks : List (List Nat)) (ctx : md5_t) (m : List Nat),
    md5_inv ctx m → (∀ b ∈ m, b < 256) → (∀ c ∈ chunks, c.length < 4294967296) →
    (∀ c ∈ chunks, ∀ b ∈ c, b < 256) →
    md5_inv (chunks.foldl (md5_update be) ctx) (m ++ chunks.flatten)
  | [], ctx, m, h, _, _, _ => by simpa using h
  | c :: cs, ctx, m, h, hm, hl, hb => by
      have h1 := md5_update_inv be ctx m c h (hl c (by simp)) hm (hb c (by simp))
      have hmc : ∀ b ∈ m ++ c, b < 256 := by
        intro b hb'
        rcases List.mem_append.mp hb' with h' | h'
        · exact hm b h'
        · exact hb c (by simp) b h'
      have h2 := md5_fold_inv be cs (md5_update be ctx c) (m ++ c) h1 hmc
        (fun x hx => hl x (by simp [hx])) (fun x hx => hb x (by simp [hx]))
      simpa [List.foldl_cons, List.flatten_cons, List.append_assoc] using h2

/-- The digest of a message fed in chunks, each shorter than `2 ^ 32` bytes, from any
initial memory: the digest of the concatenation. -/
theorem md5_chunks_spec (be : Bool) (ctx : md5_t) (chunks : List (List Nat))
    (hctx : ctx.inp.length = 64) (hl : ∀ c ∈ chunks, c.length < 4294967296)
    (hb : ∀ c ∈ chunks, ∀ b ∈ c, b < 256) :
    md5_chunks be ctx chunks = rfc1321_md5 chunks.flatten := by
  have h := md5_fold_inv be chunks (md5_init ctx) [] (md5_init_inv ctx hctx) (by simp) hl hb
  rw [List.nil_append] at h
  rw [← md5_spec_eq_rfc1321]
  exact md5_final_eq be _ _ h (by
    intro b hb'
    obtain ⟨c, hc, hbc⟩ := List.mem_flatten.mp hb'
    exact hb c hc b hbc)

theorem length_le_of_mem_chunks {chunks : List (List Nat)} {c : List Nat} (hc : c ∈ chunks) :
    c.length ≤ chunks.flatten.length := by
  induction chunks with
  | nil => simp at hc
  | cons x xs ih =>
      simp only [List.flatten_cons, List.length_append]
      rcases List.mem_cons.mp hc with rfl | h
      · omega
      · have := ih h
        omega

/-- C2: for every byte sequence `M` shorter than `2 ^ 32` and every splitting of `M` into
chunks, `md5_init`, one `md5_update` per chunk and `md5_final` return the 16 bytes of the
RFC 1321 definition of MD5 on `M`, whatever the host byte order and the initial memory of
the context; so the digest does not depend on the chunking. -/
theorem md5_refines_rfc1321 (be : Bool) (ctx : md5_t) (M : List Nat) (chunks : List (List Nat))
    (hctx : ctx.inp.length = 64) (hsplit : chunks.flatten = M) (hlen : M.length < 2 ^ 32)
    (hbytes : ∀ b ∈ M, b < 256) :
    md5_chunks be ctx chunks = rfc1321_md5 M := by
  subst hsplit
  apply md5_chunks_spec be ctx chunks hctx
  · intro c hc
    have := length_le_of_mem_chunks hc
    simp only [Nat.reducePow] at hlen
    omega
  · intro c hc b hb
    exact hbytes b (List.mem_flatten.mpr ⟨c, hc, hb⟩)

theorem md5_refines_rfc1321_witness :
    md5_zero.inp.length = 64 ∧ [[1, 2], [], [3]].flatten = [1, 2, 3] ∧
    ([1, 2, 3] : List Nat).length < 2 ^ 32 ∧ (∀ b ∈ ([1, 2, 3] : List Nat), b < 256) ∧
    md5_chunks true md5_zero [[1, 2], [], [3]] = rfc1321_md5 [1, 2, 3] :=
  ⟨rfl, rfl, by decide, by decide,
    md5_refines_rfc1321 true md5_zero [1, 2, 3] [[1, 2], [], [3]] rfl rfl (by decide) (by decide)⟩

/-! ## Test vectors of MD5 -/

/-- The digest does not depend on the initial memory of the context. -/
theorem md5_chunks_init_irrelevant (be : Bool) (ctx : md5_t) (chunks : List (List Nat))
    (hctx : ctx.inp.length = 64) (hl : ∀ c ∈ chunks, c.length < 4294967296)
    (hb : ∀ c ∈ chunks, ∀ b ∈ c, b < 256) :
    md5_chunks be ctx chunks = md5_chunks be md5_zero chunks := by
  rw [md5_chunks_spec be ctx chunks hctx hl hb, md5_chunks_spec be md5_zero chunks rfl hl hb]

theorem md5_vectors_zero : ∀ be : Bool,
    md5_chunks be md5_zero [[]]
      = [0xd4, 0x1d, 0x8c, 0xd9, 0x8f, 0x00, 0xb2, 0x04,
         0xe9, 0x80, 0x09, 0x98, 0xec, 0xf8, 0x42, 0x7e] ∧
    md5_chunks be md5_zero [ascii "abc"]
      = [0x90, 0x01, 0x50, 0x98, 0x3c, 0xd2, 0x4f, 0xb0,
         0xd6, 0x96, 0x3f, 0x7d, 0x28, 0xe1, 0x7f, 0x72] ∧
    md5_chunks be md5_zero [ascii
        "12345678901234567890123456789012345678901234567890123456789012345678901234567890"]
      = [0x57, 0xed, 0xf4, 0xa2, 0x2b, 0xe3, 0xc9, 0x55,
         0xac, 0x49, 0xda, 0x2e, 0x21, 0x07, 0xb6, 0x7a] := by
  decide!

/-- C1: the digest engine reproduces the standard MD5 test vectors for the empty input,
for "abc" and for the 80-byte input "1234567890" repeated eight times, on either host
byte order and from any initial memory of the context. -/
theorem md5_test_vectors (be : Bool) (ctx : md5_t) (hctx : ctx.inp.length = 64) :
    md5_chunks be ctx [[]]
      = [0xd4, 0x1d, 0x8c, 0xd9, 0x8f, 0x00, 0xb2, 0x04,
         0xe9, 0x80, 0x09, 0x98, 0xec, 0xf8, 0x42, 0x7e] ∧
    md5_chunks be ctx [ascii "abc"]
      = [0x90, 0x01, 0x50, 0x98, 0x3c, 0xd2, 0x4f, 0xb0,
         0xd6, 0x96, 0x3f, 0x7d, 0x28, 0xe1, 0x7f, 0x72] ∧
    md5_chunks be ctx [ascii
        "12345678901234567890123456789012345678901234567890123456789012345678901234567890"]
      = [0x57, 0xed, 0xf4, 0xa2, 0x2b, 0xe3, 0xc9, 0x55,
         0xac, 0x49, 0xda, 0x2e, 0x21, 0x07, 0xb6, 0x7a] := by
  have h := md5_vectors_zero be
  rw [md5_chunks_init_irrelevant be ctx [[]] hctx (by decide) (by decide),
    md5_chunks_init_irrelevant be ctx [ascii "abc"] hctx (by decide) (by decide),
    md5_chunks_init_irrelevant be ctx [ascii
      "12345678901234567890123456789012345678901234567890123456789012345678901234567890"]
      hctx (by decide!) (by decide!)]
  exact h

theorem md5_test_vectors_witness :
    md5_zero.inp.length = 64 ∧
    md5_chunks false md5_zero [ascii "abc"]
      = [0x90, 0x01, 0x50, 0x98, 0x3c, 0xd2, 0x4f, 0xb0,
         0xd6, 0x96, 0x3f, 0x7d, 0x28, 0xe1, 0x7f, 0x72] :=
  ⟨rfl, (md5_test_vectors false md5_zero rfl).2.1⟩

/-- The reference definition evaluates to the standard digest of "abc". -/
theorem rfc1321_md5_abc : rfc1321_md5 (ascii "abc")
      = [0x90, 0x01, 0x50, 0x98, 0x3c, 0xd2, 0x4f, 0xb0,
         0xd6, 0x96, 0x3f, 0x7d, 0x28, 0xe1, 0x7f, 0x72] := by decide!

/-! ## HMAC-MD5 -/

theorem rfc1321_md5_length (M : List Nat) : (rfc1321_md5 M).length = 16 := by
  rw [← md5_spec_eq_rfc1321, md5_spec]
  have h := absorb_length ((rfc1321_pad M).length / 64) md5_iv (rfc1321_pad M) rfl
  match absorb ((rfc1321_pad M).length / 64) md5_iv (rfc1321_pad M), h with
  | [a, b, c, d], _ => simp [List.flatMap, le32]

theorem rfc1321_md5_bytes (M : List Nat) : ∀ b ∈ rfc1321_md5 M, b < 256 := by
  intro b hb
  simp only [rfc1321_md5, List.mem_flatMap] at hb
  obtain ⟨w, _, hw⟩ := hb
  exact le32_lt w b hw

theorem xor_lt_256 {a b : Nat} (ha : a < 256) (hb : b < 256) : a ^^^ b < 256 :=
  Nat.xor_lt_two_pow (n := 8) ha hb

theorem zipWith_replicate (f : Nat → Nat → Nat) (c : Nat) : ∀ (n : Nat) (l : List Nat),
    l.length = n → List.zipWith f (List.replicate n c) l = l.map (f c)
  | 0, l, h => by
      have : l = [] := List.length_eq_zero.mp h
      simp [this]
  | n + 1, [], h => by simp at h
  | n + 1, x :: l, h => by
      simp only [List.replicate_succ, List.zipWith_cons_cons, List.map_cons,
        zipWith_replicate f c n l (by simpa using h)]

theorem rfc2104_key_length (K : List Nat) : (rfc2104_key K).length = 64 := by
  unfold rfc2104_key
  split
  · simp; omega
  · simp [rfc1321_md5_length]

theorem rfc2104_key_bytes (K : List Nat) (hK : ∀ b ∈ K, b < 256) :
    ∀ b ∈ rfc2104_key K, b < 256 := by
  intro b hb
  unfold rfc2104_key at hb
  split at hb
  · simp only [List.mem_append, List.mem_replicate] at hb
    rcases hb with h | h
    · exact hK b h
    · omega
  · simp only [List.mem_append, List.mem_replicate] at hb
    rcases hb with h | h
    · exact rfc1321_md5_bytes K b h
    · omega

/-- The key block and the digest state that `hmacmd5_init` leaves. -/
theorem hmacmd5_init_spec (be : Bool) (ctx : hmacmd5_t) (K : List Nat)
    (hctx : ctx.md5ctx.inp.length = 64) (hkey : ctx.key.length = 64)
    (hK : K.length < 4294967296) (hKb : ∀ b ∈ K, b < 256) :
    (hmacmd5_init be ctx K).key = rfc2104_key K ∧
    md5_inv (hmacmd5_init be ctx K).md5ctx ((rfc2104_key K).map (fun b => b ^^^ 0x36)) := by
  have hz : memset ctx.key 0 0 64 = List.replicate 64 0 := by
    simp [memset, memcpy, List.drop_of_length_le (Nat.le_of_eq hkey)]
  have hk : (if K.length > 64 then
        memcpy (List.replicate 64 0) 0
          (md5_final be (md5_update be (md5_init md5_zero) K)).1
      else memcpy (List.replicate 64 0) 0 K) = rfc2104_key K := by
    unfold rfc2104_key
    by_cases h : K.length ≤ 64
    · have h' : ¬ K.length > 64 := by omega
      simp only [h, h', if_true, if_false, memcpy, List.take_zero, List.nil_append,
        Nat.zero_add, List.drop_replicate]
    · have h' : K.length > 64 := by omega
      simp only [h, h', if_true, if_false]
      have e : (md5_final be (md5_update be (md5_init md5_zero) K)).1 = rfc1321_md5 K := by
        have := md5_chunks_spec be md5_zero [K] rfl (by simpa using hK) (by simpa using hKb)
        simpa [md5_chunks] using this
      rw [e]
      simp only [memcpy, List.take_zero, List.nil_append, Nat.zero_add, List.drop_replicate,
        rfc1321_md5_length]
  have hxor : List.zipWith (fun p q => p ^^^ q) (List.replicate 64 0x36) (rfc2104_key K)
      = (rfc2104_key K).map (fun b => b ^^^ 0x36) := by
    rw [zipWith_replicate _ _ 64 _ (rfc2104_key_length K)]
    apply List.map_congr_left
    intro b _
    exact Nat.xor_comm _ _
  simp only [hmacmd5_init, hz, hk, hxor]
  refine ⟨trivial, ?_⟩
  have h := md5_update_inv be (md5_init ctx.md5ctx) [] ((rfc2104_key K).map (fun b => b ^^^ 0x36))
    (md5_init_inv _ hctx) (by simp [rfc2104_key_length]) (by simp) (by
      intro b hb
      obtain ⟨x, hx, rfl⟩ := List.mem_map.mp hb
      exact xor_lt_256 (rfc2104_key_bytes K hKb x hx) (by decide))
  simpa using h

theorem md5_final_snd (be : Bool) (ctx : md5_t) : (md5_final be ctx).2 = md5_zero := rfl

/-- The signature `hmacmd5_sign` returns for a state whose inner digest has been fed `m`. -/
theorem hmacmd5_sign_spec (be : Bool) (c : hmacmd5_t) (m : List Nat)
    (hinv : md5_inv c.md5ctx m) (hm : ∀ b ∈ m, b < 256) (hkl : c.key.length = 64)
    (hkb : ∀ b ∈ c.key, b < 256) :
    (hmacmd5_sign be c).1
      = rfc1321_md5 (c.key.map (fun b => b ^^^ 0x5C) ++ rfc1321_md5 m) := by
  have hin : (md5_final be c.md5ctx).1 = rfc1321_md5 m := by
    rw [← md5_spec_eq_rfc1321]; exact md5_final_eq be _ _ hinv hm
  have hxor : List.zipWith (fun p q => p ^^^ q) (List.replicate 64 0x5C) c.key
      = c.key.map (fun b => b ^^^ 0x5C) := by
    rw [zipWith_replicate _ _ 64 _ hkl]
    apply List.map_congr_left
    intro b _
    exact Nat.xor_comm _ _
  have htake : (rfc1321_md5 m).take 16 = rfc1321_md5 m :=
    List.take_of_length_le (Nat.le_of_eq (rfc1321_md5_length m))
  have h := md5_chunks_spec be md5_zero [c.key.map (fun b => b ^^^ 0x5C), rfc1321_md5 m] rfl
    (by
      intro x hx
      simp only [List.mem_cons, List.mem_singleton, List.not_mem_nil, or_false] at hx
      rcases hx with rfl | rfl
      · simp [hkl]
      · simp [rfc1321_md5_length])
    (by
      intro x hx b hb
      simp only [List.mem_cons, List.mem_singleton, List.not_mem_nil, or_false] at hx
      rcases hx with rfl | rfl
      · obtain ⟨y, hy, rfl⟩ := List.mem_map.mp hb
        exact xor_lt_256 (hkb y hy) (by decide)
      · exact rfc1321_md5_bytes m b hb)
  simp only [md5_chunks, List.foldl_cons, List.foldl_nil, List.flatten_cons, List.flatten_nil,
    List.append_nil] at h
  simp only [hmacmd5_sign, hin, hxor, htake, md5_final_snd]
  exact h

/-- The MAC the code computes is HMAC-MD5 as RFC 2104 defines it. -/
theorem hmacmd5_spec (be : Bool) (ctx : hmacmd5_t) (K M : List Nat)
    (hctx : ctx.md5ctx.inp.length = 64) (hkey : ctx.key.length = 64)
    (hK : K.length < 4294967296) (hM : M.length < 4294967296)
    (hKb : ∀ b ∈ K, b < 256) (hMb : ∀ b ∈ M, b < 256) :
    hmacmd5 be ctx K M = rfc2104_hmac_md5 K M := by
  obtain ⟨hk, hinv⟩ := hmacmd5_init_spec be ctx K hctx hkey hK hKb
  have hpb : ∀ b ∈ (rfc2104_key K).map (fun b => b ^^^ 0x36), b < 256 := by
    intro b hb
    obtain ⟨x, hx, rfl⟩ := List.mem_map.mp hb
    exact xor_lt_256 (rfc2104_key_bytes K hKb x hx) (by decide)
  have hinv2 := md5_update_inv be _ _ M hinv hM hpb hMb
  have hall : ∀ b ∈ (rfc2104_key K).map (fun b => b ^^^ 0x36) ++ M, b < 256 := by
    intro b hb
    rcases List.mem_append.mp hb with h | h
    · exact hpb b h
    · exact hMb b h
  have hck : (hmacmd5_update be (hmacmd5_init be ctx K) M).key = rfc2104_key K := hk
  have h := hmacmd5_sign_spec be (hmacmd5_update be (hmacmd5_init be ctx K) M) _ hinv2 hall
    (by rw [hck]; exact rfc2104_key_length K)
    (by rw [hck]; exact rfc2104_key_bytes K hKb)
  rw [hck] at h
  unfold hmacmd5 rfc2104_hmac_md5
  exact h

/-- C3: for every key `K` and message `M`, `hmacmd5_init(K)`, `hmacmd5_update(M)`,
`hmacmd5_sign` return `MD5((K' xor 0x5C^64) || MD5((K' xor 0x36^64) || M))`, where `K'` is
`K` padded with zeros to 64 bytes when `K` has at most 64 bytes (unchanged when exactly 64)
and `MD5(K)` padded with zeros to 64 bytes when `K` is longer. -/
theorem hmacmd5_refines_rfc2104 (be : Bool) (ctx : hmacmd5_t) (K M : List Nat)
    (hctx : ctx.md5ctx.inp.length = 64) (hkey : ctx.key.length = 64)
    (hK : K.length < 2 ^ 32) (hM : M.length < 2 ^ 32)
    (hKb : ∀ b ∈ K, b < 256) (hMb : ∀ b ∈ M, b < 256) :
    (hmacmd5_sign be (hmacmd5_update be (hmacmd5_init be ctx K) M)).1
      = rfc1321_md5 ((rfc2104_key K).map (fun b => b ^^^ 0x5C)
          ++ rfc1321_md5 ((rfc2104_key K).map (fun b => b ^^^ 0x36) ++ M)) ∧
    rfc2104_key K = (if K.length ≤ 64 then K ++ List.replicate (64 - K.length) 0
      else rfc1321_md5 K ++ List.replicate 48 0) ∧
    (K.length = 64 → rfc2104_key K = K) :=
  ⟨hmacmd5_spec be ctx K M hctx hkey hK hM hKb hMb, rfl, fun h => by simp [rfc2104_key, h]⟩

theorem hmacmd5_refines_rfc2104_witness :
    hmacmd5_zero.md5ctx.inp.length = 64 ∧ hmacmd5_zero.key.length = 64 ∧
    ([1, 2, 3] : List Nat).length < 2 ^ 32 ∧ ([4, 5] : List Nat).length < 2 ^ 32 ∧
    (∀ b ∈ ([1, 2, 3] : List Nat), b < 256) ∧ (∀ b ∈ ([4, 5] : List Nat), b < 256) ∧
    (hmacmd5_sign true (hmacmd5_update true (hmacmd5_init true hmacmd5_zero [1, 2, 3]) [4, 5])).1
      = rfc1321_md5 ((rfc2104_key [1, 2, 3]).map (fun b => b ^^^ 0x5C)
          ++ rfc1321_md5 ((rfc2104_key [1, 2, 3]).map (fun b => b ^^^ 0x36) ++ [4, 5])) :=
  ⟨rfl, rfl, by decide, by decide, by decide, by decide,
    (hmacmd5_refines_rfc2104 true hmacmd5_zero [1, 2, 3] [4, 5] rfl rfl (by decide) (by decide)
      (by decide) (by decide)).1⟩

/-! ## Test vectors of HMAC-MD5 -/

theorem hmacmd5_init_irrelevant (be : Bool) (ctx : hmacmd5_t) (K M : List Nat)
    (hctx : ctx.md5ctx.inp.length = 64) (hkey : ctx.key.length = 64)
    (hK : K.length < 4294967296) (hM : M.length < 4294967296)
    (hKb : ∀ b ∈ K, b < 256) (hMb : ∀ b ∈ M, b < 256) :
    hmacmd5 be ctx K M = hmacmd5 be hmacmd5_zero K M := by
  rw [hmacmd5_spec be ctx K M hctx hkey hK hM hKb hMb,
    hmacmd5_spec be hmacmd5_zero K M rfl rfl hK hM hKb hMb]

theorem hmacmd5_vectors_zero : ∀ be : Bool,
    hmacmd5 be hmacmd5_zero (List.replicate 16 0x0b) (ascii "Hi There")
      = [0x92, 0x94, 0x72, 0x7a, 0x36, 0x38, 0xbb, 0x1c,
         0x13, 0xf4, 0x8e, 0xf8, 0x15, 0x8b, 0xfc, 0x9d] ∧
    hmacmd5 be hmacmd5_zero (ascii "Jefe") (ascii "what do ya want for nothing?")
      = [0x75, 0x0c, 0x78, 0x3e, 0x6a, 0xb0, 0xb5, 0x03,
         0xea, 0xa8, 0x6e, 0x31, 0x0a, 0x5d, 0xb7, 0x38] ∧
    hmacmd5 be hmacmd5_zero (List.replicate 80 0xaa)
        (ascii "Test Using Larger Than Block-Size Key - Hash Key First")
      = [0x6b, 0x1a, 0xb7, 0xfe, 0x4b, 0xd7, 0xbf, 0x8f,
         0x0b, 0x62, 0xe6, 0xce, 0x61, 0xb9, 0xd0, 0xcd] := by
  decide!

/-- C4: the HMAC construction reproduces the RFC 2104 / RFC 2202 HMAC-MD5 test vectors:
16 bytes of 0x0b with "Hi There", "Jefe" with "what do ya want for nothing?", and 80 bytes
of 0xaa (a key longer than 64 bytes, hashed first) with "Test Using Larger Than Block-Size
Key - Hash Key First"; on either host byte order and from any initial memory. -/
theorem hmacmd5_test_vectors (be : Bool) (ctx : hmacmd5_t)
    (hctx : ctx.md5ctx.inp.length = 64) (hkey : ctx.key.length = 64) :
    hmacmd5 be ctx (List.replicate 16 0x0b) (ascii "Hi There")
      = [0x92, 0x94, 0x72, 0x7a, 0x36, 0x38, 0xbb, 0x1c,
         0x13, 0xf4, 0x8e, 0xf8, 0x15, 0x8b, 0xfc, 0x9d] ∧
    hmacmd5 be ctx (ascii "Jefe") (ascii "what do ya want for nothing?")
      = [0x75, 0x0c, 0x78, 0x3e, 0x6a, 0xb0, 0xb5, 0x03,
         0xea, 0xa8, 0x6e, 0x31, 0x0a, 0x5d, 0xb7, 0x38] ∧
    hmacmd5 be ctx (List.replicate 80 0xaa)
        (ascii "Test Using Larger Than Block-Size Key - Hash Key First")
      = [0x6b, 0x1a, 0xb7, 0xfe, 0x4b, 0xd7, 0xbf, 0x8f,
         0x0b, 0x62, 0xe6, 0xce, 0x61, 0xb9, 0xd0, 0xcd] := by
  have h := hmacmd5_vectors_zero be
  rw [hmacmd5_init_irrelevant be ctx (List.replicate 16 0x0b) (ascii "Hi There") hctx hkey
      (by decide) (by decide) (by decide) (by decide),
    hmacmd5_init_irrelevant be ctx (ascii "Jefe") (ascii "what do ya want for nothing?")
      hctx hkey (by decide) (by decide) (by decide) (by decide),
    hmacmd5_init_irrelevant be ctx (List.replicate 80 0xaa)
      (ascii "Test Using Larger Than Block-Size Key - Hash Key First") hctx hkey
      (by decide!) (by decide!) (by decide!) (by decide!)]
  exact h

theorem hmacmd5_test_vectors_witness :
    hmacmd5_zero.md5ctx.inp.length = 64 ∧ hmacmd5_zero.key.length = 64 ∧
    hmacmd5 false hmacmd5_zero (ascii "Jefe") (ascii "what do ya want for nothing?")
      = [0x75, 0x0c, 0x78, 0x3e, 0x6a, 0xb0, 0xb5, 0x03,
         0xea, 0xa8, 0x6e, 0x31, 0x0a, 0x5d, 0xb7, 0x38] :=
  ⟨rfl, rfl, (hmacmd5_test_vectors false hmacmd5_zero rfl rfl).2.1⟩

/-! ## The message-MAC protocol -/

theorem md5_final_length (be : Bool) (ctx : md5_t) : (md5_final be ctx).1.length = 16 := by
  simp only [md5_final, List.length_take, byteSwap_length, storeWords_length, transform_length]
  rfl

theorem hmacmd5_sign_length (be : Bool) (c : hmacmd5_t) : (hmacmd5_sign be c).1.length = 16 := by
  simp only [hmacmd5_sign]
  exact md5_final_length be _

theorem memcmp_eq_zero_iff : ∀ (n : Nat) (a b : List Nat), a.length = n → b.length = n →
    (memcmp a b n = 0 ↔ a = b)
  | 0, a, b, ha, hb => by
      have h1 : a = [] := List.length_eq_zero.mp ha
      have h2 : b = [] := List.length_eq_zero.mp hb
      simp [h1, h2, memcmp]
  | n + 1, [], b, ha, hb => by simp at ha
  | n + 1, x :: a, [], ha, hb => by simp at hb
  | n + 1, x :: a, y :: b, ha, hb => by
      simp only [memcmp]
      by_cases h : x = y
      · simp only [h, if_true, List.cons.injEq, true_and]
        exact memcmp_eq_zero_iff n a b (by simpa using ha) (by simpa using hb)
      · simp only [h, if_false, List.cons.injEq, false_and, iff_false]
        omega

theorem to_uint_natCast (n : Nat) : to_uint (n : Int) = n % 4294967296 := by
  unfold to_uint
  omega

theorem to_uint_le (n : Nat) : to_uint (n : Int) ≤ n := by
  rw [to_uint_natCast]
  exact Nat.mod_le _ _

theorem memcpy_restore (buf : List Nat) (off n : Nat) (h : off + n ≤ buf.length) :
    memcpy (memset buf off 0 n) off ((buf.drop off).take n) = buf := by
  have hl : (buf.take off).length = off := by simp; omega
  have hl2 : ((buf.drop off).take n).length = n := by simp; omega
  simp only [memset, memcpy, List.length_replicate, hl2]
  rw [List.append_assoc (buf.take off), List.take_left' hl, ← List.drop_drop,
    List.drop_left' hl, List.drop_left' (List.length_replicate n 0)]
  rw [← List.drop_drop, List.append_assoc, List.take_append_drop, List.take_append_drop]

theorem getElem?_memcpy_outside (buf src : List Nat) (off i : Nat)
    (h : off + src.length ≤ buf.length) (hi : i < off ∨ off + src.length ≤ i) :
    (memcpy buf off src)[i]? = buf[i]? := by
  have hl : (buf.take off).length = off := by simp; omega
  unfold memcpy
  rcases hi with hi | hi
  · rw [List.append_assoc, List.getElem?_append_left (by omega), List.getElem?_take_of_lt hi]
  · rw [List.getElem?_append_right (by simp only [List.length_append, hl]; omega)]
    simp only [List.length_append, hl, List.getElem?_drop]
    congr 1
    omega

/-- The key bytes the HMAC layer receives: `key->secretlen` is converted to `unsigned int`. -/
theorem calc_mac_eq (be : Bool) (H : Int) (buf : List Nat) (len : Nat) (proto : Int) (off : Nat)
    (key : keyinfo) (hlen : len ≤ buf.length) (hoff : off + 16 ≤ len)
    (hrep : len < 18446744073709551616) :
    dhcp6_calc_mac be H buf len proto H off key
      = some (0, memcpy buf off (hmacmd5 be hmacmd5_zero
          (key.secret.take (to_uint key.secret.length)) (buf.take (to_uint len)))) := by
  have h1 : ¬ usize (off + MD5_DIGESTLENGTH) > len := by
    simp only [usize, MD5_DIGESTLENGTH]; omega
  have h2 : ¬ buf.length < to_uint len := by
    have := to_uint_le len; omega
  have h3 : ¬ buf.length < off + MD5_DIGESTLENGTH := by
    simp only [MD5_DIGESTLENGTH]; omega
  have h4 : ∀ d : List Nat, d.length = 16 → d.take MD5_DIGESTLENGTH = d := fun d hd =>
    List.take_of_length_le (by simp only [MD5_DIGESTLENGTH]; omega)
  simp only [dhcp6_calc_mac, ne_eq, not_true_eq_false, if_false, h1, h2, h3,
    h4 _ (hmacmd5_sign_length be _), hmacmd5]

/-- What `dhcp6_verify_mac` returns when the MAC field lies inside the buffer. -/
theorem verify_mac_eq (be : Bool) (H : Int) (buf : List Nat) (len : Nat) (proto : Int)
    (off : Nat) (key : keyinfo) (hlen : len ≤ buf.length) (hoff : off + 16 ≤ len)
    (hrep : len < 9223372036854775808) :
    dhcp6_verify_mac be H buf (len : Int) proto H off key
      = some (memcmp ((buf.drop off).take 16) (hmacmd5 be hmacmd5_zero
          (key.secret.take (to_uint key.secret.length))
          ((memset buf off 0 16).take (to_uint len))) 16, buf) := by
  have h0 : ¬ to_ssize off + (MD5_DIGESTLENGTH : Int) > 9223372036854775807 := by
    simp only [to_ssize, MD5_DIGESTLENGTH]; split <;> omega
  have h1 : ¬ to_ssize off + (MD5_DIGESTLENGTH : Int) > (len : Int) := by
    simp only [to_ssize, MD5_DIGESTLENGTH]; split <;> omega
  have h3 : ¬ buf.length < off + MD5_DIGESTLENGTH := by
    simp only [MD5_DIGESTLENGTH]; omega
  have hml : (memset buf off 0 MD5_DIGESTLENGTH).length = buf.length := by
    simp only [memset, MD5_DIGESTLENGTH]
    rw [memcpy_length]; simp; omega
  have h2 : ¬ (memset buf off 0 MD5_DIGESTLENGTH).length < to_uint len := by
    have := to_uint_le len; omega
  simp only [dhcp6_verify_mac, ne_eq, not_true_eq_false, if_false, h0, h1, h2, h3,
    hmacmd5_verify, hmacmd5]
  simp only [MD5_DIGESTLENGTH, memcpy_restore buf off 16 (by omega)]

theorem dhcp6_mac_length (be : Bool) (key : keyinfo) (buf : List Nat) (len : Nat) :
    (dhcp6_mac be key buf len).length = 16 :=
  hmacmd5_sign_length be _

/-- For a buffer and a key shorter than `2 ^ 32` bytes the MAC of the protocol layer is
HMAC-MD5 of the whole buffer. -/
theorem dhcp6_mac_eq_rfc2104 (be : Bool) (key : keyinfo) (buf : List Nat)
    (hlen : buf.length < 4294967296) (hkey : key.secret.length < 4294967296)
    (hb : ∀ b ∈ buf, b < 256) (hkb : ∀ b ∈ key.secret, b < 256) :
    dhcp6_mac be key buf buf.length = rfc2104_hmac_md5 key.secret buf := by
  have e1 : to_uint (buf.length : Int) = buf.length := by
    rw [to_uint_natCast]; exact Nat.mod_eq_of_lt hlen
  have e2 : to_uint (key.secret.length : Int) = key.secret.length := by
    rw [to_uint_natCast]; exact Nat.mod_eq_of_lt hkey
  unfold dhcp6_mac
  rw [e1, e2, List.take_length, List.take_length]
  exact hmacmd5_spec be hmacmd5_zero key.secret buf rfl rfl hkey hlen hkb hb

theorem memset_memcpy_same (buf d : List Nat) (off : Nat) (h : off + d.length ≤ buf.length) :
    memset (memcpy buf off d) off 0 d.length = memset buf off 0 d.length := by
  have hl : (buf.take off).length = off := by simp; omega
  simp only [memset, memcpy, List.length_replicate]
  rw [List.append_assoc (buf.take off), List.take_left' hl, ← List.drop_drop,
    List.drop_left' hl, List.drop_left' rfl]

theorem drop_take_memcpy (buf d : List Nat) (off : Nat) (h : off + d.length ≤ buf.length) :
    ((memcpy buf off d).drop off).take d.length = d := by
  have hl : (buf.take off).length = off := by simp; omega
  simp only [memcpy]
  rw [List.append_assoc (buf.take off), List.drop_left' hl, List.take_left' rfl]

theorem memset_zero_span (buf : List Nat) (off n : Nat) (h : off + n ≤ buf.length)
    (hz : (buf.drop off).take n = List.replicate n 0) : memset buf off 0 n = buf := by
  have h1 : memset (memset buf off 0 n) off 0 n = buf := by
    have := memcpy_restore buf off n h
    rw [hz] at this
    exact this
  have e := memset_memcpy_same buf (List.replicate n 0) off
    (by simp only [List.length_replicate]; omega)
  simp only [List.length_replicate] at e
  exact e.symm.trans h1

/-- C5 as stated fails: on a buffer whose MAC field is not zero `dhcp6_calc_mac`
succeeds, and `dhcp6_verify_mac` with the same key, offset and algorithm then reports a
mismatch (-131) on the resulting buffer. -/
theorem calc_then_verify_counterexample :
    dhcp6_calc_mac false 1 (List.replicate 20 1) 20 0 1 2 ⟨[1], 0⟩
      = some (0, [1, 1, 108, 44, 170, 203, 53, 145, 52, 4, 242, 167, 84, 190, 177, 222, 40, 176,
          1, 1]) ∧
    dhcp6_verify_mac false 1
        [1, 1, 108, 44, 170, 203, 53, 145, 52, 4, 242, 167, 84, 190, 177, 222, 40, 176, 1, 1]
        20 0 1 2 ⟨[1], 0⟩
      = some (-131, [1, 1, 108, 44, 170, 203, 53, 145, 52, 4, 242, 167, 84, 190, 177, 222, 40,
          176, 1, 1]) := by
  decide!

/-- C5, amended: for every buffer whose 16-byte MAC field is zero on entry, every offset
with `mac_offset + 16 <= length`, and every key, `dhcp6_calc_mac` succeeds and
`dhcp6_verify_mac` with the same key, offset and algorithm on the resulting buffer
returns success (0). -/
theorem calc_then_verify (be : Bool) (H : Int) (buf : List Nat) (proto : Int) (off : Nat)
    (key : keyinfo) (hoff : off + 16 ≤ buf.length) (hrep : buf.length < 2 ^ 63)
    (hzero : (buf.drop off).take 16 = List.replicate 16 0) :
    ∃ buf', dhcp6_calc_mac be H buf buf.length proto H off key = some (0, buf') ∧
      dhcp6_verify_mac be H buf' (buf.length : Int) proto H off key = some (0, buf') := by
  simp only [Nat.reducePow] at hrep
  have hd := dhcp6_mac_length be key buf buf.length
  refine ⟨memcpy buf off (dhcp6_mac be key buf buf.length),
    calc_mac_eq be H buf buf.length proto off key (Nat.le_refl _) hoff (by omega), ?_⟩
  have hl : (memcpy buf off (dhcp6_mac be key buf buf.length)).length = buf.length :=
    memcpy_length _ _ _ (by omega)
  rw [verify_mac_eq be H _ buf.length proto off key (by omega) hoff hrep]
  have e1 := drop_take_memcpy buf (dhcp6_mac be key buf buf.length) off (by omega)
  have e2 := memset_memcpy_same buf (dhcp6_mac be key buf buf.length) off (by omega)
  rw [hd] at e1 e2
  rw [e1, e2, memset_zero_span buf off 16 hoff hzero]
  have e3 : memcmp (dhcp6_mac be key buf buf.length) (dhcp6_mac be key buf buf.length) 16 = 0 :=
    (memcmp_eq_zero_iff 16 _ _ hd hd).mpr rfl
  unfold dhcp6_mac at e3 ⊢
  rw [e3]

theorem calc_then_verify_witness :
    2 + 16 ≤ (List.replicate 20 0).length ∧ (List.replicate 20 0).length < 2 ^ 63 ∧
    ((List.replicate 20 0).drop 2).take 16 = List.replicate 16 0 ∧
    ∃ buf', dhcp6_calc_mac true 1 (List.replicate 20 0) (List.replicate 20 0).length 0 1 2
        ⟨[1], 0⟩ = some (0, buf') ∧
      dhcp6_verify_mac true 1 buf' ((List.replicate 20 0).length : Int) 0 1 2 ⟨[1], 0⟩
        = some (0, buf') :=
  ⟨by decide, by decide, by decide,
    calc_then_verify true 1 (List.replicate 20 0) 0 2 ⟨[1], 0⟩ (by decide) (by decide)
      (by decide)⟩

/-- C6 as stated fails: the secrets `[1]` and `[1, 0]` differ, yet `dhcp6_verify_mac` with
the second returns success (0) on the buffer that `dhcp6_calc_mac` produced with the
first; both are padded with zeros to the same 64-byte key block. -/
theorem verify_other_key_counterexample :
    ([1] : List Nat) ≠ [1, 0] ∧
    dhcp6_calc_mac false 1 (List.replicate 20 0) 20 0 1 2 ⟨[1], 0⟩
      = some (0, [0, 0, 66, 57, 180, 34, 92, 192, 206, 229, 234, 203, 204, 40, 206, 15, 13, 248,
          0, 0]) ∧
    dhcp6_verify_mac false 1
        [0, 0, 66, 57, 180, 34, 92, 192, 206, 229, 234, 203, 204, 40, 206, 15, 13, 248, 0, 0]
        20 0 1 2 ⟨[1, 0], 0⟩
      = some (0, [0, 0, 66, 57, 180, 34, 92, 192, 206, 229, 234, 203, 204, 40, 206, 15, 13, 248,
          0, 0]) := by
  decide!

/-- C6, amended: for every buffer with a valid MAC offset and all keys `K1`, `K2`,
`dhcp6_verify_mac` with `K2` on the buffer produced by `dhcp6_calc_mac` with `K1` returns
success exactly when the MAC under `K2` of the buffer with the MAC field zeroed equals the
MAC under `K1` of the buffer as it was on entry; whenever the two MACs differ it reports a
mismatch (a non-zero result). -/
theorem verify_other_key (be : Bool) (H : Int) (buf : List Nat) (proto : Int) (off : Nat)
    (K1 K2 : keyinfo) (hoff : off + 16 ≤ buf.length) (hrep : buf.length < 2 ^ 63) :
    ∃ buf' r, dhcp6_calc_mac be H buf buf.length proto H off K1 = some (0, buf') ∧
      dhcp6_verify_mac be H buf' (buf.length : Int) proto H off K2 = some (r, buf') ∧
      (r = 0 ↔ dhcp6_mac be K2 (memset buf off 0 16) buf.length
        = dhcp6_mac be K1 buf buf.length) := by
  simp only [Nat.reducePow] at hrep
  have hd := dhcp6_mac_length be K1 buf buf.length
  have hl : (memcpy buf off (dhcp6_mac be K1 buf buf.length)).length = buf.length :=
    memcpy_length _ _ _ (by omega)
  have e1 := drop_take_memcpy buf (dhcp6_mac be K1 buf buf.length) off (by omega)
  have e2 := memset_memcpy_same buf (dhcp6_mac be K1 buf buf.length) off (by omega)
  rw [hd] at e1 e2
  refine ⟨memcpy buf off (dhcp6_mac be K1 buf buf.length),
    memcmp (dhcp6_mac be K1 buf buf.length)
      (dhcp6_mac be K2 (memset buf off 0 16) buf.length) 16,
    calc_mac_eq be H buf buf.length proto off K1 (Nat.le_refl _) hoff (by omega), ?_, ?_⟩
  · rw [verify_mac_eq be H _ buf.length proto off K2 (by omega) hoff hrep, e1, e2]
    rfl
  · rw [memcmp_eq_zero_iff 16 _ _ hd (dhcp6_mac_length be K2 _ _)]
    exact eq_comm

theorem verify_other_key_witness :
    2 + 16 ≤ (List.replicate 20 0).length ∧ (List.replicate 20 0).length < 2 ^ 63 ∧
    ∃ buf' r, dhcp6_calc_mac false 1 (List.replicate 20 0) (List.replicate 20 0).length 0 1 2
        ⟨[1], 0⟩ = some (0, buf') ∧
      dhcp6_verify_mac false 1 buf' ((List.replicate 20 0).length : Int) 0 1 2 ⟨[2], 0⟩
        = some (r, buf') ∧
      (r = 0 ↔ dhcp6_mac false ⟨[2], 0⟩ (memset (List.replicate 20 0) 2 0 16)
          (List.replicate 20 0).length
        = dhcp6_mac false ⟨[1], 0⟩ (List.replicate 20 0) (List.replicate 20 0).length) :=
  ⟨by decide, by decide,
    verify_other_key false 1 (List.replicate 20 0) 0 2 ⟨[1], 0⟩ ⟨[2], 0⟩ (by decide) (by decide)⟩

/-- Different keys giving different MACs: the second key is rejected. -/
theorem verify_other_key_rejects :
    dhcp6_calc_mac false 1 (List.replicate 20 0) 20 0 1 2 ⟨[1], 0⟩
      = some (0, [0, 0, 66, 57, 180, 34, 92, 192, 206, 229, 234, 203, 204, 40, 206, 15, 13, 248,
          0, 0]) ∧
    dhcp6_verify_mac false 1
        [0, 0, 66, 57, 180, 34, 92, 192, 206, 229, 234, 203, 204, 40, 206, 15, 13, 248, 0, 0]
        20 0 1 2 ⟨[2], 0⟩
      = some (33, [0, 0, 66, 57, 180, 34, 92, 192, 206, 229, 234, 203, 204, 40, 206, 15, 13,
          248, 0, 0]) := by
  decide!

/-- C7: for every buffer, length, offset, algorithm and key, `dhcp6_verify_mac` leaves the
buffer byte-for-byte equal to its input whenever it returns, whatever the result; and it
does return whenever the length is that of a part of the buffer and `off + 16` does not
overflow `ssize_t` (`len` being in the range of `ssize_t`). -/
theorem verify_mac_preserves_buffer (be : Bool) (H : Int) (buf : List Nat) (len : Int)
    (proto alg : Int) (off : Nat) (key : keyinfo) :
    (∀ r buf', dhcp6_verify_mac be H buf len proto alg off key = some (r, buf') → buf' = buf) ∧
    (len ≤ buf.length → len < 2 ^ 63 → off + 16 < 2 ^ 63 →
      ∃ r, dhcp6_verify_mac be H buf len proto alg off key = some (r, buf)) := by
  have key_fact : ∀ r buf', dhcp6_verify_mac be H buf len proto alg off key = some (r, buf') →
      buf' = buf := by
    intro r buf' h
    unfold dhcp6_verify_mac at h
    split at h
    · simp only [Option.some.injEq, Prod.mk.injEq] at h; exact h.2.symm
    · split at h
      · exact absurd h (by simp)
      · split at h
        · simp only [Option.some.injEq, Prod.mk.injEq] at h; exact h.2.symm
        · split at h
          · exact absurd h (by simp)
          · rename_i hb
            simp only [] at h
            split at h
            · exact absurd h (by simp)
            · simp only [Option.some.injEq, Prod.mk.injEq] at h
              rw [← h.2]
              exact memcpy_restore buf off MD5_DIGESTLENGTH (by omega)
  refine ⟨key_fact, ?_⟩
  intro hlen hrep hoff
  simp only [Nat.reducePow] at hoff
  have hrep' : len < 9223372036854775808 := hrep
  by_cases halg : alg ≠ H
  · exact ⟨-1, by rw [dhcp6_verify_mac, if_pos halg]⟩
  · have halg' : alg = H := not_not.mp halg
    subst halg'
    have hs : to_ssize off = (off : Int) := by
      simp only [to_ssize]; split <;> omega
    by_cases h1 : (off : Int) + 16 > len
    · refine ⟨-1, ?_⟩
      have hA : ¬ to_ssize off + (MD5_DIGESTLENGTH : Int) > 9223372036854775807 := by
        rw [hs]; simp only [MD5_DIGESTLENGTH]; omega
      have hB : to_ssize off + (MD5_DIGESTLENGTH : Int) > len := by
        rw [hs]; simp only [MD5_DIGESTLENGTH]; omega
      simp only [dhcp6_verify_mac, ne_eq, not_true_eq_false, if_false, hA, hB, if_true]
    · obtain ⟨n, rfl⟩ := Int.eq_ofNat_of_zero_le (by omega : 0 ≤ len)
      exact ⟨_, verify_mac_eq be alg buf n proto off key (by omega) (by omega) (by omega)⟩

/-- Whenever `dhcp6_calc_mac` succeeds with its write inside the buffer, the buffer keeps
its length and every byte outside the 16-byte span `[mac_offset, mac_offset + 16)` is
unchanged. A run in which `buf + off` wraps around is not covered: there
`dhcp6_calc_mac` is `none`. -/
theorem calc_mac_frame (be : Bool) (H : Int) (buf : List Nat) (len : Nat) (proto alg : Int)
    (off : Nat) (key : keyinfo) (buf' : List Nat)
    (h : dhcp6_calc_mac be H buf len proto alg off key = some (0, buf')) :
    buf'.length = buf.length ∧ ∀ i, i < off ∨ off + 16 ≤ i → buf'[i]? = buf[i]? := by
  unfold dhcp6_calc_mac at h
  split at h
  · simp at h
  · split at h
    · simp at h
    · simp only [] at h
      split at h
      · simp at h
      · split at h
        · simp at h
        · rename_i hb
          simp only [Option.some.injEq, Prod.mk.injEq, true_and] at h
          have hd : ((hmacmd5_sign be (hmacmd5_update be (hmacmd5_init be hmacmd5_zero
              (key.secret.take (to_uint key.secret.length)))
              (buf.take (to_uint len)))).1.take MD5_DIGESTLENGTH).length = 16 := by
            rw [List.length_take, hmacmd5_sign_length]; rfl
          simp only [MD5_DIGESTLENGTH] at hb
          rw [← h]
          refine ⟨memcpy_length _ _ _ (by omega), fun i hi => ?_⟩
          exact getElem?_memcpy_outside _ _ _ _ (by omega) (by omega)

theorem calc_mac_frame_witness :
    dhcp6_calc_mac false 1 (List.replicate 20 0) 20 0 1 2 ⟨[1], 0⟩
      = some (0, [0, 0, 66, 57, 180, 34, 92, 192, 206, 229, 234, 203, 204, 40, 206, 15, 13, 248,
          0, 0]) ∧
    ([0, 0, 66, 57, 180, 34, 92, 192, 206, 229, 234, 203, 204, 40, 206, 15, 13, 248, 0,
        0] : List Nat).length = (List.replicate 20 0).length ∧
    ∀ i, i < 2 ∨ 2 + 16 ≤ i →
      ([0, 0, 66, 57, 180, 34, 92, 192, 206, 229, 234, 203, 204, 40, 206, 15, 13, 248, 0,
        0] : List Nat)[i]? = (List.replicate 20 0)[i]? :=
  ⟨by decide!, calc_mac_frame false 1 (List.replicate 20 0) 20 0 1 2 ⟨[1], 0⟩ _ (by decide!)⟩

/-- With the buffer at the start of the region and an offset in the range of `size_t`,
`dhcp6_calc_mac_mem` is `dhcp6_calc_mac`. -/
theorem calc_mac_mem_eq (be : Bool) (H : Int) (buf : List Nat) (len : Nat) (proto alg : Int)
    (off : Nat) (key : keyinfo) (hoff : off < 18446744073709551616) :
    dhcp6_calc_mac_mem be H buf 0 len proto alg off key
      = dhcp6_calc_mac be H buf len proto alg off key := by
  have e : usize off = off := by
    simp only [usize]; omega
  simp only [dhcp6_calc_mac_mem, dhcp6_calc_mac, Nat.zero_add, List.drop_zero, e]

/-- C8 at an offset for which `off + 16` wraps around. The buffer is 32 zero bytes with 8
bytes of other data in front of it, `len = 32` and `off = 2 ^ 64 - 8`: the check
`off + 16 > len` is passed, `dhcp6_calc_mac` returns 0, and the 16 bytes of the MAC land
on the 8 bytes in front of the buffer and on the bytes 0 to 7 of the buffer, which are
outside the span `[off, off + 16)`. -/
theorem calc_mac_writes_outside_span : ∀ be : Bool,
    dhcp6_calc_mac_mem be 1 (List.replicate 8 170 ++ List.replicate 32 0) 8 32 0 1
        18446744073709551608 ⟨[1], 0⟩
      = some (0, [12, 111, 108, 13, 119, 118, 234, 34, 189, 57, 118, 53, 210, 158, 68, 51]
          ++ List.replicate 24 0) ∧
    ((([12, 111, 108, 13, 119, 118, 234, 34, 189, 57, 118, 53, 210, 158, 68, 51]
        ++ List.replicate 24 0 : List Nat).drop 8).take 32)
      = [189, 57, 118, 53, 210, 158, 68, 51] ++ List.replicate 24 0 ∧
    (0 < 18446744073709551608 ∧
      ([189, 57, 118, 53, 210, 158, 68, 51] ++ List.replicate 24 0 : List Nat)[0]?
        ≠ (List.replicate 32 0)[0]?) := by
  decide!

/-! ## Buffers of `2 ^ 32` bytes and more -/

/-- For a buffer and a key shorter than `2 ^ 32` bytes, `dhcp6_calc_mac` writes HMAC-MD5 of
the key and of all the bytes of the buffer as they were on entry. -/
theorem calc_mac_writes_hmac (be : Bool) (H : Int) (buf : List Nat) (proto : Int) (off : Nat)
    (key : keyinfo) (hoff : off + 16 ≤ buf.length) (hlen : buf.length < 4294967296)
    (hkey : key.secret.length < 4294967296) (hb : ∀ b ∈ buf, b < 256)
    (hkb : ∀ b ∈ key.secret, b < 256) :
    dhcp6_calc_mac be H buf buf.length proto H off key
      = some (0, memcpy buf off (rfc2104_hmac_md5 key.secret buf)) := by
  rw [calc_mac_eq be H buf buf.length proto off key (Nat.le_refl _) hoff (by omega),
    ← dhcp6_mac_eq_rfc2104 be key buf hlen hkey hb hkb]
  rfl

/-- For a buffer and a key shorter than `2 ^ 32` bytes, `dhcp6_verify_mac` returns 0 exactly
when the 16 bytes at the offset are HMAC-MD5 of the key and of the buffer with those bytes
replaced by zeros. -/
theorem verify_mac_iff (be : Bool) (H : Int) (buf : List Nat) (proto : Int) (off : Nat)
    (key : keyinfo) (hoff : off + 16 ≤ buf.length) (hlen : buf.length < 4294967296)
    (hkey : key.secret.length < 4294967296) (hb : ∀ b ∈ buf, b < 256)
    (hkb : ∀ b ∈ key.secret, b < 256) :
    ∃ r, dhcp6_verify_mac be H buf (buf.length : Int) proto H off key = some (r, buf) ∧
      (r = 0 ↔ (buf.drop off).take 16 = rfc2104_hmac_md5 key.secret (memset buf off 0 16)) := by
  have hml : (memset buf off 0 16).length = buf.length := by
    simp only [memset]; rw [memcpy_length]; simp; omega
  have hzb : ∀ b ∈ memset buf off 0 16, b < 256 := by
    intro b hb'
    simp only [memset, memcpy, List.mem_append, List.mem_replicate] at hb'
    rcases hb' with (h | h) | h
    · exact hb b (List.mem_of_mem_take h)
    · omega
    · exact hb b (List.mem_of_mem_drop h)
  have hmac := dhcp6_mac_eq_rfc2104 be key (memset buf off 0 16) (by omega) hkey hzb hkb
  rw [hml] at hmac
  refine ⟨_, verify_mac_eq be H buf buf.length proto off key (Nat.le_refl _) hoff (by omega), ?_⟩
  have hd : (dhcp6_mac be key (memset buf off 0 16) buf.length).length = 16 :=
    dhcp6_mac_length be key _ _
  have hs : ((buf.drop off).take 16).length = 16 := by simp; omega
  rw [← hmac]
  exact memcmp_eq_zero_iff 16 _ _ hs hd

theorem hmacmd5_zeros16 : ∀ be : Bool, hmacmd5 be hmacmd5_zero [1] (List.replicate 16 0)
    = [217, 5, 235, 15, 182, 166, 9, 178, 214, 227, 128, 244, 251, 39, 31, 189] := by
  decide!

theorem rfc2104_zeros16 : rfc2104_hmac_md5 [1] (List.replicate 16 0)
    = [217, 5, 235, 15, 182, 166, 9, 178, 214, 227, 128, 244, 251, 39, 31, 189] := by
  decide!

theorem to_uint_big : to_uint ((4294967312 : Nat) : Int) = 16 := by
  rw [to_uint_natCast]

/-- C9 at a buffer of `2 ^ 32 + 16` bytes: the length reaches `hmacmd5_update` as
`unsigned int`, that is as 16, and the MAC written is HMAC-MD5 of the first 16 bytes only;
a buffer that differs in its last byte gets the same MAC. -/
theorem calc_mac_truncates_length (be : Bool) (H proto : Int) :
    dhcp6_calc_mac be H (List.replicate 4294967312 0) 4294967312 proto H 0 ⟨[1], 0⟩
      = some (0, rfc2104_hmac_md5 [1] (List.replicate 16 0) ++ List.replicate 4294967296 0) ∧
    dhcp6_calc_mac be H (List.replicate 4294967311 0 ++ [1]) 4294967312 proto H 0 ⟨[1], 0⟩
      = some (0, rfc2104_hmac_md5 [1] (List.replicate 16 0)
          ++ (List.replicate 4294967295 0 ++ [1])) := by
  have hk : (⟨[1], 0⟩ : keyinfo).secret.take (to_uint ((⟨[1], 0⟩ : keyinfo).secret.length : Int))
      = [1] := by decide
  have hmin : min 16 4294967312 = 16 := by decide
  have hmin' : min 16 4294967311 = 16 := by decide
  constructor
  · rw [calc_mac_eq be H _ 4294967312 proto 0 ⟨[1], 0⟩
      (by rw [List.length_replicate]) (by omega) (by omega), hk, to_uint_big,
      List.take_replicate, hmin, hmacmd5_zeros16, rfc2104_zeros16]
    simp only [memcpy, List.take_zero, List.nil_append, List.length_cons, List.length_nil,
      List.drop_replicate]
  · have ht : (List.replicate 4294967311 0 ++ [1]).take 16 = List.replicate 16 0 := by
      rw [List.take_append_of_le_length (by rw [List.length_replicate]; omega),
        List.take_replicate, hmin']
    have hdrop : (List.replicate 4294967311 0 ++ [1]).drop 16
        = List.replicate 4294967295 0 ++ [1] := by
      rw [List.drop_append_of_le_length (by rw [List.length_replicate]; omega),
        List.drop_replicate]
    rw [calc_mac_eq be H _ 4294967312 proto 0 ⟨[1], 0⟩
      (by rw [List.length_append, List.length_replicate]; exact Nat.le_refl _) (by omega)
      (by omega), hk, to_uint_big, ht, hmacmd5_zeros16, rfc2104_zeros16]
    simp only [memcpy, List.take_zero, List.nil_append, List.length_cons, List.length_nil,
      Nat.zero_add, hdrop]

/-- C10 at buffers of `2 ^ 32 + 16` bytes: the length reaches `hmacmd5_update` as 16, so
`dhcp6_verify_mac` returns success whenever the stored MAC is HMAC-MD5 of the first 16
bytes with the MAC field zeroed; two buffers that differ in their last byte are both
accepted with the same stored MAC. -/
theorem verify_mac_truncates_length (be : Bool) (H proto : Int) :
    dhcp6_verify_mac be H
        (rfc2104_hmac_md5 [1] (List.replicate 16 0) ++ List.replicate 4294967296 0)
        4294967312 proto H 0 ⟨[1], 0⟩
      = some (0, rfc2104_hmac_md5 [1] (List.replicate 16 0) ++ List.replicate 4294967296 0) ∧
    dhcp6_verify_mac be H
        (rfc2104_hmac_md5 [1] (List.replicate 16 0) ++ (List.replicate 4294967295 0 ++ [1]))
        4294967312 proto H 0 ⟨[1], 0⟩
      = some (0, rfc2104_hmac_md5 [1] (List.replicate 16 0)
          ++ (List.replicate 4294967295 0 ++ [1])) := by
  have hk : (⟨[1], 0⟩ : keyinfo).secret.take (to_uint ((⟨[1], 0⟩ : keyinfo).secret.length : Int))
      = [1] := by decide
  have hD : (rfc2104_hmac_md5 [1] (List.replicate 16 0)).length = 16 := by
    rw [rfc2104_zeros16]; rfl
  have hcmp : memcmp (rfc2104_hmac_md5 [1] (List.replicate 16 0))
      (hmacmd5 be hmacmd5_zero [1] (List.replicate 16 0)) 16 = 0 := by
    rw [hmacmd5_zeros16, rfc2104_zeros16]; decide
  have key_step : ∀ rest : List Nat, rest.length = 4294967296 →
      dhcp6_verify_mac be H (rfc2104_hmac_md5 [1] (List.replicate 16 0) ++ rest)
        4294967312 proto H 0 ⟨[1], 0⟩
      = some (0, rfc2104_hmac_md5 [1] (List.replicate 16 0) ++ rest) := by
    intro rest hrest
    have hlen : (rfc2104_hmac_md5 [1] (List.replicate 16 0) ++ rest).length = 4294967312 := by
      rw [List.length_append, hD, hrest]
    have hv := verify_mac_eq be H (rfc2104_hmac_md5 [1] (List.replicate 16 0) ++ rest)
      4294967312 proto 0 ⟨[1], 0⟩ (by rw [hlen]) (by omega) (by omega)
    have hsaved : ((rfc2104_hmac_md5 [1] (List.replicate 16 0) ++ rest).drop 0).take 16
        = rfc2104_hmac_md5 [1] (List.replicate 16 0) := by
      rw [List.drop_zero, List.take_left' hD]
    have hzero : (memset (rfc2104_hmac_md5 [1] (List.replicate 16 0) ++ rest) 0 0 16).take 16
        = List.replicate 16 0 := by
      simp only [memset, memcpy, List.take_zero, List.nil_append]
      rw [List.take_left' (List.length_replicate 16 0)]
    rw [hk, to_uint_big, hsaved, hzero, hcmp] at hv
    exact hv
  exact ⟨key_step _ (List.length_replicate _ _),
    key_step _ (by rw [List.length_append, List.length_replicate]; rfl)⟩

/-! ## The short-buffer check and the algorithm check -/

/-- When `off + 16` does not wrap around in `size_t`, `dhcp6_calc_mac` rejects a MAC field
that does not fit in `len` bytes and leaves the buffer as it was. -/
theorem calc_mac_short_buffer (be : Bool) (H : Int) (buf : List Nat) (len : Nat)
    (proto alg : Int) (off : Nat) (key : keyinfo) (hwrap : off + 16 < 18446744073709551616)
    (hshort : off + 16 > len) :
    dhcp6_calc_mac be H buf len proto alg off key = some (-1, buf) := by
  have h1 : usize (off + MD5_DIGESTLENGTH) > len := by
    simp only [usize, MD5_DIGESTLENGTH]; omega
  by_cases halg : alg ≠ H
  · rw [dhcp6_calc_mac, if_pos halg]
  · rw [dhcp6_calc_mac, if_neg halg, if_pos h1]

/-- When `off + 16` does not overflow `ssize_t`, `dhcp6_verify_mac` rejects a MAC field that
does not fit in `len` bytes and leaves the buffer as it was. -/
theorem verify_mac_short_buffer (be : Bool) (H : Int) (buf : List Nat) (len : Int)
    (proto alg : Int) (off : Nat) (key : keyinfo) (hwrap : off + 16 < 9223372036854775808)
    (hshort : (off : Int) + 16 > len) :
    dhcp6_verify_mac be H buf len proto alg off key = some (-1, buf) := by
  have hs : to_ssize off = (off : Int) := by
    simp only [to_ssize]; split <;> omega
  have hA : ¬ to_ssize off + (MD5_DIGESTLENGTH : Int) > 9223372036854775807 := by
    rw [hs]; simp only [MD5_DIGESTLENGTH]; omega
  have hB : to_ssize off + (MD5_DIGESTLENGTH : Int) > len := by
    rw [hs]; simp only [MD5_DIGESTLENGTH]; omega
  by_cases halg : alg ≠ H
  · rw [dhcp6_verify_mac, if_pos halg]
  · rw [dhcp6_verify_mac, if_neg halg, if_neg hA, if_pos hB]

/-- C11 at an offset for which `off + 16` wraps around: with `off = 2 ^ 64 - 8` and a
32-byte buffer, `off + 16 > len` holds for the mathematical integers, yet neither
`dhcp6_calc_mac` nor `dhcp6_verify_mac` takes the failure return; both go on to access the
16 bytes at `buf + off`, which lie outside the buffer. -/
theorem short_buffer_check_wraps : ∀ be : Bool,
    (18446744073709551608 + 16 > 32) ∧
    dhcp6_calc_mac be 1 (List.replicate 32 0) 32 0 1 18446744073709551608 ⟨[1], 0⟩ = none ∧
    dhcp6_verify_mac be 1 (List.replicate 32 0) 32 0 1 18446744073709551608 ⟨[1], 0⟩ = none := by
  decide!

/-- C12: for every algorithm identifier other than HMAC-MD5, `dhcp6_calc_mac` and
`dhcp6_verify_mac` return failure (-1) and leave the buffer unchanged, for every buffer,
length, offset and key. -/
theorem unsupported_algorithm (be : Bool) (H : Int) (buf : List Nat) (len : Nat) (vlen : Int)
    (proto alg : Int) (off : Nat) (key : keyinfo) (halg : alg ≠ H) :
    dhcp6_calc_mac be H buf len proto alg off key = some (-1, buf) ∧
    dhcp6_verify_mac be H buf vlen proto alg off key = some (-1, buf) := by
  constructor
  · rw [dhcp6_calc_mac, if_pos halg]
  · rw [dhcp6_verify_mac, if_pos halg]

theorem unsupported_algorithm_witness :
    (2 : Int) ≠ 1 ∧
    dhcp6_calc_mac false 1 [1, 2, 3] 3 0 2 0 ⟨[1], 0⟩ = some (-1, [1, 2, 3]) ∧
    dhcp6_verify_mac false 1 [1, 2, 3] 3 0 2 0 ⟨[1], 0⟩ = some (-1, [1, 2, 3]) :=
  ⟨by decide, unsupported_algorithm false 1 [1, 2, 3] 3 3 0 2 0 ⟨[1], 0⟩ (by decide)⟩

/-! ## The timestamp check -/

theorem tv2usec_lt (tv : timeval) : tv2usec tv < 18446744073709551616 :=
  Nat.mod_lt _ (by decide)

theorem sub64_of_le {a b : Nat} (ha : a < 18446744073709551616) (h : b ≤ a) :
    sub64 a b = a - b := by
  simp only [sub64, u64]; omega

/-- The return value of the timestamp check is 0 or 1. -/
theorem check_timestamp_ret (undef : timeval → Bool) (peer : auth_peer) (rcv_ts now : timeval) :
    (dhcp6_check_timestamp undef peer rcv_ts now).1 = 0 ∨
    (dhcp6_check_timestamp undef peer rcv_ts now).1 = 1 := by
  unfold dhcp6_check_timestamp
  simp only []
  split
  · split <;> simp
  · split
    · simp
    · split
      · split <;> simp
      · simp

/-- C13: for a peer whose timestamp is undefined (first contact), `dhcp6_check_timestamp`
accepts if and only if the absolute difference between the local clock and the received
timestamp, both in microseconds, is strictly less than 5,000,000; on acceptance the
last-accepted local time becomes the local clock value and the last-accepted peer time
becomes the received timestamp (identity and public key stay). -/
theorem check_timestamp_first_contact (undef : timeval → Bool) (peer : auth_peer)
    (rcv_ts now : timeval)
    (hundef : undef peer.ts_last = true) :
    ((dhcp6_check_timestamp undef peer rcv_ts now).1 = 1 ↔
      |(tv2usec now : Int) - (tv2usec rcv_ts : Int)| < 5000000) ∧
    ((dhcp6_check_timestamp undef peer rcv_ts now).1 = 1 →
      (dhcp6_check_timestamp undef peer rcv_ts now).2
        = { id := peer.id, pubkey := peer.pubkey, ts_last := now,
            ts_rcv_last := rcv_ts }) := by
  have hN := tv2usec_lt now
  have hR := tv2usec_lt rcv_ts
  have hcond : ((tv2usec now > tv2usec rcv_ts ∧ sub64 (tv2usec now) (tv2usec rcv_ts) < ts_delta) ∨
      (tv2usec now ≤ tv2usec rcv_ts ∧ sub64 (tv2usec rcv_ts) (tv2usec now) < ts_delta)) ↔
      |(tv2usec now : Int) - (tv2usec rcv_ts : Int)| < 5000000 := by
    rw [abs_lt]
    simp only [sub64, u64, ts_delta]
    omega
  unfold dhcp6_check_timestamp
  simp only [hundef, if_true]
  by_cases hc : (tv2usec now > tv2usec rcv_ts ∧ sub64 (tv2usec now) (tv2usec rcv_ts) < ts_delta) ∨
      (tv2usec now ≤ tv2usec rcv_ts ∧ sub64 (tv2usec rcv_ts) (tv2usec now) < ts_delta)
  · rw [if_pos hc]
    exact ⟨⟨fun _ => hcond.mp hc, fun _ => rfl⟩, fun _ => rfl⟩
  · rw [if_neg hc]
    have h01 : ¬ ((0 : Int) = 1) := by decide
    exact ⟨⟨fun h => absurd h h01, fun h => absurd (hcond.mpr h) hc⟩,
      fun h => absurd h h01⟩

theorem check_timestamp_first_contact_witness :
    example_undef (⟨[1], [2], ⟨-1, -1⟩, ⟨-1, -1⟩⟩ : auth_peer).ts_last = true ∧
    ((dhcp6_check_timestamp example_undef ⟨[1], [2], ⟨-1, -1⟩, ⟨-1, -1⟩⟩ ⟨100, 0⟩ ⟨104, 999999⟩).1 = 1 ↔
      |(tv2usec ⟨104, 999999⟩ : Int) - (tv2usec ⟨100, 0⟩ : Int)| < 5000000) :=
  ⟨rfl, (check_timestamp_first_contact example_undef ⟨[1], [2], ⟨-1, -1⟩, ⟨-1, -1⟩⟩ ⟨100, 0⟩
    ⟨104, 999999⟩ rfl).1⟩

/-- First contact at the edge of the window: a difference of 4,999,999 microseconds is
accepted and recorded, a difference of exactly 5,000,000 is rejected. -/
theorem check_timestamp_first_contact_edge :
    dhcp6_check_timestamp example_undef ⟨[1], [2], ⟨-1, -1⟩, ⟨-1, -1⟩⟩ ⟨100, 0⟩ ⟨104, 999999⟩
      = (1, ⟨[1], [2], ⟨104, 999999⟩, ⟨100, 0⟩⟩) ∧
    dhcp6_check_timestamp example_undef ⟨[1], [2], ⟨-1, -1⟩, ⟨-1, -1⟩⟩ ⟨100, 0⟩ ⟨105, 0⟩
      = (0, ⟨[1], [2], ⟨-1, -1⟩, ⟨-1, -1⟩⟩) ∧
    dhcp6_check_timestamp example_undef ⟨[1], [2], ⟨-1, -1⟩, ⟨-1, -1⟩⟩ ⟨105, 1⟩ ⟨100, 2⟩
      = (1, ⟨[1], [2], ⟨100, 2⟩, ⟨105, 1⟩⟩) := by
  decide

/-- C14: for a peer with a recorded baseline, a message whose received timestamp is
strictly earlier (in microseconds) than the last-accepted peer timestamp is rejected, for
every value of the local clock. -/
theorem check_timestamp_rejects_earlier (undef : timeval → Bool) (peer : auth_peer)
    (rcv_ts now : timeval)
    (hbase : undef peer.ts_last = false)
    (hearlier : tv2usec rcv_ts < tv2usec peer.ts_rcv_last) :
    (dhcp6_check_timestamp undef peer rcv_ts now).1 = 0 := by
  unfold dhcp6_check_timestamp
  simp only [hbase, Bool.false_eq_true, if_false, hearlier, if_true]

theorem check_timestamp_rejects_earlier_witness :
    example_undef
      (⟨[1], [2], ⟨100, 0⟩, ⟨100, 0⟩⟩ : auth_peer).ts_last = false ∧
    tv2usec ⟨99, 999999⟩
      < tv2usec (⟨[1], [2], ⟨100, 0⟩, ⟨100, 0⟩⟩ : auth_peer).ts_rcv_last ∧
    (dhcp6_check_timestamp example_undef ⟨[1], [2], ⟨100, 0⟩, ⟨100, 0⟩⟩ ⟨99, 999999⟩
      ⟨100, 5⟩).1 = 0 :=
  ⟨rfl, by decide,
    check_timestamp_rejects_earlier example_undef ⟨[1], [2], ⟨100, 0⟩, ⟨100, 0⟩⟩ ⟨99, 999999⟩
      ⟨100, 5⟩ rfl (by decide)⟩

/-- C15: for a peer with a recorded baseline and a received timestamp not earlier than the
last-accepted peer timestamp, `dhcp6_check_timestamp` accepts if and only if
`now + 1,000,000 > last_local + floor((rcv - last_peer) * 99 / 100) - 1,000,000`, every
quantity being in microseconds and every operation that of unsigned 64-bit values. When
no operation wraps around, this is the same inequality over the integers. -/
theorem check_timestamp_window (undef : timeval → Bool) (peer : auth_peer)
    (rcv_ts now : timeval)
    (hbase : undef peer.ts_last = false)
    (hnot : ¬ tv2usec rcv_ts < tv2usec peer.ts_rcv_last) :
    ((dhcp6_check_timestamp undef peer rcv_ts now).1 = 1 ↔
      (tv2usec now + 1000000) % 2 ^ 64 >
        ((tv2usec peer.ts_last
            + (((tv2usec rcv_ts + (2 ^ 64 - tv2usec peer.ts_rcv_last)) % 2 ^ 64) * 99) % 2 ^ 64
              / 100) % 2 ^ 64
          + (2 ^ 64 - 1000000)) % 2 ^ 64) ∧
    (tv2usec now + 1000000 < 2 ^ 64 →
      (tv2usec rcv_ts - tv2usec peer.ts_rcv_last) * 99 < 2 ^ 64 →
      tv2usec peer.ts_last + (tv2usec rcv_ts - tv2usec peer.ts_rcv_last) * 99 / 100 < 2 ^ 64 →
      1000000 ≤ tv2usec peer.ts_last
        + (tv2usec rcv_ts - tv2usec peer.ts_rcv_last) * 99 / 100 →
      ((dhcp6_check_timestamp undef peer rcv_ts now).1 = 1 ↔
        (tv2usec now : Int) + 1000000 >
          (tv2usec peer.ts_last : Int)
            + ((tv2usec rcv_ts : Int) - (tv2usec peer.ts_rcv_last : Int)) * 99 / 100
            - 1000000)) := by
  have hN := tv2usec_lt now
  have hR := tv2usec_lt rcv_ts
  have hL := tv2usec_lt peer.ts_last
  have hP := tv2usec_lt peer.ts_rcv_last
  have hret : (dhcp6_check_timestamp undef peer rcv_ts now).1 = 1 ↔
      u64 (tv2usec now + ts_fuzz) >
        sub64 (u64 (tv2usec peer.ts_last
          + u64 (sub64 (tv2usec rcv_ts) (tv2usec peer.ts_rcv_last) * (100 - ts_drift)) / 100))
          ts_fuzz := by
    unfold dhcp6_check_timestamp
    simp only [hbase, Bool.false_eq_true, if_false, hnot]
    split
    · rename_i hc
      constructor
      · intro _; exact hc
      · intro _; split <;> rfl
    · rename_i hc
      constructor
      · intro h
        have h01 : ¬ ((0 : Int) = 1) := by decide
        exact absurd h h01
      · intro h; exact absurd h hc
  generalize tv2usec now = N at *
  generalize tv2usec rcv_ts = R at *
  generalize tv2usec peer.ts_last = L at *
  generalize tv2usec peer.ts_rcv_last = P at *
  rw [hret]
  simp only [u64, sub64, ts_fuzz, ts_drift, Nat.reducePow, Nat.reduceSub]
  constructor
  · have e1 : (R % 18446744073709551616 + (18446744073709551616 - P % 18446744073709551616))
        % 18446744073709551616 = (R + (18446744073709551616 - P)) % 18446744073709551616 := by
      omega
    rw [e1]
    generalize ((R + (18446744073709551616 - P)) % 18446744073709551616 * 99)
      % 18446744073709551616 / 100 = D
    omega
  · intro h1 h2 h3 h4
    have e1 : (R % 18446744073709551616 + (18446744073709551616 - P % 18446744073709551616))
        % 18446744073709551616 = R - P := by omega
    have e2 : (R - P) * 99 % 18446744073709551616 = (R - P) * 99 := Nat.mod_eq_of_lt h2
    have e3 : ((R : Int) - (P : Int)) * 99 / 100 = (((R - P) * 99 / 100 : Nat) : Int) := by
      have : ((R : Int) - (P : Int)) = ((R - P : Nat) : Int) := by omega
      rw [this]
      norm_cast
    rw [e1, e2, e3]
    generalize (R - P) * 99 / 100 = D at *
    omega

theorem check_timestamp_window_witness :
    example_undef
      (⟨[1], [2], ⟨100, 0⟩, ⟨100, 0⟩⟩ : auth_peer).ts_last = false ∧
    ¬ tv2usec ⟨110, 0⟩
      < tv2usec (⟨[1], [2], ⟨100, 0⟩, ⟨100, 0⟩⟩ : auth_peer).ts_rcv_last ∧
    ((dhcp6_check_timestamp example_undef ⟨[1], [2], ⟨100, 0⟩, ⟨100, 0⟩⟩ ⟨110, 0⟩
        ⟨107, 900001⟩).1 = 1 ↔
      (tv2usec ⟨107, 900001⟩ + 1000000) % 2 ^ 64 >
        ((tv2usec (⟨[1], [2], ⟨100, 0⟩, ⟨100, 0⟩⟩ : auth_peer).ts_last
            + (((tv2usec ⟨110, 0⟩ + (2 ^ 64 - tv2usec
                (⟨[1], [2], ⟨100, 0⟩, ⟨100, 0⟩⟩ : auth_peer).ts_rcv_last))
              % 2 ^ 64) * 99) % 2 ^ 64 / 100) % 2 ^ 64
          + (2 ^ 64 - 1000000)) % 2 ^ 64) :=
  ⟨rfl, by decide,
    (check_timestamp_window example_undef ⟨[1], [2], ⟨100, 0⟩, ⟨100, 0⟩⟩ ⟨110, 0⟩
      ⟨107, 900001⟩ rfl (by decide)).1⟩

/-- The window at its edge: with the baseline at 100 s and a peer timestamp 10 s later, the
bound is 100 s + 9.9 s - 1 s; a local clock at 107.900001 s is accepted and one at
107.9 s is rejected. -/
theorem check_timestamp_window_edge :
    (dhcp6_check_timestamp example_undef ⟨[1], [2], ⟨100, 0⟩, ⟨100, 0⟩⟩ ⟨110, 0⟩
      ⟨107, 900001⟩).1 = 1 ∧
    (dhcp6_check_timestamp example_undef ⟨[1], [2], ⟨100, 0⟩, ⟨100, 0⟩⟩ ⟨110, 0⟩
      ⟨107, 900000⟩).1 = 0 := by
  decide

/-- C16 as stated fails: with a baseline at 100 s and the local clock read at 99.5 s, a
message carrying the peer timestamp 101 s is accepted, and the peer record is left as it
was: the received peer timestamp is not adopted. -/
theorem check_timestamp_update_counterexample :
    dhcp6_check_timestamp example_undef ⟨[1], [2], ⟨100, 0⟩, ⟨100, 0⟩⟩ ⟨101, 0⟩ ⟨99, 500000⟩
      = (1, ⟨[1], [2], ⟨100, 0⟩, ⟨100, 0⟩⟩) ∧
    (⟨[1], [2], ⟨100, 0⟩, ⟨100, 0⟩⟩ : auth_peer).ts_rcv_last
      ≠ ⟨101, 0⟩ := by
  decide

/-- C16, amended: whenever `dhcp6_check_timestamp` accepts a message, either the peer had
no baseline or the local time is later (in microseconds) than the stored one, and then
both the last-accepted local timestamp and the last-accepted peer timestamp are replaced
by the local time and the received timestamp; or the local time is not later than the
stored one, and then the peer record, the last-accepted peer timestamp included, is
unchanged. -/
theorem check_timestamp_update (undef : timeval → Bool) (peer : auth_peer)
    (rcv_ts now : timeval)
    (hacc : (dhcp6_check_timestamp undef peer rcv_ts now).1 = 1) :
    (undef peer.ts_last = true ∨ tv2usec now > tv2usec peer.ts_last →
      (dhcp6_check_timestamp undef peer rcv_ts now).2
        = { id := peer.id, pubkey := peer.pubkey, ts_last := now,
            ts_rcv_last := rcv_ts }) ∧
    (undef peer.ts_last = false → tv2usec now ≤ tv2usec peer.ts_last →
      (dhcp6_check_timestamp undef peer rcv_ts now).2 = peer) := by
  have h01 : ¬ ((0 : Int) = 1) := by decide
  unfold dhcp6_check_timestamp at hacc ⊢
  simp only [] at hacc ⊢
  by_cases hu : undef peer.ts_last = true
  · simp only [hu, if_true] at hacc ⊢
    split at hacc
    · rename_i hc
      simp only [hc, if_true, Bool.true_eq_false, false_implies, and_true]
      intro _; trivial
    · exact absurd hacc h01
  · have hu' : undef peer.ts_last = false := by
      cases h : undef peer.ts_last
      · rfl
      · exact absurd h hu
    simp only [hu', Bool.false_eq_true, if_false, false_or] at hacc ⊢
    split at hacc
    · exact absurd hacc h01
    · rename_i h1
      split at hacc
      · rename_i h2
        simp only [h1, h2, if_false, if_true]
        constructor
        · intro hgt; rw [if_pos hgt]
        · intro _ hle; rw [if_neg (by omega)]
      · exact absurd hacc h01

theorem check_timestamp_update_witness :
    (dhcp6_check_timestamp example_undef ⟨[1], [2], ⟨100, 0⟩, ⟨100, 0⟩⟩ ⟨110, 0⟩
      ⟨109, 0⟩).1 = 1 ∧
    (dhcp6_check_timestamp example_undef ⟨[1], [2], ⟨100, 0⟩, ⟨100, 0⟩⟩ ⟨110, 0⟩ ⟨109, 0⟩).2
      = ⟨[1], [2], ⟨109, 0⟩, ⟨110, 0⟩⟩ :=
  ⟨by decide,
    (check_timestamp_update example_undef ⟨[1], [2], ⟨100, 0⟩, ⟨100, 0⟩⟩ ⟨110, 0⟩ ⟨109, 0⟩
      (by decide)).1 (Or.inr (by decide))⟩

/-- C17: whenever `dhcp6_check_timestamp` rejects a message (returns 0), the peer record is
unchanged: identity, public key and both timestamp fields keep their values, in the
first-contact case and with a baseline alike. -/
theorem check_timestamp_reject_unchanged (undef : timeval → Bool) (peer : auth_peer)
    (rcv_ts now : timeval)
    (hrej : (dhcp6_check_timestamp undef peer rcv_ts now).1 = 0) :
    (dhcp6_check_timestamp undef peer rcv_ts now).2 = peer := by
  have h10 : ¬ ((1 : Int) = 0) := by decide
  unfold dhcp6_check_timestamp at hrej ⊢
  simp only [] at hrej ⊢
  split at hrej
  · rename_i hu
    rw [if_pos hu]
    split at hrej
    · exact absurd hrej h10
    · rename_i hc; rw [if_neg hc]
  · rename_i hu
    rw [if_neg hu]
    split at hrej
    · rename_i h1; rw [if_pos h1]
    · rename_i h1
      rw [if_neg h1]
      split at hrej
      · split at hrej <;> exact absurd hrej h10
      · rename_i h2; rw [if_neg h2]

theorem check_timestamp_reject_unchanged_witness :
    (dhcp6_check_timestamp example_undef ⟨[1], [2], ⟨-1, -1⟩, ⟨-1, -1⟩⟩ ⟨100, 0⟩ ⟨105, 0⟩).1 = 0 ∧
    (dhcp6_check_timestamp example_undef ⟨[1], [2], ⟨-1, -1⟩, ⟨-1, -1⟩⟩ ⟨100, 0⟩ ⟨105, 0⟩).2
      = ⟨[1], [2], ⟨-1, -1⟩, ⟨-1, -1⟩⟩ :=
  ⟨by decide,
    check_timestamp_reject_unchanged example_undef ⟨[1], [2], ⟨-1, -1⟩, ⟨-1, -1⟩⟩ ⟨100, 0⟩ ⟨105, 0⟩
      (by decide)⟩

/-- With a baseline and a received timestamp not earlier than the last accepted one, the
return value is decided by the window inequality of the code. -/
theorem check_timestamp_accept_iff (undef : timeval → Bool) (peer : auth_peer)
    (rcv_ts now : timeval)
    (hbase : undef peer.ts_last = false)
    (hnot : ¬ tv2usec rcv_ts < tv2usec peer.ts_rcv_last) :
    (dhcp6_check_timestamp undef peer rcv_ts now).1 = 1 ↔
      u64 (tv2usec now + ts_fuzz) >
        sub64 (u64 (tv2usec peer.ts_last
          + u64 (sub64 (tv2usec rcv_ts) (tv2usec peer.ts_rcv_last) * (100 - ts_drift)) / 100))
          ts_fuzz := by
  have h01 : ¬ ((0 : Int) = 1) := by decide
  unfold dhcp6_check_timestamp
  simp only [hbase, Bool.false_eq_true, if_false, hnot]
  split
  · rename_i hc
    exact ⟨fun _ => hc, fun _ => by split <;> rfl⟩
  · rename_i hc
    exact ⟨fun h => absurd h h01, fun h => absurd h hc⟩

/-- The window inequality when no 64-bit operation wraps around. -/
theorem window_nowrap (N R L P : Nat) (hN : N < 9223372036854775808)
    (hR : R < 100000000000000000) (hL : L < 100000000000000000) (hPR : P ≤ R)
    (hL1 : 1000000 ≤ L) :
    (u64 (N + ts_fuzz) > sub64 (u64 (L + u64 (sub64 R P * (100 - ts_drift)) / 100)) ts_fuzz) ↔
      N + 2000000 > L + (R - P) * 99 / 100 := by
  simp only [u64, sub64, ts_fuzz, ts_drift, Nat.reduceSub]
  have e1 : (R % 18446744073709551616 + (18446744073709551616 - P % 18446744073709551616))
      % 18446744073709551616 = R - P := by omega
  have e2 : (R - P) * 99 % 18446744073709551616 = (R - P) * 99 :=
    Nat.mod_eq_of_lt (by omega)
  rw [e1, e2]
  have hD : (R - P) * 99 / 100 ≤ R - P := by omega
  generalize (R - P) * 99 / 100 = D at *
  omega

/-- C18 as stated fails: with a baseline at 100 s, no tolerance up to `10 ^ 18` microseconds
makes the check reject every message whose local-clock advance exceeds its peer-time
advance by more than the tolerance; the message with the peer timestamp of the baseline
and the local clock `T + 1` microseconds later is accepted. -/
theorem check_timestamp_lag_counterexample :
    ¬ ∃ T : Nat, T ≤ 10 ^ 18 ∧ ∀ rcv_ts now : timeval,
      ((tv2usec now : Int) - (tv2usec ⟨100, 0⟩ : Int))
        - ((tv2usec rcv_ts : Int) - (tv2usec ⟨100, 0⟩ : Int)) > (T : Int) →
      (dhcp6_check_timestamp example_undef ⟨[1], [2], ⟨100, 0⟩, ⟨100, 0⟩⟩ rcv_ts now).1 = 0 := by
  rintro ⟨T, hT, h⟩
  simp only [Nat.reducePow] at hT
  have hnow : tv2usec ⟨100, (T : Int) + 1⟩ = 100000001 + T := by
    have e : to_u64 ((T : Int) + 1) = T + 1 := by
      unfold to_u64; omega
    have e100 : to_u64 100 = 100 := by decide
    simp only [tv2usec, e, e100, u64]
    omega
  have hbase : tv2usec ⟨100, 0⟩ = 100000000 := by decide
  have hrej := h ⟨100, 0⟩ ⟨100, (T : Int) + 1⟩ (by rw [hnow, hbase]; omega)
  have hacc : (dhcp6_check_timestamp example_undef ⟨[1], [2], ⟨100, 0⟩, ⟨100, 0⟩⟩ ⟨100, 0⟩
      ⟨100, (T : Int) + 1⟩).1 = 1 := by
    rw [check_timestamp_accept_iff example_undef ⟨[1], [2], ⟨100, 0⟩, ⟨100, 0⟩⟩ ⟨100, 0⟩
      ⟨100, (T : Int) + 1⟩ rfl (by simp only [hbase]; omega)]
    show u64 (tv2usec ⟨100, (T : Int) + 1⟩ + ts_fuzz) >
      sub64 (u64 (tv2usec ⟨100, 0⟩
        + u64 (sub64 (tv2usec ⟨100, 0⟩) (tv2usec ⟨100, 0⟩) * (100 - ts_drift)) / 100)) ts_fuzz
    rw [window_nowrap _ _ _ _ (by rw [hnow]; omega) (by rw [hbase]; omega)
      (by rw [hbase]; omega) (Nat.le_refl _) (by rw [hbase]; omega), hnow, hbase]
    omega
  rw [hacc] at hrej
  exact absurd hrej (by decide)

/-- A message that lags by about 11.5 days is accepted: baseline at 100 s, the same peer
timestamp again, local clock at 1,000,100 s. -/
theorem check_timestamp_lag_accepted :
    (dhcp6_check_timestamp example_undef ⟨[1], [2], ⟨100, 0⟩, ⟨100, 0⟩⟩ ⟨100, 1⟩
      ⟨1000100, 0⟩).1 = 1 := by
  decide

/-- C18, amended: for a peer with a recorded baseline and microsecond values below
`10 ^ 17` (so that no 64-bit operation wraps around), the rule bounds how far the peer's
reported time may run ahead of the local clock: every message whose peer-time advance,
scaled by 99/100, is at least its local-clock advance plus 2,000,000 microseconds is
rejected. It does not bound how far the peer's time may lag: every message whose peer
timestamp is not earlier than the last accepted one and whose local-clock advance is at
least its peer-time advance is accepted. -/
theorem check_timestamp_bounds_lead (undef : timeval → Bool) (peer : auth_peer)
    (rcv_ts now : timeval)
    (hbase : undef peer.ts_last = false)
    (hPR : tv2usec peer.ts_rcv_last ≤ tv2usec rcv_ts)
    (hN : tv2usec now < 10 ^ 17) (hR : tv2usec rcv_ts < 10 ^ 17)
    (hL : tv2usec peer.ts_last < 10 ^ 17) (hL1 : 1000000 ≤ tv2usec peer.ts_last) :
    (((tv2usec rcv_ts : Int) - (tv2usec peer.ts_rcv_last : Int)) * 99 / 100
        ≥ ((tv2usec now : Int) - (tv2usec peer.ts_last : Int)) + 2000000 →
      (dhcp6_check_timestamp undef peer rcv_ts now).1 = 0) ∧
    ((tv2usec now : Int) - (tv2usec peer.ts_last : Int)
        ≥ (tv2usec rcv_ts : Int) - (tv2usec peer.ts_rcv_last : Int) →
      (dhcp6_check_timestamp undef peer rcv_ts now).1 = 1) := by
  simp only [Nat.reducePow] at hN hR hL
  have hiff := check_timestamp_accept_iff undef peer rcv_ts now hbase (by omega)
  rw [window_nowrap _ _ _ _ (by omega) hR hL hPR hL1] at hiff
  have hret := check_timestamp_ret undef peer rcv_ts now
  generalize (dhcp6_check_timestamp undef peer rcv_ts now).1 = ret at *
  generalize tv2usec now = N at *
  generalize tv2usec rcv_ts = R at *
  generalize tv2usec peer.ts_last = L at *
  generalize tv2usec peer.ts_rcv_last = P at *
  have e3 : ((R : Int) - (P : Int)) * 99 / 100 = (((R - P) * 99 / 100 : Nat) : Int) := by
    have : ((R : Int) - (P : Int)) = ((R - P : Nat) : Int) := by omega
    rw [this]
    norm_cast
  have hD : (R - P) * 99 / 100 ≤ R - P := by omega
  rw [e3]
  generalize (R - P) * 99 / 100 = D at *
  constructor
  · intro h
    rcases hret with h0 | h1
    · exact h0
    · have := hiff.mp h1
      omega
  · intro h
    exact hiff.mpr (by omega)

theorem check_timestamp_bounds_lead_witness :
    example_undef
      (⟨[1], [2], ⟨100, 0⟩, ⟨100, 0⟩⟩ : auth_peer).ts_last = false ∧
    (((tv2usec ⟨110, 0⟩ : Int) - (tv2usec ⟨100, 0⟩ : Int)) * 99 / 100
        ≥ ((tv2usec ⟨107, 900000⟩ : Int) - (tv2usec ⟨100, 0⟩ : Int)) + 2000000) ∧
    (dhcp6_check_timestamp example_undef ⟨[1], [2], ⟨100, 0⟩, ⟨100, 0⟩⟩ ⟨110, 0⟩
      ⟨107, 900000⟩).1 = 0 :=
  ⟨rfl, by decide,
    (check_timestamp_bounds_lead example_undef ⟨[1], [2], ⟨100, 0⟩, ⟨100, 0⟩⟩ ⟨110, 0⟩
      ⟨107, 900000⟩ rfl (by decide!) (by decide!) (by decide!) (by decide!) (by decide!)).1
      (by decide!)⟩

/-! ## Key freshness -/

/-- C19: `dhcp6_validate_key` reports the key valid (returns 0) if and only if its
expiration is 0, or the current time was read (the clock did not return -1) and
`now <= expire`; otherwise it returns -1. A key with `expire = 0` is valid whatever the
clock returns, a clock failure included, and a clock failure for a key with a non-zero
expiration is reported as expired. -/
theorem validate_key_iff (key : keyinfo) (time_ret : Int) :
    (dhcp6_validate_key key time_ret = 0 ↔
      key.expire = 0 ∨ (time_ret ≠ -1 ∧ time_ret ≤ key.expire)) ∧
    (dhcp6_validate_key key time_ret = 0 ∨ dhcp6_validate_key key time_ret = -1) ∧
    (key.expire = 0 → dhcp6_validate_key key time_ret = 0) ∧
    (key.expire ≠ 0 → dhcp6_validate_key key (-1) = -1) := by
  unfold dhcp6_validate_key
  refine ⟨?_, ?_, ?_, ?_⟩
  · by_cases h0 : key.expire = 0
    · simp [h0]
    · by_cases h1 : time_ret = -1
      · simp [h0, h1]
      · by_cases h2 : time_ret > key.expire
        · simp only [h0, h1, h2, if_false, if_true, false_or, ne_eq, not_false_eq_true, true_and]
          constructor
          · intro h; exact absurd h (by decide)
          · intro h; omega
        · simp only [h0, h1, h2, if_false, false_or, ne_eq, not_false_eq_true, true_and,
            true_iff]
          omega
  · split
    · exact Or.inl rfl
    · split
      · exact Or.inr rfl
      · split
        · exact Or.inr rfl
        · exact Or.inl rfl
  · intro h0; rw [if_pos h0]
  · intro h0; rw [if_neg h0, if_pos rfl]

/-- Key freshness at the boundary: a key expiring at 1000 is valid at 1000 and expired at
1001; a key that never expires is valid at any time. -/
theorem validate_key_edge :
    dhcp6_validate_key ⟨[1], 1000⟩ 1000 = 0 ∧ dhcp6_validate_key ⟨[1], 1000⟩ 1001 = -1 ∧
    dhcp6_validate_key ⟨[1], 0⟩ 1001 = 0 ∧ dhcp6_validate_key ⟨[1], 0⟩ (-1) = 0 := by
  decide

/-! ## Signature verification -/

/-- C20: for every buffer, length, offset, signature length, algorithm pair and public key
blob, `dhcp6_verify_msg` leaves the buffer byte-for-byte equal to its input whenever it
returns, on every path (success, invalid signature, short buffer, unsupported algorithm,
undecodable public key, allocation failure); and it does return whenever `len` bytes lie
within the buffer and `offset + sig_len` does not wrap around in `size_t`. -/
theorem verify_msg_preserves_buffer {RSA : Type} (P : crypto_provider RSA)
    (sigalg_rsa hashalg_sha256 : Int) (malloc_ok : Bool) (buf : List Nat)
    (len offset sig_len : Nat) (hash_alg sig_alg : Int) (pubkey : List Nat) :
    (∀ r buf', dhcp6_verify_msg P sigalg_rsa hashalg_sha256 malloc_ok buf len offset sig_len
        hash_alg sig_alg pubkey = some (r, buf') → buf' = buf) ∧
    (len ≤ buf.length → offset + sig_len < 2 ^ 64 →
      ∃ r, dhcp6_verify_msg P sigalg_rsa hashalg_sha256 malloc_ok buf len offset sig_len
        hash_alg sig_alg pubkey = some (r, buf)) := by
  have key_fact : ∀ r buf', dhcp6_verify_msg P sigalg_rsa hashalg_sha256 malloc_ok buf len
      offset sig_len hash_alg sig_alg pubkey = some (r, buf') → buf' = buf := by
    intro r buf' h
    unfold dhcp6_verify_msg at h
    split at h
    · simp only [Option.some.injEq, Prod.mk.injEq] at h; exact h.2.symm
    · split at h
      · simp only [Option.some.injEq, Prod.mk.injEq] at h; exact h.2.symm
      · split at h
        · simp only [Option.some.injEq, Prod.mk.injEq] at h; exact h.2.symm
        · split at h
          · simp only [Option.some.injEq, Prod.mk.injEq] at h; exact h.2.symm
          · split at h
            · simp only [Option.some.injEq, Prod.mk.injEq] at h; exact h.2.symm
            · split at h
              · exact absurd h (by simp)
              · rename_i hb
                simp only [] at h
                split at h
                · exact absurd h (by simp)
                · simp only [Option.some.injEq, Prod.mk.injEq] at h
                  rw [← h.2]
                  exact memcpy_restore buf offset sig_len (by omega)
  refine ⟨key_fact, ?_⟩
  intro hlen hwrap
  simp only [Nat.reducePow] at hwrap
  cases hres : dhcp6_verify_msg P sigalg_rsa hashalg_sha256 malloc_ok buf len offset sig_len
      hash_alg sig_alg pubkey with
  | some p =>
      obtain ⟨r, b⟩ := p
      exact ⟨r, by rw [key_fact r b hres]⟩
  | none =>
      exfalso
      unfold dhcp6_verify_msg at hres
      split at hres
      · simp at hres
      · rename_i h1
        have h1' : offset + sig_len ≤ len := by
          simp only [usize] at h1; omega
        split at hres
        · simp at hres
        · split at hres
          · simp at hres
          · split at hres
            · simp at hres
            · split at hres
              · simp at hres
              · split at hres
                · omega
                · simp only [] at hres
                  split at hres
                  · rename_i h2
                    have hml : (memset buf offset 0 sig_len).length = buf.length := by
                      simp only [memset]; rw [memcpy_length]; simp; omega
                    omega
                  · simp at hres

/-- A run of `dhcp6_verify_msg` with a provider that accepts every signature and one that
accepts none: the buffer comes back as it was in both. -/
theorem verify_msg_example :
    dhcp6_verify_msg (⟨fun _ => some (), fun m => m.take 2, fun _ _ _ _ => true,
        fun _ => 2, fun _ _ => none⟩ : crypto_provider Unit) 1 1 true [1, 2, 3, 4, 5] 5 1 2 1 1 [7]
      = some (0, [1, 2, 3, 4, 5]) ∧
    dhcp6_verify_msg (⟨fun _ => some (), fun m => m.take 2, fun _ _ _ _ => false,
        fun _ => 2, fun _ _ => none⟩ : crypto_provider Unit) 1 1 true [1, 2, 3, 4, 5] 5 1 2 1 1 [7]
      = some (-1, [1, 2, 3, 4, 5]) := by
  decide

/-! ## Signing, then verifying -/

/-- C21 as stated fails when the copy of the signature cannot be allocated.
`example_provider` meets both assumptions of the claim; `dhcp6_sign_msg` succeeds on a
5-byte buffer with a zero signature span at offset 2, and `dhcp6_verify_msg` on the
signed buffer with the matching key returns -1 when `malloc` fails (and 0 when it
succeeds). A signing request whose protocol is not Secure DHCPv6 is rejected as well. -/
theorem sign_then_verify_counterexample :
    (∀ d : List Nat, ∃ sig, example_provider.RSA_sign d () = some sig ∧
      sig.length = example_provider.RSA_size ()) ∧
    (∀ d sig : List Nat, example_provider.RSA_sign d () = some sig →
      example_provider.RSA_verify d sig sig.length () = true) ∧
    example_provider.d2i_RSA_PUBKEY [7] = some () ∧
    dhcp6_sign_msg example_provider 3 1 1 [1, 2, 0, 0, 5] 5 2 ⟨3, 1, 1, ()⟩
      = some (0, [1, 2, 13, 2, 5]) ∧
    dhcp6_verify_msg example_provider 1 1 false [1, 2, 13, 2, 5] 5 2 2 1 1 [7]
      = some (-1, [1, 2, 13, 2, 5]) ∧
    dhcp6_verify_msg example_provider 1 1 true [1, 2, 13, 2, 5] 5 2 2 1 1 [7]
      = some (0, [1, 2, 13, 2, 5]) ∧
    dhcp6_sign_msg example_provider 3 1 1 [1, 2, 0, 0, 5] 5 2 ⟨2, 1, 1, ()⟩
      = some (-1, [1, 2, 0, 0, 5]) := by
  refine ⟨fun d => ⟨[d.sum % 256, d.length % 256], rfl, rfl⟩, ?_, rfl, by decide, by decide,
    by decide, by decide⟩
  intro d sig h
  simp only [example_provider, Option.some.injEq] at h
  subst h
  simp [example_provider]

/-- C21, amended: for a provider with `verify(d, sign(d, priv), pub)` for the key pair and
`sign` always returning exactly modulus-size bytes, a public key blob that decodes to
`pub`, and every buffer of which `len` bytes are readable and whose signature span
`[off, off + RSA_size)` is zero and lies within `len`: `dhcp6_sign_msg` for the Secure
DHCPv6 protocol with SHA-256 / RSA-PKCS1-v1.5 succeeds, and `dhcp6_verify_msg` on the
resulting buffer with `sig_len = RSA_size` returns success when the copy of the
signature can be allocated, and failure (-1) when it cannot. -/
theorem sign_then_verify {RSA : Type} (P : crypto_provider RSA)
    (authproto_sedhcpv6 sigalg_rsa hashalg_sha256 : Int) (buf : List Nat) (len off : Nat)
    (priv pub : RSA) (pubkey : List Nat)
    (hdec : P.d2i_RSA_PUBKEY pubkey = some pub)
    (hsign : ∀ d, ∃ sig, P.RSA_sign d priv = some sig ∧ sig.length = P.RSA_size priv)
    (hverify : ∀ d sig, P.RSA_sign d priv = some sig → P.RSA_verify d sig sig.length pub = true)
    (hsize : P.RSA_size priv < 2 ^ 31) (hlen64 : len < 2 ^ 64) (hlen : len ≤ buf.length)
    (hfit : off + P.RSA_size priv ≤ len)
    (hzero : (buf.drop off).take (P.RSA_size priv) = List.replicate (P.RSA_size priv) 0) :
    ∃ buf', dhcp6_sign_msg P authproto_sedhcpv6 sigalg_rsa hashalg_sha256 buf len off
        ⟨authproto_sedhcpv6, sigalg_rsa, hashalg_sha256, priv⟩ = some (0, buf') ∧
      dhcp6_verify_msg P sigalg_rsa hashalg_sha256 true buf' len off (P.RSA_size priv)
        hashalg_sha256 sigalg_rsa pubkey = some (0, buf') ∧
      dhcp6_verify_msg P sigalg_rsa hashalg_sha256 false buf' len off (P.RSA_size priv)
        hashalg_sha256 sigalg_rsa pubkey = some (-1, buf') := by
  simp only [Nat.reducePow] at hsize hlen64
  obtain ⟨sig, hsig, hsl⟩ := hsign (P.SHA256 (buf.take len))
  have hin : off + sig.length ≤ buf.length := by omega
  have hu : ¬ usize (off + P.RSA_size priv) > len := by
    simp only [usize]; omega
  have hbl : ¬ buf.length < len := by omega
  have hbs : ¬ buf.length < off + sig.length := by omega
  have huint : ¬ to_uint (sig.length : Int) ≠ to_uint (P.RSA_size priv : Int) := by
    rw [hsl]; exact fun h => h rfl
  have h1 : ¬ len < usize (off + P.RSA_size priv) := by
    simp only [usize]; omega
  refine ⟨memcpy buf off sig, ?_, ?_, ?_⟩
  · unfold dhcp6_sign_msg
    simp only [ne_eq, not_true_eq_false, if_false, hu, hbl, hsig, hbs, huint]
  · have hml : (memcpy buf off sig).length = buf.length := memcpy_length buf off sig hin
    have hcopy : ((memcpy buf off sig).drop off).take (P.RSA_size priv) = sig := by
      rw [← hsl]; exact drop_take_memcpy buf sig off hin
    have hclear : memset (memcpy buf off sig) off 0 (P.RSA_size priv) = buf := by
      rw [← hsl, memset_memcpy_same buf sig off hin, hsl]
      exact memset_zero_span buf off (P.RSA_size priv) (by omega) hzero
    have h2 : ¬ (memcpy buf off sig).length < off + P.RSA_size priv := by
      rw [hml]; omega
    have hto : to_uint (P.RSA_size priv : Int) = sig.length := by
      rw [to_uint_natCast, hsl]; omega
    have hv := hverify _ _ hsig
    unfold dhcp6_verify_msg
    simp only [ne_eq, not_true_eq_false, if_false, h1, hdec, h2, hcopy, hclear, hbl,
      Bool.true_eq_false, hto, hv, if_true]
  · unfold dhcp6_verify_msg
    simp only [ne_eq, not_true_eq_false, if_false, h1, hdec, if_true]

theorem sign_then_verify_witness :
    ∃ buf', dhcp6_sign_msg example_provider 3 1 1 [1, 2, 0, 0, 5] 5 2 ⟨3, 1, 1, ()⟩
        = some (0, buf') ∧
      dhcp6_verify_msg example_provider 1 1 true buf' 5 2 (example_provider.RSA_size ()) 1 1 [7]
        = some (0, buf') ∧
      dhcp6_verify_msg example_provider 1 1 false buf' 5 2 (example_provider.RSA_size ()) 1 1 [7]
        = some (-1, buf') :=
  sign_then_verify example_provider 3 1 1 [1, 2, 0, 0, 5] 5 2 () () [7] rfl
    (fun d => ⟨[d.sum % 256, d.length % 256], rfl, rfl⟩)
    (fun d sig h => by
      simp only [example_provider, Option.some.injEq] at h
      subst h
      simp [example_provider])
    (by decide) (by decide) (by decide) (by decide) (by decide)

/-! ## The peer registry -/

/-- Lookup is the search for the first entry with the given DUID. -/
theorem find_authpeer_eq_find (duidcmp : List Nat → List Nat → Int)
    (hcmp : ∀ a b, duidcmp a b = 0 ↔ a = b) (peer_id : List Nat) :
    ∀ peers : List auth_peer, dhcp6_find_authpeer duidcmp peers peer_id
      = peers.find? (fun p => decide (p.id = peer_id))
  | [] => rfl
  | p :: rest => by
      by_cases h : p.id = peer_id
      · have h0 : duidcmp p.id peer_id = 0 := (hcmp _ _).mpr h
        rw [dhcp6_find_authpeer, if_pos h0, List.find?_cons_of_pos _ (by simpa using h)]
      · have h0 : ¬ duidcmp p.id peer_id = 0 := fun e => h ((hcmp _ _).mp e)
        rw [dhcp6_find_authpeer, if_neg h0, List.find?_cons_of_neg _ (by simpa using h)]
        exact find_authpeer_eq_find duidcmp hcmp peer_id rest

/-- C22: for every peer list (in insertion order) and every DUID, with `duidcmp` returning
0 exactly on equal DUIDs, `dhcp6_find_authpeer` returns not-found if and only if no peer
of the list has that DUID; a peer it returns has the DUID and no peer before it in the
list has it; and a peer with the DUID that no peer with the DUID precedes is the one
returned, so of two peers sharing a DUID the earlier-inserted one is found. -/
theorem find_authpeer_first (duidcmp : List Nat → List Nat → Int)
    (hcmp : ∀ a b, duidcmp a b = 0 ↔ a = b) (peers : List auth_peer) (peer_id : List Nat) :
    (dhcp6_find_authpeer duidcmp peers peer_id = none ↔ ∀ p ∈ peers, p.id ≠ peer_id) ∧
    (∀ p, dhcp6_find_authpeer duidcmp peers peer_id = some p →
      ∃ pre post, peers = pre ++ p :: post ∧ p.id = peer_id ∧ ∀ q ∈ pre, q.id ≠ peer_id) ∧
    (∀ pre p post, peers = pre ++ p :: post → p.id = peer_id → (∀ q ∈ pre, q.id ≠ peer_id) →
      dhcp6_find_authpeer duidcmp peers peer_id = some p) := by
  rw [find_authpeer_eq_find duidcmp hcmp peer_id peers]
  refine ⟨?_, ?_, ?_⟩
  · rw [List.find?_eq_none]
    constructor
    · intro h p hp; simpa using h p hp
    · intro h p hp; simpa using h p hp
  · intro p hp
    rw [List.find?_eq_some] at hp
    obtain ⟨hid, pre, post, hpeers, hpre⟩ := hp
    refine ⟨pre, post, hpeers, by simpa using hid, ?_⟩
    intro q hq
    simpa using hpre q hq
  · intro pre p post hpeers hid hpre
    rw [List.find?_eq_some]
    refine ⟨by simpa using hid, pre, post, hpeers, ?_⟩
    intro q hq
    simpa using hpre q hq

theorem find_authpeer_first_witness :
    dhcp6_find_authpeer (fun a b => if a = b then 0 else 1)
      [⟨[1], [10], ⟨-1, -1⟩, ⟨-1, -1⟩⟩, ⟨[2], [20], ⟨-1, -1⟩, ⟨-1, -1⟩⟩,
        ⟨[2], [30], ⟨-1, -1⟩, ⟨-1, -1⟩⟩] [2]
      = some ⟨[2], [20], ⟨-1, -1⟩, ⟨-1, -1⟩⟩ :=
  (find_authpeer_first (fun a b => if a = b then 0 else 1)
    (fun a b => by by_cases h : a = b <;> simp [h])
    [⟨[1], [10], ⟨-1, -1⟩, ⟨-1, -1⟩⟩, ⟨[2], [20], ⟨-1, -1⟩, ⟨-1, -1⟩⟩,
      ⟨[2], [30], ⟨-1, -1⟩, ⟨-1, -1⟩⟩] [2]).2.2
    [⟨[1], [10], ⟨-1, -1⟩, ⟨-1, -1⟩⟩] ⟨[2], [20], ⟨-1, -1⟩, ⟨-1, -1⟩⟩
    [⟨[2], [30], ⟨-1, -1⟩, ⟨-1, -1⟩⟩] rfl rfl (by decide)

/-- Lookup on a list in which two peers share a DUID, and for a DUID that no peer has. -/
theorem find_authpeer_example :
    dhcp6_find_authpeer (fun a b => if a = b then 0 else 1)
      [⟨[1], [10], ⟨-1, -1⟩, ⟨-1, -1⟩⟩, ⟨[2], [20], ⟨-1, -1⟩, ⟨-1, -1⟩⟩,
        ⟨[2], [30], ⟨-1, -1⟩, ⟨-1, -1⟩⟩] [2]
      = some ⟨[2], [20], ⟨-1, -1⟩, ⟨-1, -1⟩⟩ ∧
    dhcp6_find_authpeer (fun a b => if a = b then 0 else 1)
      [⟨[1], [10], ⟨-1, -1⟩, ⟨-1, -1⟩⟩, ⟨[2], [20], ⟨-1, -1⟩, ⟨-1, -1⟩⟩] [3]
      = none := by
  decide

/-! ## The timestamps of a peer: undefined together or set together -/

/-- A first contact whose received timestamp is not behind the local clock and less than
`ts_delta` ahead of it is accepted, and both values are stored. -/
theorem check_timestamp_first_accept (undef : timeval → Bool) (peer : auth_peer)
    (rcv_ts now : timeval) (hundef : undef peer.ts_last = true)
    (hle : tv2usec now ≤ tv2usec rcv_ts) (hd : tv2usec rcv_ts - tv2usec now < 5000000) :
    dhcp6_check_timestamp undef peer rcv_ts now
      = (1, ⟨peer.id, peer.pubkey, now, rcv_ts⟩) := by
  have hR := tv2usec_lt rcv_ts
  have hc : (tv2usec now > tv2usec rcv_ts ∧ sub64 (tv2usec now) (tv2usec rcv_ts) < ts_delta) ∨
      (tv2usec now ≤ tv2usec rcv_ts ∧ sub64 (tv2usec rcv_ts) (tv2usec now) < ts_delta) := by
    refine Or.inr ⟨hle, ?_⟩
    rw [sub64_of_le hR hle]
    exact hd
  unfold dhcp6_check_timestamp
  simp only [hundef, if_true]
  rw [if_pos hc]

/-- The microsecond value of the `timeval` with zero seconds and `x` microseconds. -/
theorem tv2usec_usec (x : Nat) (hx : x < 18446744073709551616) :
    tv2usec ⟨0, (x : Int)⟩ = x := by
  have e0 : to_u64 0 = 0 := by decide
  have ex : to_u64 (x : Int) = x := by
    unfold to_u64; omega
  simp only [tv2usec, e0, ex, u64]
  omega

/-- The failure of the pairing does not depend on how "undefined" is encoded. Whatever the
macros are, provided the zero timestamp is a valid one and `dhcp6_timestamp_set_undef`
stores an undefined one: some first-contact check on a created peer is accepted and
leaves one timestamp undefined and the other set. -/
theorem timestamps_mixed_any_encoding (undef : timeval → Bool) (set_undef : timeval → timeval)
    (id key : List Nat) (hzero : undef ⟨0, 0⟩ = false)
    (hset : ∀ tv, undef (set_undef tv) = true) :
    ∃ rcv_ts now : timeval,
      (dhcp6_check_timestamp undef ⟨id, key, set_undef ⟨0, 0⟩, set_undef ⟨0, 0⟩⟩ rcv_ts now).1 = 1 ∧
      ¬ timestamps_paired undef
        (dhcp6_check_timestamp undef ⟨id, key, set_undef ⟨0, 0⟩, set_undef ⟨0, 0⟩⟩ rcv_ts now).2 := by
  have hmixed : ∀ rcv_ts now : timeval, undef now = false → undef rcv_ts = true →
      ¬ timestamps_paired undef ⟨id, key, now, rcv_ts⟩ := by
    intro rcv_ts now hn hr hp
    unfold timestamps_paired at hp
    simp only [hn, hr] at hp
    rcases hp with ⟨h, _⟩ | ⟨_, h⟩ <;> exact absurd h (by decide)
  have hX := tv2usec_lt (set_undef ⟨0, 0⟩)
  by_cases hA : undef ⟨0, ((tv2usec (set_undef ⟨0, 0⟩) : Nat) : Int)⟩ = true
  · -- the least microsecond count whose timeval is undefined
    have hex : ∃ x : Nat, undef ⟨0, (x : Int)⟩ = true := ⟨_, hA⟩
    have hm := Nat.find_spec hex
    have hmin := fun k (hk : k < Nat.find hex) => Nat.find_min hex hk
    have hle : Nat.find hex ≤ tv2usec (set_undef ⟨0, 0⟩) := Nat.find_min' hex hA
    generalize Nat.find hex = m at hm hmin hle
    have hm0 : m ≠ 0 := by
      intro e
      rw [e] at hm
      have : undef ⟨0, 0⟩ = true := hm
      rw [hzero] at this
      exact absurd this (by decide)
    obtain ⟨n, rfl⟩ := Nat.exists_eq_succ_of_ne_zero hm0
    have hn : undef ⟨0, (n : Int)⟩ = false := by
      cases h : undef ⟨0, (n : Int)⟩
      · rfl
      · exact absurd h (hmin n (Nat.lt_succ_self n))
    have e1 : tv2usec ⟨0, ((n + 1 : Nat) : Int)⟩ = n + 1 := tv2usec_usec _ (by omega)
    have e2 : tv2usec ⟨0, (n : Int)⟩ = n := tv2usec_usec _ (by omega)
    refine ⟨⟨0, ((n + 1 : Nat) : Int)⟩, ⟨0, (n : Int)⟩, ?_, ?_⟩
    · rw [check_timestamp_first_accept undef _ _ _ (hset _) (by rw [e1, e2]; omega)
        (by rw [e1, e2]; omega)]
    · rw [check_timestamp_first_accept undef _ _ _ (hset _) (by rw [e1, e2]; omega)
        (by rw [e1, e2]; omega)]
      exact hmixed _ _ hn hm
  · have hA' : undef ⟨0, ((tv2usec (set_undef ⟨0, 0⟩) : Nat) : Int)⟩ = false := by
      cases h : undef ⟨0, ((tv2usec (set_undef ⟨0, 0⟩) : Nat) : Int)⟩
      · rfl
      · exact absurd h hA
    have e1 : tv2usec ⟨0, ((tv2usec (set_undef ⟨0, 0⟩) : Nat) : Int)⟩
        = tv2usec (set_undef ⟨0, 0⟩) := tv2usec_usec _ hX
    refine ⟨set_undef ⟨0, 0⟩, ⟨0, ((tv2usec (set_undef ⟨0, 0⟩) : Nat) : Int)⟩, ?_, ?_⟩
    · rw [check_timestamp_first_accept undef _ _ _ (hset _) (by rw [e1]) (by rw [e1]; omega)]
    · rw [check_timestamp_first_accept undef _ _ _ (hset _) (by rw [e1]) (by rw [e1]; omega)]
      exact hmixed _ _ hA' (hset _)

theorem timestamps_mixed_any_encoding_witness :
    ∃ rcv_ts now : timeval,
      (dhcp6_check_timestamp example_undef
        ⟨[1], [2], example_set_undef ⟨0, 0⟩, example_set_undef ⟨0, 0⟩⟩ rcv_ts now).1 = 1 ∧
      ¬ timestamps_paired example_undef
        (dhcp6_check_timestamp example_undef
          ⟨[1], [2], example_set_undef ⟨0, 0⟩, example_set_undef ⟨0, 0⟩⟩ rcv_ts now).2 :=
  timestamps_mixed_any_encoding example_undef example_set_undef [1] [2] rfl (fun _ => rfl)

/-- A created peer through three checks: a first contact that is rejected, one that is
accepted, and a later message; the timestamps are undefined together, then set together. -/
theorem timestamps_paired_example :
    check_timestamps example_undef ⟨[1], [2], ⟨-1, -1⟩, ⟨-1, -1⟩⟩ [(⟨100, 0⟩, ⟨105, 0⟩)]
      = ⟨[1], [2], ⟨-1, -1⟩, ⟨-1, -1⟩⟩ ∧
    check_timestamps example_undef ⟨[1], [2], ⟨-1, -1⟩, ⟨-1, -1⟩⟩
        [(⟨100, 0⟩, ⟨105, 0⟩), (⟨100, 0⟩, ⟨101, 0⟩), (⟨110, 0⟩, ⟨109, 0⟩)]
      = ⟨[1], [2], ⟨109, 0⟩, ⟨110, 0⟩⟩ ∧
    timestamps_paired example_undef ⟨[1], [2], ⟨109, 0⟩, ⟨110, 0⟩⟩ := by
  decide

/-! ## The state is wiped -/

/-- C24: after `hmacmd5_sign` returns, and so after `hmacmd5_verify` returns, the whole
HMAC state is wiped: the 64-byte key block is all zero and the embedded digest state (the
four hash words, both halves of the byte counter, the 64-byte pending block) is all zero;
likewise `md5_final` leaves every field of the digest state zero. The key block of the
state is the 64-byte array of `hmacmd5_t`. -/
theorem hmacmd5_sign_wipes (be : Bool) (ctx : hmacmd5_t) (digest : List Nat)
    (hkey : ctx.key.length = 64) :
    ((hmacmd5_sign be ctx).2.key = List.replicate 64 0 ∧
      (hmacmd5_sign be ctx).2.md5ctx.buf = [0, 0, 0, 0] ∧
      (hmacmd5_sign be ctx).2.md5ctx.bytes0 = 0 ∧
      (hmacmd5_sign be ctx).2.md5ctx.bytes1 = 0 ∧
      (hmacmd5_sign be ctx).2.md5ctx.inp = List.replicate 64 0) ∧
    (hmacmd5_verify be ctx digest).2 = (hmacmd5_sign be ctx).2 ∧
    ((md5_final be ctx.md5ctx).2.buf = [0, 0, 0, 0] ∧
      (md5_final be ctx.md5ctx).2.bytes0 = 0 ∧
      (md5_final be ctx.md5ctx).2.bytes1 = 0 ∧
      (md5_final be ctx.md5ctx).2.inp = List.replicate 64 0) := by
  have hk : memset ctx.key 0 0 64 = List.replicate 64 0 := by
    simp only [memset]
    exact memcpy_zero_full ctx.key (List.replicate 64 0) (by simp [hkey])
  refine ⟨⟨?_, rfl, rfl, rfl, rfl⟩, rfl, rfl, rfl, rfl, rfl⟩
  simp only [hmacmd5_sign, hmacmd5_invalidate]
  exact hk

theorem hmacmd5_sign_wipes_witness :
    (hmacmd5_init false hmacmd5_zero [1, 2, 3]).key.length = 64 ∧
    (hmacmd5_sign false (hmacmd5_update false (hmacmd5_init false hmacmd5_zero [1, 2, 3])
      [4, 5])).2.key = List.replicate 64 0 :=
  ⟨by decide!,
    (hmacmd5_sign_wipes false (hmacmd5_update false (hmacmd5_init false hmacmd5_zero [1, 2, 3])
      [4, 5]) [] (by decide!)).1.1⟩

/-- The state left by a complete run of HMAC-MD5 with the key `Jefe` is the wiped state,
though the state before signing held the key. -/
theorem hmacmd5_sign_wipes_example : ∀ be : Bool,
    (hmacmd5_update be (hmacmd5_init be hmacmd5_zero (ascii "Jefe")) (ascii "what")).key
      = ascii "Jefe" ++ List.replicate 60 0 ∧
    (hmacmd5_sign be
      (hmacmd5_update be (hmacmd5_init be hmacmd5_zero (ascii "Jefe")) (ascii "what"))).2
      = hmacmd5_zero := by
  decide!

/-! ## The last accepted message again -/

/-- C25: for a peer with a recorded baseline, a local clock not earlier than the
last-accepted local time and no 64-bit wrap-around (`now + fuzz` stays below `2 ^ 64` and
the last-accepted local time is at least `fuzz`), a message whose received timestamp
equals the last-accepted peer timestamp (in microseconds) is accepted; among the messages
whose received timestamp is not later than the last accepted one, exactly those with a
strictly earlier timestamp are rejected. -/
theorem check_timestamp_accepts_replay (undef : timeval → Bool) (peer : auth_peer)
    (rcv_ts now : timeval)
    (hbase : undef peer.ts_last = false)
    (hle : tv2usec rcv_ts ≤ tv2usec peer.ts_rcv_last)
    (hnow : tv2usec peer.ts_last ≤ tv2usec now)
    (hN : tv2usec now + 1000000 < 2 ^ 64) (hL : 1000000 ≤ tv2usec peer.ts_last) :
    (tv2usec rcv_ts = tv2usec peer.ts_rcv_last →
      (dhcp6_check_timestamp undef peer rcv_ts now).1 = 1) ∧
    ((dhcp6_check_timestamp undef peer rcv_ts now).1 = 0 ↔
      tv2usec rcv_ts < tv2usec peer.ts_rcv_last) := by
  simp only [Nat.reducePow] at hN
  have hLlt := tv2usec_lt peer.ts_last
  have hPlt := tv2usec_lt peer.ts_rcv_last
  have hacc : tv2usec rcv_ts = tv2usec peer.ts_rcv_last →
      (dhcp6_check_timestamp undef peer rcv_ts now).1 = 1 := by
    intro heq
    rw [check_timestamp_accept_iff undef peer rcv_ts now hbase (by omega), heq]
    generalize tv2usec now = N at *
    generalize tv2usec peer.ts_last = L at *
    generalize tv2usec peer.ts_rcv_last = P at *
    have e0 : sub64 P P = 0 := by
      simp only [sub64, u64]; omega
    rw [e0]
    simp only [u64, sub64, ts_fuzz, ts_drift]
    omega
  refine ⟨hacc, ?_, ?_⟩
  · intro h0
    by_contra hlt
    have h1 := hacc (by omega)
    rw [h1] at h0
    exact absurd h0 (by decide)
  · intro hlt
    unfold dhcp6_check_timestamp
    simp only [hbase, Bool.false_eq_true, if_false, hlt, if_true]

theorem check_timestamp_accepts_replay_witness :
    example_undef
      (⟨[1], [2], ⟨100, 0⟩, ⟨100, 0⟩⟩ : auth_peer).ts_last = false ∧
    tv2usec ⟨100, 0⟩
      = tv2usec (⟨[1], [2], ⟨100, 0⟩, ⟨100, 0⟩⟩ : auth_peer).ts_rcv_last ∧
    (dhcp6_check_timestamp example_undef ⟨[1], [2], ⟨100, 0⟩, ⟨100, 0⟩⟩ ⟨100, 0⟩
      ⟨103, 0⟩).1 = 1 :=
  ⟨rfl, rfl,
    (check_timestamp_accepts_replay example_undef ⟨[1], [2], ⟨100, 0⟩, ⟨100, 0⟩⟩ ⟨100, 0⟩
      ⟨103, 0⟩ rfl (by decide) (by decide) (by decide!) (by decide)).1 rfl⟩

/-- The last accepted message replayed: with the baseline at 100 s, the same peer
timestamp is accepted at the same local time and three seconds later, and a peer
timestamp one microsecond earlier is rejected. -/
theorem check_timestamp_replay_example :
    (dhcp6_check_timestamp example_undef ⟨[1], [2], ⟨100, 0⟩, ⟨100, 0⟩⟩ ⟨100, 0⟩
      ⟨100, 0⟩).1 = 1 ∧
    (dhcp6_check_timestamp example_undef ⟨[1], [2], ⟨100, 0⟩, ⟨100, 0⟩⟩ ⟨100, 0⟩
      ⟨103, 0⟩).1 = 1 ∧
    (dhcp6_check_timestamp example_undef ⟨[1], [2], ⟨100, 0⟩, ⟨100, 0⟩⟩ ⟨99, 999999⟩
      ⟨103, 0⟩).1 = 0 := by
  decide

end Auth
